import Mathlib

/-!
# Automation-script generator: assertion DSL compiler and script assembler

A shallow embedding of `scriptGenerator.js` and `configParser.js`.

JavaScript strings are modelled as lists of characters (`Str`), one `Char` for each
code point.  The JavaScript built-ins the two files rely on (`trim`, `toLowerCase`, `includes`, `split`,
`replace`, `match`, `join`, property lookup on plain objects) are modelled in the
first part of the file; the two source files follow, function by function.

* A value that may be `null` or `undefined` is an `Option`.
* A call that may raise an exception returns an `Except Failure`.
* The recursion of `parseCustomAssertion` is bounded by a fuel; a result `none` of
  the bounded function means that the fuel ran out, never that the code returned.
* The regular expressions are syntax trees run by a backtracking matcher that
  lists the matches in the order JavaScript tries them.
* Numbers are natural numbers printed in decimal, which is what JavaScript prints
  below `2 ^ 53`.
-/

namespace ScriptGen

/-! ## Strings -/

/-- A JavaScript string. -/
abbrev Str := List Char

instance : Coe String Str := ⟨String.toList⟩

/-- The characters matched by `\s`, which are also the ones `trim` removes
(white space and line terminators). -/
def isJsSpace (c : Char) : Bool :=
  let n := c.toNat
  n = 9 || n = 10 || n = 11 || n = 12 || n = 13 || n = 32 || n = 160 || n = 5760
    || (8192 ≤ n && n ≤ 8202) || n = 8232 || n = 8233 || n = 8239 || n = 8287
    || n = 12288 || n = 65279

/-- The line terminators, which `.` does not match. -/
def isLineTerminator (c : Char) : Bool :=
  let n := c.toNat
  n = 10 || n = 13 || n = 8232 || n = 8233

/-- The class `\d`. -/
def isDigit (c : Char) : Bool := 48 ≤ c.toNat && c.toNat ≤ 57

/-- The class `\w`. -/
def isWord (c : Char) : Bool :=
  let n := c.toNat
  (97 ≤ n && n ≤ 122) || (65 ≤ n && n ≤ 90) || (48 ≤ n && n ≤ 57) || n = 95

/-- `s.trimStart()`. -/
def trimStart : Str → Str
  | [] => []
  | c :: t => if isJsSpace c then trimStart t else c :: t

/-- `s.trimEnd()`. -/
def trimEnd (s : Str) : Str := (trimStart s.reverse).reverse

/-- `s.trim()`. -/
def trim (s : Str) : Str := trimEnd (trimStart s)

/-- `s.toLowerCase()` on the letters `A` to `Z`.  JavaScript also maps the upper-case
letters outside ASCII; the model keeps every other character as it is. -/
def toLowerCase (s : Str) : Str := s.map Char.toLower

/-- `s.startsWith(p)`. -/
def startsWith (s p : Str) : Bool := p.isPrefixOf s

/-- `s.includes(p)`. -/
def includes : Str → Str → Bool
  | [], p => p.isEmpty
  | c :: t, p => p.isPrefixOf (c :: t) || includes t p

/-- The first occurrence of `p` in `s`: the text before it and the text after it. -/
def splitFirst : Str → Str → Option (Str × Str)
  | [], p => if p.isEmpty then some ([], []) else none
  | c :: t, p =>
    if p.isPrefixOf (c :: t) then some ([], (c :: t).drop p.length)
    else (splitFirst t p).map fun r => (c :: r.1, r.2)

/-- The replacement text of `String.prototype.replace` for a string pattern:
`$$` is a dollar sign, `$&` the matched text, dollar-backtick the text before the
match, dollar-apostrophe the text after it; every other character stands for itself. -/
def getSubstitution (matched before after : Str) : Str → Str
  | [] => []
  | c :: t =>
    if c = '$' then
      match t with
      | [] => [c]
      | d :: u =>
        if d = '$' then '$' :: getSubstitution matched before after u
        else if d = '&' then matched ++ getSubstitution matched before after u
        else if d = Char.ofNat 96 then before ++ getSubstitution matched before after u
        else if d = Char.ofNat 39 then after ++ getSubstitution matched before after u
        else c :: getSubstitution matched before after (d :: u)
    else c :: getSubstitution matched before after t

/-- `s.replace(p, r)` for a string pattern `p` and a string `r`: only the first
occurrence of `p` is replaced. -/
def jsReplace (s p r : Str) : Str :=
  match splitFirst s p with
  | none => s
  | some (before, after) => before ++ getSubstitution p before after r ++ after

/-- `parts.join(sep)`. -/
def join (sep : Str) (parts : List Str) : Str := sep.intercalate parts

/-- `parseInt(d)` for a run of decimal digits. -/
def parseInt (d : Str) : Nat := d.foldl (fun a c => 10 * a + (c.toNat - 48)) 0

/-- The text of a number in a template literal.  Exact below `2 ^ 53`. -/
def numToStr (n : Nat) : Str := (Nat.repr n).toList

/-! ## Regular expressions -/

/-- The regular expressions of the source, as syntax trees. -/
inductive Re where
  | eps
  | lit (c : Char)
  | cls (p : Char → Bool)
  | seq (a b : Re)
  | alt (a b : Re)
  | opt (a : Re)
  | plus (a : Re) (greedy : Bool)
  | group (n : Nat) (a : Re)
  | eos

/-- The capture slots `m[0]`, `m[1]`, ... of a match; `none` is `undefined`. -/
abbrev Caps := List (Option Str)

/-- The part of `s` consumed when `rest` is what remains of it. -/
def consumed (s rest : Str) : Str := s.take (s.length - rest.length)

/-- Zero or more further iterations of a quantified atom, in backtracking order:
a greedy quantifier tries one more iteration first, a lazy one tries to stop first. -/
def starLoop (step : Str → Caps → List (Str × Caps)) (greedy : Bool) :
    Nat → Str → Caps → List (Str × Caps)
  | 0, s, c => [(s, c)]
  | fuel + 1, s, c =>
    let more := ((step s c).filter fun r => r.1.length < s.length).flatMap
      fun r => starLoop step greedy fuel r.1 r.2
    if greedy then more ++ [(s, c)] else (s, c) :: more

/-- All the ways `re` matches a beginning of `s`, in the order a backtracking
matcher tries them: each result is the remaining input and the captures. -/
def Re.run : Re → Str → Caps → List (Str × Caps)
  | .eps, s, c => [(s, c)]
  | .lit ch, s, c =>
    match s with
    | [] => []
    | x :: t => if x = ch then [(t, c)] else []
  | .cls p, s, c =>
    match s with
    | [] => []
    | x :: t => if p x then [(t, c)] else []
  | .seq a b, s, c => (a.run s c).flatMap fun r => b.run r.1 r.2
  | .alt a b, s, c => a.run s c ++ b.run s c
  | .opt a, s, c => a.run s c ++ [(s, c)]
  | .plus a greedy, s, c => (a.run s c).flatMap fun r => starLoop a.run greedy r.1.length r.1 r.2
  | .group n a, s, c => (a.run s c).map fun r => (r.1, r.2.set n (some (consumed s r.1)))
  | .eos, s, c => if s.isEmpty then [(s, c)] else []

/-- The match of `re` (with `n` capture groups) starting exactly at the beginning of `s`. -/
def Re.matchAt (re : Re) (n : Nat) (s : Str) : Option (Str × Caps) :=
  match re.run s (List.replicate (n + 1) none) with
  | [] => none
  | r :: _ => some (r.1, r.2.set 0 (some (consumed s r.1)))

/-- `s.match(re)` for a non-global `re`: the captures of the leftmost match. -/
def Re.exec (re : Re) (n : Nat) : Str → Option Caps
  | [] => (re.matchAt n []).map fun r => r.2
  | c :: t =>
    match re.matchAt n (c :: t) with
    | some r => some r.2
    | none => re.exec n t

/-- The capture `m[i]`. -/
def cap (m : Caps) (i : Nat) : Option Str := (m.get? i).join

/-- A literal run of characters. -/
def Re.str : Str → Re
  | [] => .eps
  | [c] => .lit c
  | c :: t => .seq (.lit c) (Re.str t)

/-- Concatenation of several expressions. -/
def Re.cat : List Re → Re
  | [] => .eps
  | [a] => a
  | a :: t => .seq a (Re.cat t)

/-- Alternation of several expressions, tried left to right. -/
def Re.alts : List Re → Re
  | [] => .eps
  | [a] => a
  | a :: t => .alt a (Re.alts t)

/-- `s.split(re)` with at most `fuel` pieces still to cut: `cur` holds, reversed,
the piece being read.  The separators of the source never match the empty text. -/
def splitLoop (re : Re) : Nat → Str → Str → List Str
  | 0, s, cur => [cur.reverse ++ s]
  | fuel + 1, s, cur =>
    match s with
    | [] => [cur.reverse]
    | c :: t =>
      match re.matchAt 0 (c :: t) with
      | some r =>
        if r.1.length < (c :: t).length then cur.reverse :: splitLoop re fuel r.1 []
        else splitLoop re fuel t (c :: cur)
      | none => splitLoop re fuel t (c :: cur)

/-- `s.split(re)`. -/
def jsSplit (re : Re) (s : Str) : List Str := splitLoop re (s.length + 1) s []

/-! ## `scriptGenerator.js`: the assertion DSL compiler -/

/-- Concatenation of the pieces of a template literal. -/
def cat (pieces : List Str) : Str := pieces.flatten

/-- A value interpolated in a template literal: `null` prints as `null`. -/
def showNull : Option Str → Str
  | none => "null"
  | some s => s

/-- A capture interpolated in a template literal: `undefined` prints as `undefined`. -/
def showCap (m : Caps) (i : Nat) : Str := (cap m i).getD "undefined"

/-- A capture handed on as an instruction; an undefined capture and the empty
text are both falsy there. -/
def capText (m : Caps) (i : Nat) : Str := (cap m i).getD []

/-- JavaScript truthiness of a string-or-null value, as used by `filter(Boolean)`,
`||` and `? :`. -/
def truthy : Option Str → Bool
  | none => false
  | some s => !s.isEmpty

/-- `results.filter(Boolean)`. -/
def filterBoolean (results : List (Option Str)) : List Str :=
  results.filterMap fun r => if truthy r then r else none

/-- `xs.map(f)` for an `f` that may run out of fuel. -/
def mapFuel (f : Str → Option (Option Str)) : List Str → Option (List (Option Str))
  | [] => some []
  | x :: t =>
    match f x with
    | none => none
    | some r => (mapFuel f t).map fun rs => r :: rs

/-- The class `[.*+?^${}()|[\]\\]` of regular-expression metacharacters. -/
def isRegexMeta (c : Char) : Bool :=
  c = '.' || c = '*' || c = '+' || c = '?' || c = '^' || c = '$' || c = Char.ofNat 123
    || c = Char.ofNat 125 || c = '(' || c = ')' || c = '|' || c = '[' || c = ']'
    || c = Char.ofNat 92

/-- `val.replace(/[.*+?^${}()|[\]\\]/g, '\\$&')`: a backslash before every metacharacter. -/
def escapeRegex (val : Str) : Str :=
  val.flatMap fun c => if isRegexMeta c then [Char.ofNat 92, c] else [c]

/-- `.` : any character but a line terminator. -/
def reDot : Re := .cls fun c => !isLineTerminator c

/-- `['"]`. -/
def reQuote : Re := .cls fun c => c = Char.ofNat 39 || c = '"'

/-- `\s+` -/
def reSpaces : Re := .plus (.cls isJsSpace) true

/-- `\d+` -/
def reDigits : Re := .plus (.cls isDigit) true

/-- `/\s+and\s+/` -/
def reAndSep : Re := Re.cat [reSpaces, Re.str "and", reSpaces]

/-- `/\s+or\s+/` -/
def reOrSep : Re := Re.cat [reSpaces, Re.str "or", reSpaces]

/-- `/(text|value|attribute ([\w-]+)) PHRASE ['"]?(.+?)['"]?$/`, the shape shared by
three expressions of the source; `phrase` comes with its two surrounding spaces. -/
def reClause (phrase : Str) : Re :=
  Re.cat [
    .group 1 (Re.alts [Re.str "text", Re.str "value",
      .seq (Re.str "attribute ") (.group 2 (.plus (.cls fun c => isWord c || c = '-') true))]),
    Re.str phrase, .opt reQuote, .group 3 (.plus reDot false), .opt reQuote, .eos]

/-- `/(text|value|attribute ([\w-]+)) does not contain ['"]?(.+?)['"]?$/` -/
def reNotContain : Re := reClause " does not contain "

/-- `/(text|value|attribute ([\w-]+)) starts with ['"]?(.+?)['"]?$/` -/
def reStartsWith : Re := reClause " starts with "

/-- `/(text|value|attribute ([\w-]+)) ends with ['"]?(.+?)['"]?$/` -/
def reEndsWith : Re := reClause " ends with "

/-- `/is the (\d+)(st|nd|rd|th) child/` -/
def reNthChild : Re :=
  Re.cat [Re.str "is the ", .group 1 reDigits,
    .group 2 (Re.alts [Re.str "st", Re.str "nd", Re.str "rd", Re.str "th"]), Re.str " child"]

/-- `/if (.+?),? then (.+)/` -/
def reIfThen : Re :=
  Re.cat [Re.str "if ", .group 1 (.plus reDot false), .opt (.lit ','), Re.str " then ",
    .group 2 (.plus reDot true)]

/-- `/wait (up to|for)? ?(\d+) (seconds|second|ms|milliseconds) for (.+)/` -/
def reWait : Re :=
  Re.cat [Re.str "wait ", .opt (.group 1 (.alt (Re.str "up to") (Re.str "for"))), .opt (.lit ' '),
    .group 2 reDigits, .lit ' ',
    .group 3 (Re.alts [Re.str "seconds", Re.str "second", Re.str "ms", Re.str "milliseconds"]),
    Re.str " for ", .group 4 (.plus reDot true)]

/-- `/retry until (.+)/` -/
def reRetry : Re := Re.cat [Re.str "retry until ", .group 1 (.plus reDot true)]

/-- `/report ['"](.+)['"]( if (.+))?/` -/
def reReport : Re :=
  Re.cat [Re.str "report ", reQuote, .group 1 (.plus reDot true), reQuote,
    .opt (.group 2 (.seq (Re.str " if ") (.group 3 (.plus reDot true))))]

/-- `/on failure,? (.+)/` -/
def reOnFailure : Re :=
  Re.cat [Re.str "on failure", .opt (.lit ','), .lit ' ', .group 1 (.plus reDot true)]

/-- A string test such as `target === 'text'`. -/
def strEq (a b : Str) : Bool := decide (a = b)

/-- The three `return` statements of a leaf block, one per framework; with any
other framework none of them is taken and control falls through (`none`). -/
def byFramework (framework : Str) (playwright cypress selenium : Str) : Option Str :=
  if strEq framework "playwright" then some playwright
  else if strEq framework "cypress" then some cypress
  else if strEq framework "selenium" then some selenium
  else none

/-- The block `Not contains (text, value, attr)`, entered with the match `m`. -/
def notContainBlock (framework selector locator : Str) (m : Caps) : Option Str :=
  let target := capText m 1
  let attr := showCap m 2
  let val := showCap m 3
  if startsWith target "attribute" then
    byFramework framework
      (cat ["expect((await ", locator, ".getAttribute(\"", attr, "\"))).not.toContain(\"", val, "\");"])
      (cat ["cy.get('", selector, "').invoke('attr', '", attr, "').should('not.contain', \"", val, "\");"])
      (cat ["assert(!driver.findElement(By.cssSelector('", selector, "')).getAttribute('", attr,
        "').includes(\"", val, "\"));"])
  else if strEq target "text" then
    byFramework framework
      (cat ["expect(await ", locator, ".textContent()).not.toContain(\"", val, "\");"])
      (cat ["cy.get('", selector, "').invoke('text').should('not.contain', \"", val, "\");"])
      (cat ["assert(!driver.findElement(By.cssSelector('", selector, "')).getText().includes(\"", val,
        "\"));"])
  else if strEq target "value" then
    byFramework framework
      (cat ["expect(await ", locator, ".inputValue()).not.toContain(\"", val, "\");"])
      (cat ["cy.get('", selector, "').invoke('val').should('not.contain', \"", val, "\");"])
      (cat ["assert(!driver.findElement(By.cssSelector('", selector,
        "')).getAttribute('value').includes(\"", val, "\"));"])
  else none

/-- The block `Starts with (text, value, attr)`, entered with the match `m`. -/
def startsWithBlock (framework selector locator : Str) (m : Caps) : Option Str :=
  let target := capText m 1
  let attr := showCap m 2
  let val := showCap m 3
  if startsWith target "attribute" then
    byFramework framework
      (cat ["expect((await ", locator, ".getAttribute(\"", attr, "\"))).toMatch(/^", escapeRegex val, "/);"])
      (cat ["cy.get('", selector, "').invoke('attr', '", attr, "').should('match', /^", escapeRegex val,
        "/);"])
      (cat ["assert(driver.findElement(By.cssSelector('", selector, "')).getAttribute('", attr,
        "').startsWith(\"", val, "\"));"])
  else if strEq target "text" then
    byFramework framework
      (cat ["expect(await ", locator, ".textContent()).toMatch(/^", escapeRegex val, "/);"])
      (cat ["cy.get('", selector, "').invoke('text').should('match', /^", escapeRegex val, "/);"])
      (cat ["assert(driver.findElement(By.cssSelector('", selector, "')).getText().startsWith(\"", val,
        "\"));"])
  else if strEq target "value" then
    byFramework framework
      (cat ["expect(await ", locator, ".inputValue()).toMatch(/^", escapeRegex val, "/);"])
      (cat ["cy.get('", selector, "').invoke('val').should('match', /^", escapeRegex val, "/);"])
      (cat ["assert(driver.findElement(By.cssSelector('", selector,
        "')).getAttribute('value').startsWith(\"", val, "\"));"])
  else none

/-- The block `Ends with (text, value, attr)`, entered with the match `m`. -/
def endsWithBlock (framework selector locator : Str) (m : Caps) : Option Str :=
  let target := capText m 1
  let attr := showCap m 2
  let val := showCap m 3
  if startsWith target "attribute" then
    byFramework framework
      (cat ["expect((await ", locator, ".getAttribute(\"", attr, "\"))).toMatch(/", escapeRegex val, "$ /);"])
      (cat ["cy.get('", selector, "').invoke('attr', '", attr, "').should('match', /", escapeRegex val,
        "$ /);"])
      (cat ["assert(driver.findElement(By.cssSelector('", selector, "')).getAttribute('", attr,
        "').endsWith(\"", val, "\"));"])
  else if strEq target "text" then
    byFramework framework
      (cat ["expect(await ", locator, ".textContent()).toMatch(/", escapeRegex val, "$ /);"])
      (cat ["cy.get('", selector, "').invoke('text').should('match', /", escapeRegex val, "$ /);"])
      (cat ["assert(driver.findElement(By.cssSelector('", selector, "')).getText().endsWith(\"", val,
        "\"));"])
  else if strEq target "value" then
    byFramework framework
      (cat ["expect(await ", locator, ".inputValue()).toMatch(/", escapeRegex val, "$ /);"])
      (cat ["cy.get('", selector, "').invoke('val').should('match', /", escapeRegex val, "$ /);"])
      (cat ["assert(driver.findElement(By.cssSelector('", selector,
        "')).getAttribute('value').endsWith(\"", val, "\"));"])
  else none

/-- The block `nth-child/nth-of-type (basic)`, entered with the match `m`. -/
def nthChildBlock (framework selector locator : Str) (m : Caps) : Option Str :=
  let n := numToStr (parseInt (capText m 1))
  byFramework framework
    (cat ["await expect(", locator, ":nth-child(", n, ")).toBeVisible();"])
    (cat ["cy.get('", selector, ":nth-child(", n, ")').should('exist');"])
    (cat ["assert(driver.findElements(By.cssSelector('", selector, ":nth-child(", n, ")')).length > 0);"])

/-- The block `Conditional logic: if ... then ...`, entered with the match `m`;
`condition` and `compiled` are the results of the two recursive calls. -/
def ifThenBlock (framework : Str) (m : Caps) (condition compiled : Option Str) : Option Str :=
  let action := if truthy compiled then showNull compiled else showCap m 2
  byFramework framework
    (cat ["if (", showNull condition, ") \x7b\n  ", action, "\n\x7d"])
    (cat ["cy.then(() => \x7b if (", showNull condition, ") \x7b ", action, " \x7d \x7d);"])
    (cat ["if (", showNull condition, ") \x7b\n  ", action, "\n\x7d"])

/-- The block `Wait/retry logic`, entered with the match `m`. -/
def waitBlock (framework selector locator : Str) (m : Caps) : Option Str :=
  let time := parseInt (capText m 2)
  let ms := numToStr (if startsWith (capText m 3) "s" then time * 1000 else time)
  let what := showCap m 4
  byFramework framework
    (cat ["await ", locator, ".waitFor(\x7b timeout: ", ms, " \x7d); // waiting for ", what])
    (cat ["cy.get('", selector, "', \x7b timeout: ", ms, " \x7d); // waiting for ", what])
    (cat ["await driver.wait(until.elementLocated(By.cssSelector('", selector, "')), ", ms,
      "); // waiting for ", what])

/-- The block `Retry until ...`, entered with the match `m`; the recursive call
`recur` is made for playwright and selenium only.  The outer `none` is a lack of
fuel, the inner one a fall through. -/
def retryBlock (recur : Str → Option (Option Str)) (framework : Str) (m : Caps) :
    Option (Option Str) :=
  let untilText := showCap m 1
  if strEq framework "playwright" || strEq framework "selenium" then
    (recur (capText m 1)).map fun r =>
      some (cat ["// Retry logic: while (!(await (", showNull r, "))) \x7b /* retry */ \x7d"])
  else if strEq framework "cypress" then
    some (some (cat ["// Retry logic: use cy.retry-until plugin or custom loop for: ", untilText]))
  else some none

/-- The block `Reporting/logging`, entered with the match `m`; `cond` is the
compiled condition, `null` when the instruction has none. -/
def reportBlock (framework : Str) (m : Caps) (cond : Option Str) : Option Str :=
  let msg := showCap m 1
  if truthy cond then
    byFramework framework
      (cat ["if (", showNull cond, ") \x7b console.log('", msg, "'); \x7d"])
      (cat ["if (", showNull cond, ") \x7b cy.log('", msg, "'); \x7d"])
      (cat ["if (", showNull cond, ") \x7b console.log('", msg, "'); \x7d"])
  else
    byFramework framework
      (cat ["console.log('", msg, "');"])
      (cat ["cy.log('", msg, "');"])
      (cat ["console.log('", msg, "');"])

/-- The block `Error handling: on failure ...`, entered with the match `m`. -/
def onFailureBlock (framework : Str) (m : Caps) : Option Str :=
  let handler := showCap m 1
  byFramework framework
    (cat ["try \x7b\n  // assertion\n\x7d catch (e) \x7b\n  ", handler, "\n\x7d"])
    (cat ["Cypress.on('fail', (e) => \x7b ", handler, "; throw e; \x7d);"])
    (cat ["try \x7b\n  // assertion\n\x7d catch (e) \x7b\n  ", handler, "\n\x7d"])

/-- The comment block of the disjunction, when more than one part compiled. -/
def orBlock (codeLines : List Str) : Option Str :=
  if codeLines.length > 1 then
    some (join "\n  " ("// At least one of the following should pass:".toList ::
      codeLines.map fun l => "//   ".toList ++ l))
  else none

/-- A block that matched nothing or returned nothing lets the next block run. -/
def orNext (block : Option Str) (next : Option (Option Str)) : Option (Option Str) :=
  match block with
  | some code => some (some code)
  | none => next

/-- A block entered only when `text.match(re)` succeeds. -/
def onMatch (m : Option Caps) (block : Caps → Option Str) : Option Str :=
  match m with
  | some caps => block caps
  | none => none

/-- The statements of `parseCustomAssertion` that follow the computation of `text`,
the cascade of pattern blocks, with the recursive call as the parameter `recur`.
The outer `none` reports that a recursive call ran out of fuel; otherwise the
result is `some none` for `null` and `some (some code)` for a string. -/
def parseBody (recur : Str → Option (Option Str)) (text framework selector locator : Str) :
    Option (Option Str) :=
  if includes text " and " then
    (mapFuel recur (jsSplit reAndSep text)).map fun rs => some (join "\n  " (filterBoolean rs))
  else
    (if includes text " or " then
      (mapFuel recur (jsSplit reOrSep text)).map fun rs => orBlock (filterBoolean rs)
     else some none).bind fun disjunction =>
    orNext disjunction <|
    orNext (onMatch (reNotContain.exec 3 text) (notContainBlock framework selector locator)) <|
    orNext (onMatch (reStartsWith.exec 3 text) (startsWithBlock framework selector locator)) <|
    orNext (onMatch (reEndsWith.exec 3 text) (endsWithBlock framework selector locator)) <|
    orNext (onMatch (reNthChild.exec 2 text) (nthChildBlock framework selector locator)) <|
    (match reIfThen.exec 2 text with
      | some m =>
        (recur (capText m 1)).bind fun condition =>
        (recur (capText m 2)).map fun compiled => ifThenBlock framework m condition compiled
      | none => some none).bind fun conditional =>
    orNext conditional <|
    orNext (onMatch (reWait.exec 4 text) (waitBlock framework selector locator)) <|
    (match reRetry.exec 1 text with
      | some m => retryBlock recur framework m
      | none => some none).bind fun retry =>
    orNext retry <|
    (match reReport.exec 3 text with
      | some m =>
        (if truthy (cap m 3) then recur (capText m 3) else some none).map fun cond =>
          reportBlock framework m cond
      | none => some none).bind fun report =>
    orNext report <|
    orNext (onMatch (reOnFailure.exec 1 text) (onFailureBlock framework)) <|
    some none

/-- The function `parseCustomAssertion` with a bound `fuel` on the depth of its
recursion: the guard `if (!instruction) return null;`, the computation of `text`,
and the cascade `parseBody`.  The result is `none` when the fuel runs out. -/
def parseCustomAssertionAux : Nat → Str → Str → Str → Str → Option (Option Str)
  | 0, _, _, _, _ => none
  | fuel + 1, instruction, framework, selector, locator =>
    if instruction.isEmpty then some none
    else
      parseBody (fun part => parseCustomAssertionAux fuel part framework selector locator)
        (toLowerCase (trim instruction)) framework selector locator

/-- The function `parseCustomAssertion(instruction, framework, selector, locator)`.
Every recursive call is on a text shorter than the instruction, so a fuel of its
length plus one is never used up. -/
def parseCustomAssertion (instruction framework selector locator : Str) : Option (Option Str) :=
  parseCustomAssertionAux (instruction.length + 1) instruction framework selector locator

/-! ## JavaScript objects -/

/-- The values a property lookup on the objects of the two files can give. -/
inductive JsVal where
  | undefined
  | str (s : Str)
  | object
  | builtin (name : Str)
  deriving DecidableEq

/-- An abrupt end of a call: the two kinds of exception the code can raise, and
the lack of fuel of the model itself. -/
inductive Failure where
  | referenceError (name : Str)
  | typeError (what : Str)
  | outOfFuel
  deriving DecidableEq

/-- Truthiness of a looked-up value, as tested by `||`. -/
def JsVal.truthy : JsVal → Bool
  | .undefined => false
  | .str s => !s.isEmpty
  | .object => true
  | .builtin _ => true

/-- `a || b`. -/
def JsVal.or (a b : JsVal) : JsVal := if a.truthy then a else b

/-- The names of the functions every plain object inherits from `Object.prototype`. -/
def objectPrototypeFunctions : List Str :=
  ["constructor", "hasOwnProperty", "isPrototypeOf", "propertyIsEnumerable", "toLocaleString",
    "toString", "valueOf", "__defineGetter__", "__defineSetter__", "__lookupGetter__",
    "__lookupSetter__"]

/-- The lookup of a key that is not an own property of a plain object: the
members of `Object.prototype` are found, anything else is `undefined`. -/
def objectPrototype (key : Str) : JsVal :=
  if objectPrototypeFunctions.contains key then .builtin key
  else if strEq key "__proto__" then .object
  else .undefined

/-- The lookup `obj[key]` on a plain object whose own properties are the strings
of `own` (the first entry of a key is its property). -/
def getProp (own : List (Str × Str)) (key : Str) : JsVal :=
  match own.lookup key with
  | some s => .str s
  | none => objectPrototype key

/-- The text of a value interpolated in a template literal or used as a replacement;
the function found under `constructor` is `Object`. -/
def JsVal.toStr : JsVal → Str
  | .undefined => "undefined"
  | .str s => s
  | .object => "[object Object]"
  | .builtin name =>
    cat ["function ", if strEq name "constructor" then "Object" else name, "() \x7b [native code] \x7d"]

/-- The call `f(matched, position, string)` that `replace` makes when the replacement
is one of the functions of `Object.prototype`, with `this` undefined: `Object`
returns its argument wrapped, `toString` names the undefined receiver,
`isPrototypeOf` answers `false` for a string, and the others reject the receiver. -/
def callBuiltin (name matched : Str) : Except Failure Str :=
  if strEq name "constructor" then .ok matched
  else if strEq name "toString" then .ok "[object Undefined]"
  else if strEq name "isPrototypeOf" then .ok "false"
  else .error (.typeError name)

/-- `s.replace(p, r)` for a string pattern `p` and any replacement value `r`. -/
def replaceVal (s p : Str) (r : JsVal) : Except Failure Str :=
  match r with
  | .builtin name =>
    match splitFirst s p with
    | none => .ok s
    | some (before, after) => (callBuiltin name p).map fun t => before ++ t ++ after
  | v => .ok (jsReplace s p v.toStr)

/-! ## `configParser.js` -/

/-- An `actionTemplates` object: its string templates by action kind, and its
nested `assert` mapping when it has one. -/
structure Templates where
  kinds : List (Str × Str)
  assert : Option (List (Str × Str))
  deriving DecidableEq

/-- The lookup `actionTemplates[key]`. -/
def Templates.get (t : Templates) (key : Str) : JsVal :=
  if strEq key "assert" then
    match t.assert with
    | some _ => .object
    | none => objectPrototype key
  else getProp t.kinds key

/-- The spread `{ ...base, ...over }`: a key of `over` wins, key by key at the top
level, so the whole `assert` mapping of `over` replaces the one of `base`. -/
def Templates.spread (base over : Templates) : Templates :=
  { kinds := over.kinds ++ base.kinds
    assert := match over.assert with
      | some a => some a
      | none => base.assert }

/-- The object `{}`. -/
def Templates.empty : Templates := { kinds := [], assert := none }

/-- A configuration as uploaded: each of the three fields may be missing. -/
structure Config where
  framework : Option Str
  locatorMap : Option (List (Str × Str))
  actions : Option Templates
  deriving DecidableEq

/-- The result of `parseConfig`. -/
structure ParsedConfig where
  framework : Str
  locatorMap : List (Str × Str)
  actionTemplates : Templates
  deriving DecidableEq

/-- The table `defaultTemplates`, looked up by framework name; a name outside the
table contributes no property to the spread. -/
def defaultTemplates (framework : Str) : Templates :=
  if strEq framework "plain" then
    { kinds := [("click", "\x7blocator\x7d.click();"), ("input", "\x7blocator\x7d.value = \"\x7bvalue\x7d\";")]
      assert := some [("exists", "// No assertion syntax in plain JS"),
        ("has text", "// No assertion syntax in plain JS"),
        ("value is", "// No assertion syntax in plain JS")] }
  else if strEq framework "playwright" then
    { kinds := [("click", "await \x7blocator\x7d.click();"),
        ("input", "await \x7blocator\x7d.fill(\"\x7bvalue\x7d\");")]
      assert := some [("exists", "await expect(\x7blocator\x7d).toBeVisible();"),
        ("has text", "await expect(\x7blocator\x7d).toHaveText(\"\x7bvalue\x7d\");"),
        ("value is", "await expect(\x7blocator\x7d).toHaveValue(\"\x7bvalue\x7d\");")] }
  else if strEq framework "cypress" then
    { kinds := [("click", "cy.get(\"\x7bselector\x7d\").click();"),
        ("input", "cy.get(\"\x7bselector\x7d\").type(\"\x7bvalue\x7d\");")]
      assert := some [("exists", "cy.get(\"\x7bselector\x7d\").should(\"exist\");"),
        ("has text", "cy.get(\"\x7bselector\x7d\").should(\"have.text\", \"\x7bvalue\x7d\");"),
        ("value is", "cy.get(\"\x7bselector\x7d\").should(\"have.value\", \"\x7bvalue\x7d\");")] }
  else if strEq framework "selenium" then
    { kinds := [("click", "driver.findElement(By.cssSelector(\"\x7bselector\x7d\")).click();"),
        ("input", "driver.findElement(By.cssSelector(\"\x7bselector\x7d\")).sendKeys(\"\x7bvalue\x7d\");")]
      assert := some [
        ("exists", "assert(driver.findElement(By.cssSelector(\"\x7bselector\x7d\")).isDisplayed());"),
        ("has text",
          "assert(driver.findElement(By.cssSelector(\"\x7bselector\x7d\")).getText() === \"\x7bvalue\x7d\");"),
        ("value is",
          "assert(driver.findElement(By.cssSelector(\"\x7bselector\x7d\")).getAttribute(\"value\") === \"\x7bvalue\x7d\");")] }
  else Templates.empty

/-- `x || d` for an optional string `x`. -/
def orDefault (x : Option Str) (d : Str) : Str :=
  match x with
  | some s => if s.isEmpty then d else s
  | none => d

/-- The function `parseConfig(config)`. -/
def parseConfig (config : Config) : ParsedConfig :=
  let framework := orDefault config.framework "plain"
  let locatorMap := config.locatorMap.getD []
  let actionTemplates := (defaultTemplates framework).spread (config.actions.getD Templates.empty)
  { framework := framework, locatorMap := locatorMap, actionTemplates := actionTemplates }

/-- The function `getAssertionTemplate(assertType, actionTemplates)`. -/
def getAssertionTemplate (assertType : Str) (actionTemplates : Templates) : JsVal :=
  match actionTemplates.assert with
  | none => .str ""
  | some a => ((getProp a assertType).or (getProp a "exists")).or (.str "")

/-- The function `getLocator(selector, locatorMap, framework)`. -/
def getLocator (selector : Str) (locatorMap : List (Str × Str)) (framework : Str) : JsVal :=
  if strEq framework "cypress" || strEq framework "selenium" then .str selector
  else (getProp locatorMap selector).or (.str (cat ["document.querySelector(\"", selector, "\")"]))

/-- The function `getActionTemplate(type, actionTemplates)`. -/
def getActionTemplate (type : Str) (actionTemplates : Templates) : JsVal :=
  let defaults : List (Str × Str) :=
    [("click", "\x7blocator\x7d.click();"), ("input", "\x7blocator\x7d.value = \"\x7bvalue\x7d\";")]
  ((actionTemplates.get type).or (getProp defaults type)).or (.str "")

/-! ## `scriptGenerator.js`: the script assembler -/

/-- A recorded action, with the assertion fields the popup adds to it. -/
structure Action where
  type : Str
  selector : Str
  value : Option Str
  assert : Bool
  assertType : Option Str
  assertInstruction : Option Str
  deriving DecidableEq

/-- The statement the fallback without a config emits for one action. -/
def plainLine (a : Action) : Str :=
  if strEq a.type "click" then
    cat ["document.querySelector(\"", a.selector, "\").click();"]
  else if strEq a.type "input" then
    cat ["document.querySelector(\"", a.selector, "\").value = \"", a.value.getD "undefined", "\";"]
  else if a.assert then "// Assertion not supported in plain JS"
  else ""

/-- The lines pushed before the actions. -/
def headerLines (framework : Str) : List Str :=
  if strEq framework "playwright" then
    ["// Playwright script generated",
      "import \x7b test, expect \x7d from '@playwright/test';",
      "test('automation', async (\x7b page \x7d) => \x7b"]
  else if strEq framework "cypress" then ["// Cypress script generated"]
  else if strEq framework "selenium" then
    ["// Selenium script generated",
      "const \x7bBuilder, By, until\x7d = require(\"selenium-webdriver\");",
      "let driver = new Builder().forBrowser(\"chrome\").build();",
      "(async function run() \x7b"]
  else []

/-- The lines pushed after the actions. -/
def footerLines (framework : Str) : List Str :=
  if strEq framework "playwright" then ["\x7d);"]
  else if strEq framework "selenium" then ["\x7d)();"]
  else []

/-- The rendering
`template.replace('{locator}', locator).replace('{selector}', a.selector)`, followed
by `line.replace('{value}', a.value)` when `a.value` is truthy.  A template that
is not a string has no `replace` method. -/
def render (template locator : JsVal) (selector : Str) (value : Option Str) : Except Failure Str :=
  match template with
  | .str t =>
    (replaceVal t "\x7blocator\x7d" locator).map fun withLocator =>
      let line := jsReplace withLocator "\x7bselector\x7d" selector
      if truthy value then jsReplace line "\x7bvalue\x7d" (value.getD []) else line
  | _ => .error (.typeError "replace")

/-- The test `a.assertInstruction && a.assertInstruction.trim()`. -/
def hasInstruction (a : Action) : Bool :=
  match a.assertInstruction with
  | some i => !(trim i).isEmpty
  | none => false

/-- The statements of lines 191 to 327 of `scriptGenerator.js`, a copy of the body
of `parseCustomAssertion` standing inside the callback of `generateAutomationScript`
right after the call of `parseCustomAssertion`.  The first of them,
`if (!instruction) return null;`, reads the identifier `instruction`, which is
declared nowhere in that scope, so a `ReferenceError` is raised there and none of
the following statements runs. -/
def pastedBlock : Except Failure Unit := .error (.referenceError "instruction")

/-- The value of `customCode` after the block
`if (a.assertInstruction && a.assertInstruction.trim()) { ... }`. -/
def customCodeOf (a : Action) (framework : Str) (locator : JsVal) : Except Failure (Option Str) :=
  if hasInstruction a then
    match parseCustomAssertion (a.assertInstruction.getD []) framework a.selector locator.toStr with
    | none => .error .outOfFuel
    | some code => pastedBlock.map fun _ => code
  else .ok none

/-- The lines one action pushes: the body of the `forEach` callback. -/
def actionLines (parsed : ParsedConfig) (a : Action) : Except Failure (List Str) :=
  let locator := getLocator a.selector parsed.locatorMap parsed.framework
  if a.assert then
    let assertType := orDefault a.assertType "exists"
    let assertTemplate := getAssertionTemplate assertType parsed.actionTemplates
    (render assertTemplate locator a.selector a.value).bind fun line =>
    (customCodeOf a parsed.framework locator).map fun customCode =>
      if truthy customCode then [cat ["  ", showNull customCode]]
      else
        cat ["  ", line] ::
          (if hasInstruction a then
            [cat ["  // User validation: ", trim (a.assertInstruction.getD [])]]
          else [])
  else
    let template := getActionTemplate a.type parsed.actionTemplates
    (render template locator a.selector a.value).map fun line => [cat ["  ", line]]

/-- The lines all the actions push, in order; the first exception ends the loop. -/
def allActionLines (parsed : ParsedConfig) : List Action → Except Failure (List Str)
  | [] => .ok []
  | a :: rest =>
    (actionLines parsed a).bind fun ls =>
    (allActionLines parsed rest).map fun more => ls ++ more

/-- The function `generateAutomationScript(actions, config)`; an absent argument
is `none`. -/
def generateAutomationScript (actions : Option (List Action)) (config : Option Config) :
    Except Failure Str :=
  match actions with
  | none => .ok "// No actions selected."
  | some [] => .ok "// No actions selected."
  | some (a :: rest) =>
    match config with
    | none => .ok (join "\n" ((a :: rest).map plainLine))
    | some cfg =>
      let parsed := parseConfig cfg
      (allActionLines parsed (a :: rest)).map fun ls =>
        join "\n" (headerLines parsed.framework ++ ls ++ footerLines parsed.framework)

/-! ## Reading a generated text line by line -/

/-- The lines of a text, cut at every newline. -/
def linesOf : Str → List Str
  | [] => [[]]
  | c :: t =>
    if c = '\n' then [] :: linesOf t
    else
      match linesOf t with
      | [] => [[c]]
      | l :: ls => (c :: l) :: ls

/-- A line is a comment when, leading spaces apart, it starts with `//`. -/
def isCommentLine (l : Str) : Bool := startsWith (l.dropWhile fun c => c = ' ') "//"

/-- An action that asks for an assertion and carries a non-blank instruction. -/
def asksCustomAssertion (a : Action) : Prop := a.assert = true ∧ hasInstruction a = true

/-- The instruction as `parseCustomAssertion` reads it: trimmed and in lower case. -/
def normalize (instruction : Str) : Str := toLowerCase (trim instruction)

/-! ## Notions used in the proofs -/

/-- `x` is below `y` when every result of `x` is also the result of `y`. -/
def FuelLe {α : Type} (x y : Option α) : Prop := ∀ r, x = some r → y = some r

/-- Every character of `w` is white space. -/
def AllSpace (w : Str) : Prop := ∀ c ∈ w, isJsSpace c = true

/-- The text does not start with white space. -/
def NoLead (k : Str) : Prop := ∀ c t, k = c :: t → isJsSpace c = false

/-- The text does not end with white space. -/
def NoTrail (k : Str) : Prop := NoLead k.reverse

/-- The texts left after dropping leading characters of the class `p`, the
shortest first. -/
def tailsWhile (p : Char → Bool) : Str → List Str
  | [] => [[]]
  | x :: t => if p x then tailsWhile p t ++ [x :: t] else [x :: t]

/-- What is left of a text that starts with `and` and a white space, once the
white space that follows `and` is dropped. -/
def afterAnd (v : Str) : Option Str :=
  if startsWith v "and" then
    match v.drop 3 with
    | [] => none
    | z :: y => if isJsSpace z then some (y.dropWhile isJsSpace) else none
  else none

/-- What `/\s+and\s+/` leaves when it matches at the very start of `s`: white space,
`and`, white space, all the white space being taken. -/
def andSepRest (s : Str) : Option Str :=
  match s with
  | [] => none
  | x :: t => if isJsSpace x then afterAnd (t.dropWhile isJsSpace) else none

/-- A block result that, when it is code, is not the empty text. -/
def NonEmptyCode (x : Option Str) : Prop := ∀ code, x = some code → code ≠ []

/-- A result of the cascade that, when it is code, is not the empty text. -/
def Solid (x : Option (Option Str)) : Prop := ∀ code, x = some (some code) → code ≠ []

/-- The class `['"]`. -/
def isQuote (c : Char) : Bool := c = Char.ofNat 39 || c = '"'

/-- The class of `.`. -/
def isDot (c : Char) : Bool := !isLineTerminator c

/-- The class `[\w-]`. -/
def isAttrChar (c : Char) : Bool := isWord c || c = '-'

/-- The first result of a backtracking run. -/
def HeadIs {α : Type} (l : List α) (r : α) : Prop := ∃ more, l = r :: more

/-- The first group of a clause expression, `(text|value|attribute ([\w-]+))`. -/
def nounRe : Re :=
  .group 1 (.alt (Re.str "text") (.alt (Re.str "value")
    (.seq (Re.str "attribute ") (.group 2 (.plus (.cls isAttrChar) true)))))

/-- A literal the clause expressions capture whole: not empty, on one line and
without a quote character. -/
def Literal (v : Str) : Prop := v ≠ [] ∧ ∀ z ∈ v, isDot z = true ∧ isQuote z = false

/-- An attribute name, a non-empty run of the class `[\w-]`. -/
def AttrName (x : Str) : Prop := x ≠ [] ∧ ∀ z ∈ x, isAttrChar z = true

/-- The instruction `<noun><phrase>'V'`; `phrase` comes with its two surrounding spaces. -/
def clauseInstruction (noun phrase v : Str) : Str :=
  noun ++ (phrase ++ Char.ofNat 39 :: (v ++ [Char.ofNat 39]))

/-- An instruction that is neither a conjunction nor a disjunction. -/
def Plain (instruction : Str) : Prop :=
  includes (normalize instruction) " and " = false ∧ includes (normalize instruction) " or " = false

instance (v : Str) : Decidable (Literal v) := by
  unfold Literal
  infer_instance

instance (x : Str) : Decidable (AttrName x) := by
  unfold AttrName
  infer_instance

instance (i : Str) : Decidable (Plain i) := by
  unfold Plain
  infer_instance

/-- The text holds no opening brace, so no placeholder starts in it. -/
def BraceFree (s : Str) : Prop := ∀ c ∈ s, c ≠ Char.ofNat 123

/-- The text holds no dollar sign, so `replace` inserts it as it is. -/
def DollarFree (s : Str) : Prop := ∀ c ∈ s, c ≠ '$'

instance (s : Str) : Decidable (BraceFree s) := by
  unfold BraceFree
  infer_instance

instance (s : Str) : Decidable (DollarFree s) := by
  unfold DollarFree
  infer_instance

/-- The template an action is rendered from: its action template when it asks for
no assertion, its assertion template when it asks for one without an instruction. -/
def UsesTemplate (parsed : ParsedConfig) (act : Action) (t : Str) : Prop :=
  (act.assert = false ∧ getActionTemplate act.type parsed.actionTemplates = .str t) ∨
  (act.assert = true ∧ hasInstruction act = false ∧
    getAssertionTemplate (orDefault act.assertType "exists") parsed.actionTemplates = .str t)

/-- An entry that is there and is not the empty string. -/
def hasTemplate (entry : Option Str) : Bool :=
  match entry with
  | some s => !s.isEmpty
  | none => false

/-- The four names of the table `defaultTemplates`. -/
def recognizedFrameworks : List Str := ["plain", "playwright", "cypress", "selenium"]

/-- Every capture that is set has at most `bound` characters. -/
def CapsLe (bound : Nat) (c : Caps) : Prop := ∀ v ∈ c, ∀ s, v = some s → s.length ≤ bound

/-- A way of matching that never lengthens the input and keeps the captures
within every bound the input is within. -/
def Shrinks (step : Str → Caps → List (Str × Caps)) : Prop :=
  ∀ s c r, r ∈ step s c →
    r.1.length ≤ s.length ∧ ∀ bound, s.length ≤ bound → CapsLe bound c → CapsLe bound r.2

/-- None of the patterns `earlier`, those the cascade tries first, matches the
trimmed lower-case text of the instruction. -/
def NoneMatches (earlier : List (Re × Nat)) (instruction : Str) : Prop :=
  ∀ p ∈ earlier, p.1.exec p.2 (normalize instruction) = none

instance (earlier : List (Re × Nat)) (instruction : Str) :
    Decidable (NoneMatches earlier instruction) := by
  unfold NoneMatches
  infer_instance

/-- The pattern tried before the one of `starts with`. -/
def beforeStartsWith : List (Re × Nat) := [(reNotContain, 3)]

/-- The patterns tried before the one of `ends with`. -/
def beforeEndsWith : List (Re × Nat) := [(reNotContain, 3), (reStartsWith, 3)]

/-- The removal of escaping backslashes: a backslash is dropped and the character
after it is kept; `escaped` tells that the previous character was such a backslash. -/
def dropEscapesAux (escaped : Bool) : Str → Str
  | [] => []
  | c :: t =>
    if escaped then c :: dropEscapesAux false t
    else if c = Char.ofNat 92 then dropEscapesAux true t
    else c :: dropEscapesAux false t

/-- The text with its escaping backslashes removed. -/
def dropEscapes (s : Str) : Str := dropEscapesAux false s

/-- Every metacharacter of the text comes right after an escaping backslash, and
every such backslash comes right before a metacharacter. -/
def wellEscapedAux (escaped : Bool) : Str → Bool
  | [] => !escaped
  | c :: t =>
    if escaped then isRegexMeta c && wellEscapedAux false t
    else if c = Char.ofNat 92 then wellEscapedAux true t
    else !isRegexMeta c && wellEscapedAux false t

/-- The text is a correctly escaped one. -/
def wellEscaped (s : Str) : Bool := wellEscapedAux false s

/-- The patterns tried before the one of `wait`. -/
def beforeWait : List (Re × Nat) :=
  [(reNotContain, 3), (reStartsWith, 3), (reEndsWith, 3), (reNthChild, 2), (reIfThen, 2)]

/-- A non-empty run of decimal digits. -/
def Digits (d : Str) : Prop := d ≠ [] ∧ ∀ c ∈ d, isDigit c = true

/-- A text the pattern of `wait` captures whole as what is waited for: not empty, on
one line and not ending with white space. -/
def Awaited (what : Str) : Prop := what ≠ [] ∧ (∀ c ∈ what, isDot c = true) ∧ NoTrail what

instance (d : Str) : Decidable (Digits d) := by
  unfold Digits
  infer_instance

instance (k : Str) : Decidable (NoTrail k) := by
  unfold NoTrail NoLead
  cases k.reverse with
  | nil => exact isTrue (fun c t h => by simp at h)
  | cons a u =>
    by_cases h : isJsSpace a = false
    · exact isTrue (fun c t hc => by
        injection hc with h1 _
        rw [← h1]
        exact h)
    · exact isFalse (fun hall => h (hall a u rfl))

instance (what : Str) : Decidable (Awaited what) := by
  unfold Awaited
  infer_instance

/-- The instruction `wait <pre><digits> <unit> for <what>`, where `pre` is empty or
ends with a space. -/
def waitInstruction (pre digits unit what : Str) : Str :=
  "wait ".toList ++ (pre ++ (digits ++ (' ' :: (unit ++ (" for ".toList ++ what)))))

/-- The first group of the pattern of `wait`, `(up to|for)`. -/
def waitPrefixRe : Re := .group 1 (.alt (Re.str "up to") (Re.str "for"))

/-- The third group of the pattern of `wait`, `(seconds|second|ms|milliseconds)`. -/
def waitUnitRe : Re :=
  .group 3 (.alt (Re.str "seconds") (.alt (Re.str "second") (.alt (Re.str "ms")
    (Re.str "milliseconds"))))

/-- The milliseconds of a wait as the specification has them: the number times 1000
for `seconds` and `second`, the number itself for `ms` and `milliseconds`. -/
def waitMs (unit : Str) (n : Nat) : Nat :=
  if unit = "seconds".toList ∨ unit = "second".toList then n * 1000 else n

/-- The text starts with the separator of a conditional, ` then ` or `, then `. -/
def thenAt (u : Str) : Bool := " then ".toList.isPrefixOf u || ", then ".toList.isPrefixOf u

/-- The pattern of the conditional reads `c` whole as the condition in front of the
separator `sep`: after the first character of `c`, no place of `c` starts a
separator. -/
def ReadsWhole (c sep : Str) : Prop := ∀ suf ∈ c.tail.tails, suf ≠ [] → thenAt (suf ++ sep) = false

instance (c sep : Str) : Decidable (ReadsWhole c sep) := by
  unfold ReadsWhole
  infer_instance

/-- A text on one line that is not empty. -/
def OneLine (s : Str) : Prop := s ≠ [] ∧ ∀ z ∈ s, isDot z = true

instance (s : Str) : Decidable (OneLine s) := by
  unfold OneLine
  infer_instance

/-- The patterns tried before the one of the conditional. -/
def beforeIfThen : List (Re × Nat) :=
  [(reNotContain, 3), (reStartsWith, 3), (reEndsWith, 3), (reNthChild, 2)]

/-- The instruction `if <c><sep><a>`, where `sep` is ` then ` or `, then `. -/
def ifInstruction (c sep a : Str) : Str := "if ".toList ++ (c ++ (sep ++ a))

/-- What follows the condition in the pattern of the conditional, `,? then (.+)`. -/
def thenTailRe : Re :=
  .seq (.opt (.lit ',')) (.seq (Re.str " then ") (.group 2 (.plus (.cls isDot) true)))

/-- The patterns tried before the one of `report`. -/
def beforeReport : List (Re × Nat) :=
  [(reNotContain, 3), (reStartsWith, 3), (reEndsWith, 3), (reNthChild, 2), (reIfThen, 2),
    (reWait, 4), (reRetry, 1)]

/-- The instruction `report '<msg>'<tail>`, where `tail` is empty or ` if <cond>`. -/
def reportInstruction (msg tail : Str) : Str :=
  "report ".toList ++ (Char.ofNat 39 :: (msg ++ (Char.ofNat 39 :: tail)))

/-- The optional end of the pattern of `report`, `( if (.+))`. -/
def reportIfRe : Re := .group 2 (.seq (Re.str " if ") (.group 3 (.plus (.cls isDot) true)))

/-- A text without a quote character. -/
def QuoteFree (s : Str) : Prop := ∀ z ∈ s, isQuote z = false

/-- A text of ASCII characters.  On such a text `toLowerCase` is the `toLowerCase()` of
JavaScript, which outside ASCII also maps letters the model keeps. -/
def Ascii (s : Str) : Prop := ∀ c ∈ s, c.toNat < 128

instance (s : Str) : Decidable (Ascii s) := by
  unfold Ascii
  infer_instance

instance (s : Str) : Decidable (QuoteFree s) := by
  unfold QuoteFree
  infer_instance

/-- A framework that is none of playwright, cypress and selenium. -/
def OtherFramework (framework : Str) : Prop :=
  framework ≠ "playwright".toList ∧ framework ≠ "cypress".toList ∧ framework ≠ "selenium".toList

instance (framework : Str) : Decidable (OtherFramework framework) := by
  unfold OtherFramework
  infer_instance

/-! ## Theorems -/

/-! ### Fuel, normalization and the separator of conjunctions -/

theorem fuelLe_refl {α : Type} (x : Option α) : FuelLe x x := fun _ h => h

theorem fuelLe_bind {α β : Type} {x y : Option α} {f g : α → Option β}
    (hxy : FuelLe x y) (hfg : ∀ a, FuelLe (f a) (g a)) : FuelLe (x.bind f) (y.bind g) := by
  intro r h
  cases x with
  | none => simp at h
  | some a =>
    rw [hxy a rfl]
    exact hfg a r h

theorem fuelLe_map {α β : Type} {x y : Option α} (f : α → β) (hxy : FuelLe x y) :
    FuelLe (x.map f) (y.map f) := by
  intro r h
  cases x with
  | none => simp at h
  | some a =>
    rw [hxy a rfl]
    exact h

theorem fuelLe_orNext (b : Option Str) {x y : Option (Option Str)} (hxy : FuelLe x y) :
    FuelLe (orNext b x) (orNext b y) := by
  cases b with
  | none => exact hxy
  | some code => exact fuelLe_refl _

theorem mapFuel_le {f g : Str → Option (Option Str)} (hfg : ∀ x, FuelLe (f x) (g x))
    (parts : List Str) : FuelLe (mapFuel f parts) (mapFuel g parts) := by
  induction parts with
  | nil => exact fuelLe_refl _
  | cons p t ih =>
    intro r h
    unfold mapFuel at h ⊢
    cases hp : f p with
    | none => simp [hp] at h
    | some v =>
      rw [hfg p v hp]
      rw [hp] at h
      exact fuelLe_map _ ih r h

theorem retryBlock_le {f g : Str → Option (Option Str)} (hfg : ∀ x, FuelLe (f x) (g x))
    (framework : Str) (m : Caps) : FuelLe (retryBlock f framework m) (retryBlock g framework m) := by
  unfold retryBlock
  split
  · exact fuelLe_map _ (hfg _)
  · exact fuelLe_refl _

theorem parseBody_le {f g : Str → Option (Option Str)} (hfg : ∀ x, FuelLe (f x) (g x))
    (text framework selector locator : Str) :
    FuelLe (parseBody f text framework selector locator)
      (parseBody g text framework selector locator) := by
  unfold parseBody
  split
  · exact fuelLe_map _ (mapFuel_le hfg _)
  · refine fuelLe_bind ?_ fun d => ?_
    · split
      · exact fuelLe_map _ (mapFuel_le hfg _)
      · exact fuelLe_refl _
    refine fuelLe_orNext _ (fuelLe_orNext _ (fuelLe_orNext _ (fuelLe_orNext _ (fuelLe_orNext _ ?_))))
    refine fuelLe_bind ?_ fun c => ?_
    · split
      · exact fuelLe_bind (hfg _) fun _ => fuelLe_map _ (hfg _)
      · exact fuelLe_refl _
    refine fuelLe_orNext _ (fuelLe_orNext _ ?_)
    refine fuelLe_bind ?_ fun c => ?_
    · split
      · exact retryBlock_le hfg _ _
      · exact fuelLe_refl _
    refine fuelLe_orNext _ ?_
    refine fuelLe_bind ?_ fun c => ?_
    · split
      · refine fuelLe_map _ ?_
        split
        · exact hfg _
        · exact fuelLe_refl _
      · exact fuelLe_refl _
    exact fuelLe_refl _

theorem parseAux_le_succ (fuel : Nat) (instruction framework selector locator : Str) :
    FuelLe (parseCustomAssertionAux fuel instruction framework selector locator)
      (parseCustomAssertionAux (fuel + 1) instruction framework selector locator) := by
  induction fuel generalizing instruction with
  | zero => intro r h; simp [parseCustomAssertionAux] at h
  | succ n ih =>
    unfold parseCustomAssertionAux
    split
    · exact fuelLe_refl _
    · exact parseBody_le (fun x => ih x) _ _ _ _

theorem parseAux_mono {fuel fuel' : Nat} (hle : fuel ≤ fuel')
    (instruction framework selector locator : Str) :
    FuelLe (parseCustomAssertionAux fuel instruction framework selector locator)
      (parseCustomAssertionAux fuel' instruction framework selector locator) := by
  induction hle with
  | refl => exact fuelLe_refl _
  | step _ ih => exact fun r h => parseAux_le_succ _ _ _ _ _ r (ih r h)

theorem toNat_ofNat_small (n : Nat) (h : n < 55296) : (Char.ofNat n).toNat = n := by
  have hv : n.isValidChar := Or.inl h
  unfold Char.ofNat
  rw [dif_pos hv]
  rfl

theorem toLower_space (c : Char) (h : isJsSpace c = true) : c.toLower = c := by
  simp only [Char.toLower]
  split
  · rename_i hc
    exfalso
    simp only [isJsSpace, Bool.or_eq_true, decide_eq_true_eq, Bool.and_eq_true] at h
    omega
  · rfl

theorem toLower_not_space (c : Char) (h : isJsSpace c = false) : isJsSpace c.toLower = false := by
  simp only [Char.toLower]
  split
  · rename_i hc
    have hv := toNat_ofNat_small (c.toNat + 32) (by omega)
    simp only [isJsSpace, hv, Bool.or_eq_false_iff, decide_eq_false_iff_not, Bool.and_eq_false_imp,
      decide_eq_true_eq]
    omega
  · exact h

theorem toLower_toLower (c : Char) : c.toLower.toLower = c.toLower := by
  by_cases hc : c.toNat ≥ 65 ∧ c.toNat ≤ 90
  · have hv := toNat_ofNat_small (c.toNat + 32) (by omega)
    have h1 : c.toLower = Char.ofNat (c.toNat + 32) := by simp only [Char.toLower, if_pos hc]
    rw [h1]
    simp only [Char.toLower, hv]
    rw [if_neg (by omega)]
  · have h1 : c.toLower = c := by simp only [Char.toLower, if_neg hc]
    rw [h1, h1]

theorem toLowerCase_idem (s : Str) : toLowerCase (toLowerCase s) = toLowerCase s := by
  simp [toLowerCase, toLower_toLower]

theorem toLowerCase_append (s t : Str) : toLowerCase (s ++ t) = toLowerCase s ++ toLowerCase t := by
  simp [toLowerCase]

theorem toLowerCase_allSpace (w : Str) (h : AllSpace w) : toLowerCase w = w := by
  induction w with
  | nil => rfl
  | cons c t ih =>
    have hc := toLower_space c (h c (List.mem_cons_self _ _))
    have ht := ih fun d hd => h d (List.mem_cons_of_mem _ hd)
    simp only [toLowerCase, List.map_cons, hc] at ht ⊢
    rw [ht]

theorem trimStart_allSpace_append (l s : Str) (h : AllSpace l) : trimStart (l ++ s) = trimStart s := by
  induction l with
  | nil => rfl
  | cons c t ih =>
    have hc := h c (List.mem_cons_self _ _)
    simp only [List.cons_append, trimStart, hc, if_true]
    exact ih fun d hd => h d (List.mem_cons_of_mem _ hd)

theorem trimStart_cons_of_not_space (c : Char) (s : Str) (h : isJsSpace c = false) :
    trimStart (c :: s) = c :: s := by
  simp [trimStart, h]

theorem trimStart_decomp (s : Str) : ∃ l, AllSpace l ∧ s = l ++ trimStart s := by
  induction s with
  | nil => exact ⟨[], fun _ h => by simp at h, rfl⟩
  | cons c t ih =>
    by_cases hc : isJsSpace c = true
    · obtain ⟨l, hl, ht⟩ := ih
      refine ⟨c :: l, ?_, ?_⟩
      · intro d hd
        rcases List.mem_cons.mp hd with rfl | hd
        · exact hc
        · exact hl d hd
      · simp only [trimStart, hc, if_true, List.cons_append]
        rw [← ht]
    · refine ⟨[], fun _ h => by simp at h, ?_⟩
      simp [trimStart, hc]

theorem trimStart_head (s : Str) (c : Char) (t : Str) (h : trimStart s = c :: t) :
    isJsSpace c = false := by
  induction s with
  | nil => simp [trimStart] at h
  | cons d u ih =>
    by_cases hd : isJsSpace d = true
    · simp only [trimStart, hd, if_true] at h
      exact ih h
    · simp only [trimStart, hd] at h
      simp at h
      rw [← h.1]
      simpa using hd

theorem allSpace_reverse {w : Str} (h : AllSpace w) : AllSpace w.reverse :=
  fun c hc => h c (List.mem_reverse.mp hc)

theorem allSpace_append {v w : Str} (hv : AllSpace v) (hw : AllSpace w) : AllSpace (v ++ w) := by
  intro c hc
  rcases List.mem_append.mp hc with h | h
  · exact hv c h
  · exact hw c h

theorem trimStart_of_noLead (k : Str) (h : NoLead k) : trimStart k = k := by
  cases k with
  | nil => rfl
  | cons c t => exact trimStart_cons_of_not_space c t (h c t rfl)

theorem trimStart_allSpace (w : Str) (h : AllSpace w) : trimStart w = [] := by
  have := trimStart_allSpace_append w [] h
  simpa [trimStart] using this

theorem noLead_trimStart (s : Str) : NoLead (trimStart s) :=
  fun c t h => trimStart_head s c t h

theorem noLead_append {k : Str} (h : NoLead k) (hne : k ≠ []) (z : Str) : NoLead (k ++ z) := by
  cases k with
  | nil => exact absurd rfl hne
  | cons c t =>
    intro d u hd
    simp only [List.cons_append, List.cons.injEq] at hd
    rw [← hd.1]
    exact h c t rfl

theorem trim_of_shape (l m r : Str) (hl : AllSpace l) (hr : AllSpace r) (hm : NoLead m)
    (hm' : NoTrail m) : trim (l ++ m ++ r) = m := by
  unfold trim trimEnd
  rw [List.append_assoc, trimStart_allSpace_append l _ hl]
  by_cases hne : m = []
  · subst hne
    simp [trimStart_allSpace r hr, trimStart]
  · rw [trimStart_of_noLead _ (noLead_append hm hne r), List.reverse_append,
      trimStart_allSpace_append _ _ (allSpace_reverse hr), trimStart_of_noLead _ hm', List.reverse_reverse]

theorem trim_decomp (s : Str) :
    ∃ l r, AllSpace l ∧ AllSpace r ∧ s = l ++ trim s ++ r ∧ NoLead (trim s) ∧ NoTrail (trim s) := by
  obtain ⟨l, hl, hs⟩ := trimStart_decomp s
  obtain ⟨r, hr, ht⟩ := trimStart_decomp (trimStart s).reverse
  have ht' : trimStart s = trim s ++ r.reverse := by
    have := congrArg List.reverse ht
    simpa [trim, trimEnd] using this
  refine ⟨l, r.reverse, hl, allSpace_reverse hr, ?_, ?_, ?_⟩
  · rw [List.append_assoc, ← ht']
    exact hs
  · intro c t hc
    have h1 : trimStart s = c :: (t ++ r.reverse) := by rw [ht', hc]; rfl
    exact noLead_trimStart s c _ h1
  · unfold NoTrail trim trimEnd
    rw [List.reverse_reverse]
    exact noLead_trimStart _

theorem noLead_toLowerCase {k : Str} (h : NoLead k) : NoLead (toLowerCase k) := by
  cases k with
  | nil => intro c t hc; simp [toLowerCase] at hc
  | cons d u =>
    intro c t hc
    simp only [toLowerCase, List.map_cons, List.cons.injEq] at hc
    rw [← hc.1]
    exact toLower_not_space d (h d u rfl)

theorem noTrail_toLowerCase {k : Str} (h : NoTrail k) : NoTrail (toLowerCase k) := by
  unfold NoTrail at h ⊢
  have : (toLowerCase k).reverse = toLowerCase k.reverse := by
    simp [toLowerCase, List.map_reverse]
  rw [this]
  exact noLead_toLowerCase h

theorem noLead_normalize (s : Str) : NoLead (normalize s) := by
  obtain ⟨_, _, _, _, _, h, _⟩ := trim_decomp s
  exact noLead_toLowerCase h

theorem noTrail_normalize (s : Str) : NoTrail (normalize s) := by
  obtain ⟨_, _, _, _, _, _, h⟩ := trim_decomp s
  exact noTrail_toLowerCase h

theorem normalize_idem (s : Str) : normalize (normalize s) = normalize s := by
  have h := trim_of_shape [] (normalize s) [] (fun _ h => by simp at h) (fun _ h => by simp at h)
    (noLead_normalize s) (noTrail_normalize s)
  simp only [List.nil_append, List.append_nil] at h
  show toLowerCase (trim (normalize s)) = normalize s
  rw [h]
  exact toLowerCase_idem _

theorem normalize_eq_nil_iff (s : Str) : normalize s = [] ↔ trim s = [] := by
  simp [normalize, toLowerCase]

/-- The normalized text of `A and B` is the normalized `A`, white space holding
` and `, and the normalized `B`. -/
theorem normalize_and (A B : Str) (hA : normalize A ≠ []) (hB : normalize B ≠ []) :
    ∃ wA wB, AllSpace wA ∧ AllSpace wB ∧
      normalize (A ++ " and ".toList ++ B)
        = normalize A ++ (wA ++ " and ".toList ++ wB) ++ normalize B := by
  obtain ⟨lA, rA, hlA, hrA, hAeq, hA1, hA2⟩ := trim_decomp A
  obtain ⟨lB, rB, hlB, hrB, hBeq, hB1, hB2⟩ := trim_decomp B
  have hA' : trim A ≠ [] := fun h => hA ((normalize_eq_nil_iff A).mpr h)
  have hB' : trim B ≠ [] := fun h => hB ((normalize_eq_nil_iff B).mpr h)
  refine ⟨rA, lB, hrA, hlB, ?_⟩
  have hshape : A ++ " and ".toList ++ B
      = lA ++ (trim A ++ (rA ++ " and ".toList ++ lB) ++ trim B) ++ rB := by
    conv_lhs => rw [hAeq, hBeq]
    simp only [List.append_assoc]
  have hm1 : NoLead (trim A ++ (rA ++ " and ".toList ++ lB) ++ trim B) := by
    rw [List.append_assoc]
    exact noLead_append hA1 hA' _
  have hm2 : NoTrail (trim A ++ (rA ++ " and ".toList ++ lB) ++ trim B) := by
    unfold NoTrail
    rw [List.reverse_append]
    exact noLead_append hB2 (by simpa using hB') _
  unfold normalize
  rw [hshape, trim_of_shape _ _ _ hlA hrB hm1 hm2]
  simp only [toLowerCase_append, toLowerCase_allSpace _ hrA, toLowerCase_allSpace _ hlB]
  rfl

theorem run_plus_eq (a : Re) (g : Bool) (s : Str) (c : Caps) :
    (Re.plus a g).run s c = (a.run s c).flatMap fun r => starLoop a.run g r.1.length r.1 r.2 := rfl

theorem run_seq_eq (a b : Re) (s : Str) (c : Caps) :
    (Re.seq a b).run s c = (a.run s c).flatMap fun r => b.run r.1 r.2 := rfl

theorem run_cls_eq (p : Char → Bool) (s : Str) (c : Caps) :
    (Re.cls p).run s c = match s with
      | [] => []
      | x :: t => if p x then [(t, c)] else [] := by
  cases s <;> rfl

theorem starLoop_cls_greedy (p : Char → Bool) (c : Caps) :
    ∀ (fuel : Nat) (s : Str), s.length ≤ fuel →
      starLoop (Re.cls p).run true fuel s c = (tailsWhile p s).map fun u => (u, c) := by
  intro fuel
  induction fuel with
  | zero =>
    intro s hs
    have : s = [] := List.length_eq_zero.mp (Nat.le_zero.mp hs)
    subst this
    rfl
  | succ n ih =>
    intro s hs
    cases s with
    | nil => simp [starLoop, run_cls_eq, tailsWhile]
    | cons x t =>
      have ht : t.length ≤ n := by simpa using hs
      by_cases hp : p x = true
      · simp [starLoop, run_cls_eq, tailsWhile, hp, ih t ht]
      · simp [starLoop, run_cls_eq, tailsWhile, hp]

theorem run_plus_cls_greedy (p : Char → Bool) (s : Str) (c : Caps) :
    (Re.plus (.cls p) true).run s c =
      match s with
      | [] => []
      | x :: t => if p x then (tailsWhile p t).map fun u => (u, c) else [] := by
  rw [run_plus_eq, run_cls_eq]
  cases s with
  | nil => rfl
  | cons x t =>
    by_cases hp : p x = true
    · simp [hp, starLoop_cls_greedy p c t.length t (Nat.le_refl _)]
    · simp [hp]

theorem run_str (w s : Str) (c : Caps) :
    (Re.str w).run s c = if w.isPrefixOf s then [(s.drop w.length, c)] else [] := by
  induction w generalizing s with
  | nil => simp [Re.str, Re.run]
  | cons a t ih =>
    cases t with
    | nil =>
      cases s with
      | nil => simp [Re.str, Re.run]
      | cons x u =>
        by_cases hx : x = a
        · simp [Re.str, Re.run, hx]
        · have : ¬ a = x := fun h => hx h.symm
          simp [Re.str, Re.run, hx, this]
    | cons b t' =>
      cases s with
      | nil => simp [Re.str, Re.run]
      | cons x u =>
        by_cases hx : x = a
        · subst hx
          simp only [Re.str, Re.run, if_true, List.flatMap_cons, List.flatMap_nil, List.append_nil, ih]
          simp
        · have : ¬ a = x := fun h => hx h.symm
          simp [Re.str, Re.run, hx, this]

/-- A continuation that fails on every text starting in the class sees only the
last of the texts a greedy run of the class leaves. -/
theorem flatMap_tailsWhile {β : Type} (p : Char → Bool) (c : Caps) (K : Str × Caps → List β)
    (hK : ∀ x t, p x = true → K (x :: t, c) = []) (t : Str) :
    ((tailsWhile p t).map fun u => (u, c)).flatMap K = K (t.dropWhile p, c) := by
  induction t with
  | nil => simp [tailsWhile]
  | cons x u ih =>
    by_cases hp : p x = true
    · simp only [tailsWhile, hp, if_true, List.map_append, List.flatMap_append, ih, List.map_cons,
        List.map_nil, List.flatMap_cons, List.flatMap_nil, hK x u hp, List.append_nil,
        List.dropWhile_cons_of_pos]
    · simp [tailsWhile, hp]

theorem tailsWhile_head (p : Char → Bool) (t : Str) :
    ∃ more, tailsWhile p t = t.dropWhile p :: more := by
  induction t with
  | nil => exact ⟨[], rfl⟩
  | cons x u ih =>
    by_cases hp : p x = true
    · obtain ⟨more, hm⟩ := ih
      exact ⟨more ++ [x :: u], by simp [tailsWhile, hp, hm]⟩
    · exact ⟨[], by simp [tailsWhile, hp]⟩

theorem reAndSep_eq : reAndSep = .seq reSpaces (.seq (Re.str "and") reSpaces) := rfl

theorem reSpaces_run (s : Str) (c : Caps) :
    reSpaces.run s c = match s with
      | [] => []
      | x :: t => if isJsSpace x then (tailsWhile isJsSpace t).map fun u => (u, c) else [] :=
  run_plus_cls_greedy isJsSpace s c

theorem and_then_spaces_of_space (x : Char) (t : Str) (c : Caps) (hx : isJsSpace x = true) :
    (Re.seq (Re.str "and") reSpaces).run (x :: t) c = [] := by
  have hxa : x ≠ 'a' := by
    intro h
    rw [h] at hx
    exact absurd hx (by decide)
  have hne : ("and".toList).isPrefixOf (x :: t) = false := by
    simp [List.isPrefixOf, hxa]
    intro h
    exact absurd h.symm hxa
  rw [run_seq_eq, run_str]
  simp only [hne]
  rfl

theorem reAndSep_run (s : Str) (c : Caps) :
    reAndSep.run s c = match s with
      | [] => []
      | x :: t =>
        if isJsSpace x && startsWith (t.dropWhile isJsSpace) "and" then
          reSpaces.run ((t.dropWhile isJsSpace).drop 3) c
        else [] := by
  rw [reAndSep_eq, run_seq_eq, reSpaces_run]
  cases s with
  | nil => rfl
  | cons x t =>
    by_cases hx : isJsSpace x = true
    · simp only [hx, if_true, Bool.true_and]
      rw [flatMap_tailsWhile isJsSpace c
        (fun r => (Re.seq (Re.str "and") reSpaces).run r.1 r.2)
        (fun y u hy => and_then_spaces_of_space y u c hy) t]
      simp only [run_seq_eq, run_str, startsWith]
      by_cases hp : ("and".toList).isPrefixOf (t.dropWhile isJsSpace) = true
      · simp only [hp, ↓reduceIte, List.flatMap_cons, List.flatMap_nil, List.append_nil]
        rfl
      · simp only [hp, Bool.false_eq_true, ↓reduceIte, List.flatMap_nil]
    · simp only [hx, Bool.false_eq_true, if_false, Bool.false_and, List.flatMap_nil]

theorem matchAt_reAndSep (s : Str) : (reAndSep.matchAt 0 s).map (fun r => r.1) = andSepRest s := by
  unfold Re.matchAt andSepRest afterAnd
  rw [reAndSep_run]
  cases s with
  | nil => rfl
  | cons x t =>
    by_cases hx : isJsSpace x = true
    · by_cases h : startsWith (t.dropWhile isJsSpace) "and" = true
      · simp only [hx, h, Bool.and_self, ↓reduceIte]
        rw [reSpaces_run]
        cases (t.dropWhile isJsSpace).drop 3 with
        | nil => rfl
        | cons z y =>
          by_cases hz : isJsSpace z = true
          · obtain ⟨more, hm⟩ := tailsWhile_head isJsSpace y
            simp only [hz, hm, ↓reduceIte, List.map_cons, Option.map]
          · simp only [hz, Bool.false_eq_true, ↓reduceIte, Option.map]
      · simp only [hx, h, Bool.and_false, Bool.true_and, Bool.false_eq_true, ↓reduceIte, Option.map]
    · simp only [hx, Bool.false_and, Bool.false_eq_true, ↓reduceIte, Option.map]

theorem matchAt_reAndSep_none (s : Str) (h : andSepRest s = none) : reAndSep.matchAt 0 s = none := by
  have := matchAt_reAndSep s
  rw [h] at this
  cases hm : reAndSep.matchAt 0 s with
  | none => rfl
  | some r => rw [hm] at this; simp at this

theorem matchAt_reAndSep_some (s rest : Str) (h : andSepRest s = some rest) :
    ∃ r, reAndSep.matchAt 0 s = some r ∧ r.1 = rest := by
  have := matchAt_reAndSep s
  rw [h] at this
  cases hm : reAndSep.matchAt 0 s with
  | none => rw [hm] at this; simp at this
  | some r =>
    rw [hm] at this
    exact ⟨r, rfl, by simpa using this⟩

theorem andSepRest_of_matchAt_none (s : Str) (h : reAndSep.matchAt 0 s = none) :
    andSepRest s = none := by
  rw [← matchAt_reAndSep, h]
  rfl

theorem exec_none_suffix (re : Re) (n : Nat) (s : Str) (h : re.exec n s = none) :
    ∀ u, u <:+ s → re.matchAt n u = none := by
  induction s with
  | nil =>
    intro u hu
    have : u = [] := List.suffix_nil.mp hu
    subst this
    cases hm : re.matchAt n [] with
    | none => rfl
    | some r => simp [Re.exec, hm] at h
  | cons c t ih =>
    cases hm : re.matchAt n (c :: t) with
    | some r => simp [Re.exec, hm] at h
    | none =>
      have ht : re.exec n t = none := by simpa [Re.exec, hm] using h
      intro u hu
      rcases List.suffix_cons_iff.mp hu with rfl | hu
      · exact hm
      · exact ih ht u hu

theorem splitLoop_scan (re : Re) (pre rest : Str) (k : Nat) :
    ∀ cur : Str, (∀ u, u ≠ [] → u <:+ pre → re.matchAt 0 (u ++ rest) = none) →
      splitLoop re (pre.length + k) (pre ++ rest) cur = splitLoop re k rest (pre.reverse ++ cur) := by
  induction pre with
  | nil => intro cur _; simp
  | cons x p ih =>
    intro cur h
    have hx : re.matchAt 0 (x :: (p ++ rest)) = none :=
      h (x :: p) (by simp) (List.suffix_refl _)
    have hlen : (x :: p).length + k = (p.length + k) + 1 := by simp; omega
    rw [hlen]
    simp only [List.cons_append, splitLoop, hx]
    rw [ih (x :: cur) fun u hu hs => h u hu (List.suffix_cons_iff.mpr (Or.inr hs))]
    simp

theorem afterAnd_isSome (v : Str) (h : afterAnd v ≠ none) :
    ∃ z y, v = 'a' :: 'n' :: 'd' :: z :: y ∧ isJsSpace z = true := by
  unfold afterAnd at h
  by_cases hs : startsWith v "and" = true
  · rw [if_pos hs] at h
    have hp : "and".toList <+: v := List.isPrefixOf_iff_prefix.mp hs
    obtain ⟨w, hw⟩ := hp
    subst hw
    cases w with
    | nil => simp at h
    | cons z y =>
      by_cases hz : isJsSpace z = true
      · exact ⟨z, y, rfl, hz⟩
      · simp [hz] at h
  · rw [if_neg hs] at h
    exact absurd rfl h

theorem afterAnd_and (z : Char) (y : Str) (hz : isJsSpace z = true) :
    afterAnd ('a' :: 'n' :: 'd' :: z :: y) = some (y.dropWhile isJsSpace) := by
  simp [afterAnd, startsWith, hz]

/-- A match of `and` and white space that starts in a non-empty text `d` and runs
into white space that follows it is already there when one space follows `d`. -/
theorem afterAnd_none_extend (d : Str) (r0 : Char) (rest : Str) (hd : d ≠ [])
    (hr : isJsSpace r0 = true) (h : afterAnd (d ++ [' ']) = none) :
    afterAnd (d ++ r0 :: rest) = none := by
  by_contra hne
  obtain ⟨z, y, hv, hz⟩ := afterAnd_isSome _ hne
  have hn : isJsSpace 'n' = false := by decide
  have hdd : isJsSpace 'd' = false := by decide
  have hsp : isJsSpace ' ' = true := by decide
  rcases d with _ | ⟨d1, _ | ⟨d2, _ | ⟨d3, _ | ⟨d4, d'⟩⟩⟩⟩
  · exact hd rfl
  · simp only [List.cons_append, List.nil_append, List.cons.injEq] at hv
    rw [hv.2.1, hn] at hr
    exact absurd hr (by decide)
  · simp only [List.cons_append, List.nil_append, List.cons.injEq] at hv
    rw [hv.2.2.1, hdd] at hr
    exact absurd hr (by decide)
  · simp only [List.cons_append, List.nil_append, List.cons.injEq] at hv
    obtain ⟨h1, h2, h3, _⟩ := hv
    subst h1 h2 h3
    rw [show ['a', 'n', 'd'] ++ [' '] = 'a' :: 'n' :: 'd' :: ' ' :: [] from rfl,
      afterAnd_and ' ' [] hsp] at h
    exact absurd h (by simp)
  · simp only [List.cons_append, List.cons.injEq] at hv
    obtain ⟨h1, h2, h3, h4, _⟩ := hv
    subst h1 h2 h3 h4
    rw [show ('a' :: 'n' :: 'd' :: d4 :: d') ++ [' '] = 'a' :: 'n' :: 'd' :: d4 :: (d' ++ [' '])
      from rfl, afterAnd_and d4 _ hz] at h
    exact absurd h (by simp)

theorem dropWhile_append_of_noTrail (t z : Str) (ht : t ≠ []) (hl : NoTrail t) :
    (t ++ z).dropWhile isJsSpace = t.dropWhile isJsSpace ++ z ∧ t.dropWhile isJsSpace ≠ [] := by
  have hne : t.dropWhile isJsSpace ≠ [] := by
    intro h
    have hall := List.dropWhile_eq_nil_iff.mp h
    have hr : t.reverse ≠ [] := by simpa using ht
    obtain ⟨c, u, hcu⟩ := List.exists_cons_of_ne_nil hr
    have hc : isJsSpace c = false := hl c u hcu
    have hmem : c ∈ t := by
      have : c ∈ t.reverse := by rw [hcu]; exact List.mem_cons_self _ _
      exact List.mem_reverse.mp this
    rw [hall c hmem] at hc
    exact absurd hc (by decide)
  refine ⟨?_, hne⟩
  rw [List.dropWhile_append]
  simp [hne]

theorem noTrail_tail {x : Char} {t : Str} (h : NoTrail (x :: t)) : NoTrail t := by
  unfold NoTrail at h ⊢
  intro c u hcu
  apply h c (u ++ [x])
  simp [hcu]

theorem noTrail_of_suffix {u k : Str} (h : NoTrail k) (hs : u <:+ k) : NoTrail u := by
  obtain ⟨p, hp⟩ := hs
  subst hp
  unfold NoTrail at h ⊢
  intro c v hcv
  apply h c (v ++ p.reverse)
  simp [hcv]

/-- Inside a text that does not end with white space, the separator does not match
before white space and `and` when it does not match before one space. -/
theorem andSepRest_none_extend (u : Str) (r0 : Char) (rest : Str) (hu : u ≠ []) (hl : NoTrail u)
    (hr : isJsSpace r0 = true) (h : andSepRest (u ++ [' ']) = none) :
    andSepRest (u ++ r0 :: rest) = none := by
  cases u with
  | nil => exact absurd rfl hu
  | cons x t =>
    by_cases hx : isJsSpace x = true
    · have ht : t ≠ [] := by
        intro ht
        subst ht
        have := hl x [] rfl
        rw [hx] at this
        exact absurd this (by decide)
      have hlt : NoTrail t := noTrail_tail hl
      obtain ⟨e1, hne⟩ := dropWhile_append_of_noTrail t [' '] ht hlt
      obtain ⟨e2, _⟩ := dropWhile_append_of_noTrail t (r0 :: rest) ht hlt
      simp only [andSepRest, List.cons_append, hx, ↓reduceIte, e1, e2] at h ⊢
      exact afterAnd_none_extend _ r0 rest hne hr h
    · simp only [andSepRest, List.cons_append, hx, Bool.false_eq_true, ↓reduceIte]

theorem andSepRest_separator (wA wB nB : Str) (hA : AllSpace wA) (hB : AllSpace wB)
    (hn : NoLead nB) :
    andSepRest ((wA ++ " and ".toList ++ wB) ++ nB) = some nB ∧
    ∃ x t, (wA ++ " and ".toList ++ wB) ++ nB = x :: t ∧ nB.length < (x :: t).length := by
  have hsp : isJsSpace ' ' = true := by decide
  have ha : isJsSpace 'a' = false := by decide
  have hdrop : (wB ++ nB).dropWhile isJsSpace = nB := by
    rw [List.dropWhile_append_of_pos hB]
    cases nB with
    | nil => rfl
    | cons c t => simp [hn c t rfl]
  have key : ∀ w : Str, AllSpace w →
      (w ++ 'a' :: 'n' :: 'd' :: ' ' :: (wB ++ nB)).dropWhile isJsSpace
        = 'a' :: 'n' :: 'd' :: ' ' :: (wB ++ nB) := by
    intro w hw
    rw [List.dropWhile_append_of_pos hw]
    simp [ha]
  cases wA with
  | nil =>
    refine ⟨?_, ' ', _, rfl, by simp; omega⟩
    show andSepRest (' ' :: ([] ++ 'a' :: 'n' :: 'd' :: ' ' :: (wB ++ nB))) = some nB
    simp only [andSepRest, hsp, ↓reduceIte, key [] (fun _ h => by simp at h), afterAnd_and _ _ hsp,
      hdrop]
  | cons x w =>
    have hx : isJsSpace x = true := hA x (List.mem_cons_self _ _)
    have hw : AllSpace (w ++ [' ']) := by
      intro c hc
      rcases List.mem_append.mp hc with h | h
      · exact hA c (List.mem_cons_of_mem _ h)
      · simp at h; rw [h]; exact hsp
    refine ⟨?_, x, _, rfl, by simp; omega⟩
    have e : (x :: w ++ " and ".toList ++ wB) ++ nB
        = x :: ((w ++ [' ']) ++ 'a' :: 'n' :: 'd' :: ' ' :: (wB ++ nB)) := by
      simp
    rw [e]
    simp only [andSepRest, hx, ↓reduceIte, key _ hw, afterAnd_and _ _ hsp, hdrop]

theorem splitLoop_match (re : Re) (fuel : Nat) (c : Char) (t cur : Str) (r : Str × Caps)
    (h : re.matchAt 0 (c :: t) = some r) (hlen : r.1.length < (c :: t).length) :
    splitLoop re (fuel + 1) (c :: t) cur = cur.reverse :: splitLoop re fuel r.1 [] := by
  rw [splitLoop]
  simp only [h]
  rw [if_pos hlen]

theorem splitLoop_nil (re : Re) (fuel : Nat) (cur : Str) :
    splitLoop re fuel [] cur = [cur.reverse] := by
  cases fuel with
  | zero => simp [splitLoop]
  | succ k => simp [splitLoop]

/-- The split of `nA`, white space holding ` and `, `nB` at `/\s+and\s+/`. -/
theorem jsSplit_and (nA nB wA wB : Str) (hwA : AllSpace wA) (hwB : AllSpace wB)
    (hA : NoTrail nA) (hB : NoLead nB)
    (h1 : reAndSep.exec 0 (nA ++ " ".toList) = none) (h2 : reAndSep.exec 0 nB = none) :
    jsSplit reAndSep (nA ++ (wA ++ " and ".toList ++ wB) ++ nB) = [nA, nB] := by
  obtain ⟨hsep, x, t, hxt, hlen⟩ := andSepRest_separator wA wB nB hwA hwB hB
  obtain ⟨r, hr, hr1⟩ := matchAt_reAndSep_some _ _ hsep
  have hx : isJsSpace x = true := by
    have : x ∈ wA ++ " and ".toList ++ wB ++ nB := by rw [hxt]; exact List.mem_cons_self _ _
    cases wA with
    | nil =>
      have e : ([] : Str) ++ " and ".toList ++ wB ++ nB = ' ' :: ("and ".toList ++ wB ++ nB) := rfl
      rw [e] at hxt
      injection hxt with hh _
      rw [← hh]
      decide
    | cons y w =>
      have e : (y :: w) ++ " and ".toList ++ wB ++ nB = y :: (w ++ " and ".toList ++ wB ++ nB) := rfl
      rw [e] at hxt
      injection hxt with hh _
      rw [← hh]
      exact hwA y (List.mem_cons_self _ _)
  have hscanA : ∀ u, u ≠ [] → u <:+ nA →
      reAndSep.matchAt 0 (u ++ ((wA ++ " and ".toList ++ wB) ++ nB)) = none := by
    intro u hu hs
    apply matchAt_reAndSep_none
    rw [hxt]
    apply andSepRest_none_extend u x t hu (noTrail_of_suffix hA hs) hx
    apply andSepRest_of_matchAt_none
    apply exec_none_suffix _ _ _ h1
    obtain ⟨p, hp⟩ := hs
    exact ⟨p, by rw [← hp]; simp⟩
  have hscanB : ∀ u, u ≠ [] → u <:+ nB → reAndSep.matchAt 0 (u ++ []) = none := by
    intro u _ hs
    rw [List.append_nil]
    exact exec_none_suffix _ _ _ h2 u hs
  unfold jsSplit
  have hlenR : (x :: t).length = wA.length + wB.length + nB.length + 5 := by
    rw [← hxt]
    have h5 : " and ".toList.length = 5 := by decide
    simp only [List.length_append, h5]
    omega
  have hfuel : (nA ++ (wA ++ " and ".toList ++ wB) ++ nB).length + 1
      = nA.length + ((nB.length + (wA.length + wB.length + 5)) + 1) := by
    rw [List.append_assoc, hxt, List.length_append, hlenR]
    omega
  rw [hfuel, List.append_assoc, splitLoop_scan reAndSep nA _ _ [] hscanA, hxt,
    splitLoop_match reAndSep _ x t _ r (hxt ▸ hr) (hr1 ▸ hlen), hr1]
  have := splitLoop_scan reAndSep nB [] (wA.length + wB.length + 5) [] hscanB
  rw [List.append_nil] at this
  rw [this, splitLoop_nil]
  simp

theorem parseBody_unmatched (recur : Str → Option (Option Str)) (text framework selector locator : Str)
    (hand : includes text " and " = false) (hor : includes text " or " = false)
    (h1 : reNotContain.exec 3 text = none) (h2 : reStartsWith.exec 3 text = none)
    (h3 : reEndsWith.exec 3 text = none) (h4 : reNthChild.exec 2 text = none)
    (h5 : reIfThen.exec 2 text = none) (h6 : reWait.exec 4 text = none)
    (h7 : reRetry.exec 1 text = none) (h8 : reReport.exec 3 text = none)
    (h9 : reOnFailure.exec 1 text = none) :
    parseBody recur text framework selector locator = some none := by
  unfold parseBody
  simp only [hand, hor, h1, h2, h3, h4, h5, h6, h7, h8, h9, orNext, onMatch, if_false,
    Bool.false_eq_true, Option.bind]

theorem parseBody_nil (recur : Str → Option (Option Str)) (framework selector locator : Str) :
    parseBody recur [] framework selector locator = some none :=
  parseBody_unmatched recur [] framework selector locator (by decide) (by decide) (by decide)
    (by decide) (by decide) (by decide) (by decide) (by decide) (by decide) (by decide) (by decide)

theorem parseAux_succ (fuel : Nat) (instruction framework selector locator : Str)
    (h : instruction ≠ []) :
    parseCustomAssertionAux (fuel + 1) instruction framework selector locator =
      parseBody (fun part => parseCustomAssertionAux fuel part framework selector locator)
        (normalize instruction) framework selector locator := by
  have he : instruction.isEmpty = false := by
    cases instruction with
    | nil => exact absurd rfl h
    | cons c t => rfl
  rw [parseCustomAssertionAux]
  simp only [he, Bool.false_eq_true, if_false]
  rfl

theorem parseAux_nil (fuel : Nat) (framework selector locator : Str) :
    parseCustomAssertionAux (fuel + 1) [] framework selector locator = some none := by
  rw [parseCustomAssertionAux]
  rfl

/-- An instruction that compiles to code is not blank, and its normalized text
compiles to the same code with any larger fuel. -/
theorem parse_normalize (A framework selector locator : Str) (a : Str)
    (hA : parseCustomAssertion A framework selector locator = some (some a)) :
    normalize A ≠ [] ∧ ∀ fuel, A.length + 1 ≤ fuel →
      parseCustomAssertionAux fuel (normalize A) framework selector locator = some (some a) := by
  unfold parseCustomAssertion at hA
  have hne : A ≠ [] := by
    intro h
    subst h
    rw [parseAux_nil] at hA
    simp at hA
  rw [parseAux_succ _ _ _ _ _ hne] at hA
  have hn : normalize A ≠ [] := by
    intro h
    rw [h, parseBody_nil] at hA
    simp at hA
  refine ⟨hn, ?_⟩
  intro fuel hf
  obtain ⟨k, rfl⟩ : ∃ k, fuel = k + 1 := ⟨fuel - 1, by omega⟩
  rw [parseAux_succ _ _ _ _ _ hn, normalize_idem]
  exact parseBody_le (fun x => parseAux_mono (by omega) x framework selector locator) _ _ _ _ _ hA

theorem includes_append_left (x y p : Str) (h : includes y p = true) : includes (x ++ y) p = true := by
  induction x with
  | nil => exact h
  | cons c t ih => simp [includes, ih]

theorem includes_of_isPrefixOf (y p : Str) (h : p.isPrefixOf y = true) : includes y p = true := by
  cases y with
  | nil =>
    cases p with
    | nil => rfl
    | cons c t => simp [List.isPrefixOf] at h
  | cons c t => simp [includes, h]

theorem includes_middle (x p y : Str) : includes (x ++ (p ++ y)) p = true := by
  apply includes_append_left
  apply includes_of_isPrefixOf
  exact List.isPrefixOf_iff_prefix.mpr (List.prefix_append _ _)

theorem parse_and (framework selector locator A B a b : Str)
    (hA : parseCustomAssertion A framework selector locator = some (some a))
    (hB : parseCustomAssertion B framework selector locator = some (some b))
    (ha : a ≠ []) (hb : b ≠ [])
    (h1 : reAndSep.exec 0 (normalize A ++ " ".toList) = none)
    (h2 : reAndSep.exec 0 (normalize B) = none) :
    parseCustomAssertion (A ++ " and ".toList ++ B) framework selector locator
      = some (some (a ++ "\n  ".toList ++ b)) := by
  obtain ⟨hnA, hfA⟩ := parse_normalize A framework selector locator a hA
  obtain ⟨hnB, hfB⟩ := parse_normalize B framework selector locator b hB
  obtain ⟨wA, wB, hwA, hwB, htext⟩ := normalize_and A B hnA hnB
  have hsplit := jsSplit_and (normalize A) (normalize B) wA wB hwA hwB (noTrail_normalize A)
    (noLead_normalize B) h1 h2
  have hinc : includes (normalize (A ++ " and ".toList ++ B)) " and ".toList = true := by
    rw [htext]
    have e : normalize A ++ (wA ++ " and ".toList ++ wB) ++ normalize B
        = (normalize A ++ wA) ++ (" and ".toList ++ (wB ++ normalize B)) := by
      simp only [List.append_assoc]
    rw [e]
    exact includes_middle _ _ _
  have hne : A ++ " and ".toList ++ B ≠ [] := by
    intro h
    have := congrArg List.length h
    simp at this
  have hlen : (A ++ " and ".toList ++ B).length = A.length + B.length + 5 := by
    have h5 : " and ".toList.length = 5 := by decide
    simp only [List.length_append, h5]
    omega
  unfold parseCustomAssertion
  rw [parseAux_succ _ _ _ _ _ hne]
  unfold parseBody
  rw [if_pos hinc, htext, hsplit]
  have rA := hfA (A ++ " and ".toList ++ B).length (by omega)
  have rB := hfB (A ++ " and ".toList ++ B).length (by omega)
  have et : truthy (some a) = true ∧ truthy (some b) = true := by
    cases a with
    | nil => exact absurd rfl ha
    | cons _ _ =>
      cases b with
      | nil => exact absurd rfl hb
      | cons _ _ => exact ⟨rfl, rfl⟩
  have hm : mapFuel (fun part => parseCustomAssertionAux (A ++ " and ".toList ++ B).length part
      framework selector locator) [normalize A, normalize B] = some [some a, some b] := by
    simp only [mapFuel, rA, rB, Option.map]
  have hj : join "\n  ".toList (filterBoolean [some a, some b]) = a ++ "\n  ".toList ++ b := by
    simp only [filterBoolean, List.filterMap_cons, et.1, et.2, if_true, List.filterMap_nil, join,
      List.intercalate, List.intersperse, List.flatten, List.append_nil, List.append_assoc]
  rw [hm]
  simp only [Option.map, hj]

theorem cat_ne_nil (s : Str) (more : List Str) (h : s ≠ []) : cat (s :: more) ≠ [] := by
  cases s with
  | nil => exact absurd rfl h
  | cons c t => simp [cat]

theorem join_ne_nil (sep s : Str) (more : List Str) (h : s ≠ []) : join sep (s :: more) ≠ [] := by
  cases s with
  | nil => exact absurd rfl h
  | cons c t =>
    cases more with
    | nil => simp [join, List.intercalate, List.intersperse]
    | cons m ms => simp [join, List.intercalate, List.intersperse]

theorem nonEmptyCode_none : NonEmptyCode none := fun _ h => by simp at h

theorem nonEmptyCode_some {s : Str} (h : s ≠ []) : NonEmptyCode (some s) := by
  intro code hc
  injection hc with hc
  rw [← hc]
  exact h

theorem byFramework_nonEmpty (framework p c s : Str) (hp : p ≠ []) (hc : c ≠ []) (hs : s ≠ []) :
    NonEmptyCode (byFramework framework p c s) := by
  unfold byFramework
  split
  · exact nonEmptyCode_some hp
  · split
    · exact nonEmptyCode_some hc
    · split
      · exact nonEmptyCode_some hs
      · exact nonEmptyCode_none

theorem notContainBlock_nonEmpty (framework selector locator : Str) (m : Caps) :
    NonEmptyCode (notContainBlock framework selector locator m) := by
  unfold notContainBlock
  simp only []
  split
  · exact byFramework_nonEmpty _ _ _ _ (cat_ne_nil _ _ (by decide)) (cat_ne_nil _ _ (by decide))
      (cat_ne_nil _ _ (by decide))
  · split
    · exact byFramework_nonEmpty _ _ _ _ (cat_ne_nil _ _ (by decide)) (cat_ne_nil _ _ (by decide))
        (cat_ne_nil _ _ (by decide))
    · split
      · exact byFramework_nonEmpty _ _ _ _ (cat_ne_nil _ _ (by decide)) (cat_ne_nil _ _ (by decide))
          (cat_ne_nil _ _ (by decide))
      · exact nonEmptyCode_none

theorem startsWithBlock_nonEmpty (framework selector locator : Str) (m : Caps) :
    NonEmptyCode (startsWithBlock framework selector locator m) := by
  unfold startsWithBlock
  simp only []
  split
  · exact byFramework_nonEmpty _ _ _ _ (cat_ne_nil _ _ (by decide)) (cat_ne_nil _ _ (by decide))
      (cat_ne_nil _ _ (by decide))
  · split
    · exact byFramework_nonEmpty _ _ _ _ (cat_ne_nil _ _ (by decide)) (cat_ne_nil _ _ (by decide))
        (cat_ne_nil _ _ (by decide))
    · split
      · exact byFramework_nonEmpty _ _ _ _ (cat_ne_nil _ _ (by decide)) (cat_ne_nil _ _ (by decide))
          (cat_ne_nil _ _ (by decide))
      · exact nonEmptyCode_none

theorem endsWithBlock_nonEmpty (framework selector locator : Str) (m : Caps) :
    NonEmptyCode (endsWithBlock framework selector locator m) := by
  unfold endsWithBlock
  simp only []
  split
  · exact byFramework_nonEmpty _ _ _ _ (cat_ne_nil _ _ (by decide)) (cat_ne_nil _ _ (by decide))
      (cat_ne_nil _ _ (by decide))
  · split
    · exact byFramework_nonEmpty _ _ _ _ (cat_ne_nil _ _ (by decide)) (cat_ne_nil _ _ (by decide))
        (cat_ne_nil _ _ (by decide))
    · split
      · exact byFramework_nonEmpty _ _ _ _ (cat_ne_nil _ _ (by decide)) (cat_ne_nil _ _ (by decide))
          (cat_ne_nil _ _ (by decide))
      · exact nonEmptyCode_none

theorem nthChildBlock_nonEmpty (framework selector locator : Str) (m : Caps) :
    NonEmptyCode (nthChildBlock framework selector locator m) :=
  byFramework_nonEmpty _ _ _ _ (cat_ne_nil _ _ (by decide)) (cat_ne_nil _ _ (by decide))
    (cat_ne_nil _ _ (by decide))

theorem ifThenBlock_nonEmpty (framework : Str) (m : Caps) (condition compiled : Option Str) :
    NonEmptyCode (ifThenBlock framework m condition compiled) :=
  byFramework_nonEmpty _ _ _ _ (cat_ne_nil _ _ (by decide)) (cat_ne_nil _ _ (by decide))
    (cat_ne_nil _ _ (by decide))

theorem waitBlock_nonEmpty (framework selector locator : Str) (m : Caps) :
    NonEmptyCode (waitBlock framework selector locator m) :=
  byFramework_nonEmpty _ _ _ _ (cat_ne_nil _ _ (by decide)) (cat_ne_nil _ _ (by decide))
    (cat_ne_nil _ _ (by decide))

theorem reportBlock_nonEmpty (framework : Str) (m : Caps) (cond : Option Str) :
    NonEmptyCode (reportBlock framework m cond) := by
  unfold reportBlock
  simp only []
  split
  · exact byFramework_nonEmpty _ _ _ _ (cat_ne_nil _ _ (by decide)) (cat_ne_nil _ _ (by decide))
      (cat_ne_nil _ _ (by decide))
  · exact byFramework_nonEmpty _ _ _ _ (cat_ne_nil _ _ (by decide)) (cat_ne_nil _ _ (by decide))
      (cat_ne_nil _ _ (by decide))

theorem onFailureBlock_nonEmpty (framework : Str) (m : Caps) :
    NonEmptyCode (onFailureBlock framework m) :=
  byFramework_nonEmpty _ _ _ _ (cat_ne_nil _ _ (by decide)) (cat_ne_nil _ _ (by decide))
    (cat_ne_nil _ _ (by decide))

theorem orBlock_nonEmpty (codeLines : List Str) : NonEmptyCode (orBlock codeLines) := by
  unfold orBlock
  split
  · exact nonEmptyCode_some (join_ne_nil _ _ _ (by decide))
  · exact nonEmptyCode_none

theorem onMatch_nonEmpty (m : Option Caps) (block : Caps → Option Str)
    (h : ∀ caps, NonEmptyCode (block caps)) : NonEmptyCode (onMatch m block) := by
  cases m with
  | none => exact nonEmptyCode_none
  | some caps => exact h caps

theorem solid_orNext {b : Option Str} {next : Option (Option Str)} (hb : NonEmptyCode b)
    (hn : Solid next) : Solid (orNext b next) := by
  cases b with
  | none => exact hn
  | some code =>
    intro c hc
    simp only [orNext, Option.some.injEq] at hc
    exact hb c (by rw [hc])

theorem solid_bind {x : Option (Option Str)} {f : Option Str → Option (Option Str)}
    (h : ∀ v, x = some v → Solid (f v)) : Solid (x.bind f) := by
  cases x with
  | none => intro c hc; simp at hc
  | some v => exact h v rfl

theorem solid_none : Solid (some none) := fun _ h => by simp at h

theorem retryBlock_nonEmpty (recur : Str → Option (Option Str)) (framework : Str) (m : Caps)
    (v : Option Str) (h : retryBlock recur framework m = some v) : NonEmptyCode v := by
  unfold retryBlock at h
  simp only [] at h
  split at h
  · obtain ⟨r, _, hr⟩ := Option.map_eq_some'.mp h
    rw [← hr]
    exact nonEmptyCode_some (cat_ne_nil _ _ (by decide))
  · split at h
    · injection h with h
      rw [← h]
      exact nonEmptyCode_some (cat_ne_nil _ _ (by decide))
    · injection h with h
      rw [← h]
      exact nonEmptyCode_none

theorem parseBody_solid (recur : Str → Option (Option Str)) (text framework selector locator : Str)
    (hand : includes text " and " = false) :
    Solid (parseBody recur text framework selector locator) := by
  unfold parseBody
  rw [if_neg (by rw [hand]; exact Bool.false_ne_true)]
  refine solid_bind fun d hd => solid_orNext ?_ ?_
  · split at hd
    · obtain ⟨rs, _, hr⟩ := Option.map_eq_some'.mp hd
      rw [← hr]
      exact orBlock_nonEmpty _
    · injection hd with hd
      rw [← hd]
      exact nonEmptyCode_none
  refine solid_orNext (onMatch_nonEmpty _ _ (notContainBlock_nonEmpty _ _ _)) ?_
  refine solid_orNext (onMatch_nonEmpty _ _ (startsWithBlock_nonEmpty _ _ _)) ?_
  refine solid_orNext (onMatch_nonEmpty _ _ (endsWithBlock_nonEmpty _ _ _)) ?_
  refine solid_orNext (onMatch_nonEmpty _ _ (nthChildBlock_nonEmpty _ _ _)) ?_
  refine solid_bind fun c hc => solid_orNext ?_ ?_
  · split at hc
    · obtain ⟨cond, _, h2⟩ := Option.bind_eq_some.mp hc
      obtain ⟨compiled, _, h3⟩ := Option.map_eq_some'.mp h2
      rw [← h3]
      exact ifThenBlock_nonEmpty _ _ _ _
    · injection hc with hc
      rw [← hc]
      exact nonEmptyCode_none
  refine solid_orNext (onMatch_nonEmpty _ _ (waitBlock_nonEmpty _ _ _)) ?_
  refine solid_bind fun c hc => solid_orNext ?_ ?_
  · split at hc
    · exact retryBlock_nonEmpty _ _ _ _ hc
    · injection hc with hc
      rw [← hc]
      exact nonEmptyCode_none
  refine solid_bind fun c hc => solid_orNext ?_ ?_
  · split at hc
    · obtain ⟨cond, _, h2⟩ := Option.map_eq_some'.mp hc
      rw [← h2]
      exact reportBlock_nonEmpty _ _ _
    · injection hc with hc
      rw [← hc]
      exact nonEmptyCode_none
  exact solid_orNext (onMatch_nonEmpty _ _ (onFailureBlock_nonEmpty _)) solid_none

theorem includes_decomp (s p : Str) (h : includes s p = true) : ∃ pre post, s = pre ++ (p ++ post) := by
  induction s with
  | nil =>
    have : p = [] := by simpa [includes] using h
    exact ⟨[], [], by simp [this]⟩
  | cons c t ih =>
    simp only [includes, Bool.or_eq_true] at h
    rcases h with h | h
    · obtain ⟨post, hp⟩ := List.isPrefixOf_iff_prefix.mp h
      exact ⟨[], post, hp.symm⟩
    · obtain ⟨pre, post, hp⟩ := ih h
      exact ⟨c :: pre, post, by rw [hp]; rfl⟩

theorem not_includes_and (k z : Str) (h : reAndSep.exec 0 (k ++ z) = none) :
    includes k " and " = false := by
  by_contra hc
  have hc' : includes k " and ".toList = true := by simpa using hc
  obtain ⟨pre, post, hk⟩ := includes_decomp k _ hc'
  have hs : (" and ".toList ++ post ++ z) <:+ (k ++ z) :=
    ⟨pre, by rw [hk]; simp⟩
  have hm := andSepRest_of_matchAt_none _ (exec_none_suffix _ _ _ h _ hs)
  have hsp : isJsSpace ' ' = true := by decide
  have e : " and ".toList ++ post ++ z = ' ' :: ([] ++ 'a' :: 'n' :: 'd' :: ' ' :: (post ++ z)) := by
    simp
  rw [e] at hm
  simp only [andSepRest, hsp, ↓reduceIte, List.nil_append] at hm
  have ha : isJsSpace 'a' = false := by decide
  rw [List.dropWhile_cons_of_neg (by simp [ha]), afterAnd_and _ _ hsp] at hm
  simp at hm

theorem parse_nonEmpty (A framework selector locator a z : Str)
    (hA : parseCustomAssertion A framework selector locator = some (some a))
    (h1 : reAndSep.exec 0 (normalize A ++ z) = none) : a ≠ [] := by
  unfold parseCustomAssertion at hA
  have hne : A ≠ [] := by
    intro h
    subst h
    rw [parseAux_nil] at hA
    simp at hA
  rw [parseAux_succ _ _ _ _ _ hne] at hA
  exact parseBody_solid _ _ _ _ _ (not_includes_and _ z h1) a hA

/-! ### The script assembler -/


theorem customCodeOf_error (a : Action) (framework : Str) (locator : JsVal)
    (h : hasInstruction a = true) : ∃ e, customCodeOf a framework locator = .error e := by
  unfold customCodeOf
  rw [if_pos h]
  cases parseCustomAssertion (a.assertInstruction.getD []) framework a.selector locator.toStr with
  | none => exact ⟨_, rfl⟩
  | some code => exact ⟨_, rfl⟩

theorem actionLines_error (parsed : ParsedConfig) (a : Action) (h : asksCustomAssertion a) :
    ∃ e, actionLines parsed a = .error e := by
  obtain ⟨h1, h2⟩ := h
  unfold actionLines
  simp only [h1, if_true]
  cases render (getAssertionTemplate (orDefault a.assertType "exists") parsed.actionTemplates)
      (getLocator a.selector parsed.locatorMap parsed.framework) a.selector a.value with
  | error e => exact ⟨e, rfl⟩
  | ok line =>
    obtain ⟨e, he⟩ := customCodeOf_error a parsed.framework
      (getLocator a.selector parsed.locatorMap parsed.framework) h2
    exact ⟨e, by simp [Except.bind, he, Except.map]⟩

theorem allActionLines_error (parsed : ParsedConfig) (acts : List Action)
    (h : ∃ a ∈ acts, asksCustomAssertion a) : ∃ e, allActionLines parsed acts = .error e := by
  induction acts with
  | nil => simp at h
  | cons b rest ih =>
    unfold allActionLines
    cases hb : actionLines parsed b with
    | error e => exact ⟨e, rfl⟩
    | ok ls =>
      have hrest : ∃ a ∈ rest, asksCustomAssertion a := by
        obtain ⟨a, ha, hq⟩ := h
        rcases List.mem_cons.mp ha with rfl | ha
        · obtain ⟨e, he⟩ := actionLines_error parsed a hq
          rw [he] at hb
          cases hb
        · exact ⟨a, ha, hq⟩
      obtain ⟨e, he⟩ := ih hrest
      exact ⟨e, by simp [Except.bind, he, Except.map]⟩

theorem allActionLines_ok (parsed : ParsedConfig) (acts : List Action) (lss : List (List Str))
    (h : List.Forall₂ (fun a ls => actionLines parsed a = .ok ls) acts lss) :
    allActionLines parsed acts = .ok lss.flatten := by
  induction h with
  | nil => rfl
  | cons h1 _ ih => simp [allActionLines, h1, ih, Except.bind, Except.map]

/-- Claim C1 (as the code has it): with a config present, a list holding an action
that asks for an assertion with a non-blank instruction never yields a text: the
call of `generateAutomationScript` ends in an exception. -/
theorem C1_custom_assertion_throws (cfg : Config) (acts : List Action)
    (h : ∃ a ∈ acts, asksCustomAssertion a) :
    ∃ e, generateAutomationScript (some acts) (some cfg) = .error e := by
  cases acts with
  | nil => simp at h
  | cons b rest =>
    obtain ⟨e, he⟩ := allActionLines_error (parseConfig cfg) (b :: rest) h
    exact ⟨e, by simp [generateAutomationScript, he, Except.map]⟩

/-- An instance of `C1_custom_assertion_throws`: a click on `#go` with the
assertion `text starts with 'a'`, for cypress. -/
theorem C1_custom_assertion_throws_witness :
    ∃ e, generateAutomationScript
      (some [{ type := "click", selector := "#go", value := none, assert := true,
               assertType := some "exists", assertInstruction := some "text starts with 'a'" }])
      (some { framework := some "cypress", locatorMap := none, actions := none }) = .error e :=
  C1_custom_assertion_throws _ _ ⟨_, List.mem_singleton.mpr rfl, by decide, by decide⟩

/-- Claim C2 (as the code has it): for playwright, an assertion action whose
instruction is not understood (`do something vague`) and one whose instruction
compiles (`text starts with 'a'`) both end in the `ReferenceError` on
`instruction`; neither the compiled code nor the templated line is emitted. -/
theorem C2_assertion_entry_reference_error :
    generateAutomationScript
      (some [{ type := "click", selector := "#go", value := none, assert := true,
               assertType := some "exists", assertInstruction := some "do something vague" }])
      (some { framework := some "playwright", locatorMap := none, actions := none })
      = .error (.referenceError "instruction") ∧
    generateAutomationScript
      (some [{ type := "click", selector := "#go", value := none, assert := true,
               assertType := some "exists", assertInstruction := some "text starts with 'a'" }])
      (some { framework := some "playwright", locatorMap := none, actions := none })
      = .error (.referenceError "instruction") := by
  constructor <;> rfl

/-- Claim C3: an instruction whose normalized text holds no ` and `, no ` or `, and
matches none of the nine phrase patterns compiles to `null`, whatever the framework. -/
theorem C3_unmatched_instruction_is_null (instruction framework selector locator : Str)
    (hand : includes (normalize instruction) " and " = false)
    (hor : includes (normalize instruction) " or " = false)
    (h1 : reNotContain.exec 3 (normalize instruction) = none)
    (h2 : reStartsWith.exec 3 (normalize instruction) = none)
    (h3 : reEndsWith.exec 3 (normalize instruction) = none)
    (h4 : reNthChild.exec 2 (normalize instruction) = none)
    (h5 : reIfThen.exec 2 (normalize instruction) = none)
    (h6 : reWait.exec 4 (normalize instruction) = none)
    (h7 : reRetry.exec 1 (normalize instruction) = none)
    (h8 : reReport.exec 3 (normalize instruction) = none)
    (h9 : reOnFailure.exec 1 (normalize instruction) = none) :
    parseCustomAssertion instruction framework selector locator = some none := by
  unfold parseCustomAssertion
  by_cases he : instruction = []
  · subst he
    exact parseAux_nil _ _ _ _
  · rw [parseAux_succ _ _ _ _ _ he]
    exact parseBody_unmatched _ _ _ _ _ hand hor h1 h2 h3 h4 h5 h6 h7 h8 h9

/-- An instance of `C3_unmatched_instruction_is_null`: `do something vague`. -/
theorem C3_unmatched_instruction_is_null_witness :
    parseCustomAssertion "do something vague" "playwright" "#s" "page.locator('#s')" = some none :=
  C3_unmatched_instruction_is_null _ _ _ _ (by decide) (by decide) (by decide) (by decide)
    (by decide) (by decide) (by decide) (by decide) (by decide) (by decide) (by decide)

/-- Claim C4, as stated, fails: the two compiled clauses are joined by a newline
followed by two spaces, not by a bare newline. -/
theorem C4_join_is_not_a_bare_newline :
    ∃ a b, parseCustomAssertion "text starts with 'a'" "playwright" "#s" "loc" = some (some a) ∧
      parseCustomAssertion "text ends with 'b'" "playwright" "#s" "loc" = some (some b) ∧
      parseCustomAssertion "text starts with 'a' and text ends with 'b'" "playwright" "#s" "loc"
        ≠ some (some (a ++ "\n".toList ++ b)) :=
  ⟨_, _, rfl, rfl, by decide⟩

/-- Claim C4, amended: for each of the three frameworks and any selector and locator,
`text starts with 'a' and text ends with 'b'` compiles to the code of the first
clause, a newline and two spaces, and the code of the second clause; and so does
`A and B` for any two clauses that compile, when the separator `/\s+and\s+/` matches
nowhere in the normalized `A` followed by a space nor in the normalized `B`. -/
theorem C4_conjunction_joins_with_indent :
    (∀ framework selector locator : Str,
      framework ∈ ["playwright".toList, "cypress".toList, "selenium".toList] →
      ∃ a b, parseCustomAssertion "text starts with 'a'" framework selector locator = some (some a) ∧
        parseCustomAssertion "text ends with 'b'" framework selector locator = some (some b) ∧
        parseCustomAssertion "text starts with 'a' and text ends with 'b'" framework selector locator
          = some (some (a ++ "\n  ".toList ++ b))) ∧
    (∀ framework selector locator A B a b : Str,
      parseCustomAssertion A framework selector locator = some (some a) →
      parseCustomAssertion B framework selector locator = some (some b) →
      reAndSep.exec 0 (normalize A ++ " ".toList) = none →
      reAndSep.exec 0 (normalize B) = none →
      parseCustomAssertion (A ++ " and ".toList ++ B) framework selector locator
        = some (some (a ++ "\n  ".toList ++ b))) := by
  have general : ∀ framework selector locator A B a b : Str,
      parseCustomAssertion A framework selector locator = some (some a) →
      parseCustomAssertion B framework selector locator = some (some b) →
      reAndSep.exec 0 (normalize A ++ " ".toList) = none →
      reAndSep.exec 0 (normalize B) = none →
      parseCustomAssertion (A ++ " and ".toList ++ B) framework selector locator
        = some (some (a ++ "\n  ".toList ++ b)) := by
    intro framework selector locator A B a b hA hB h1 h2
    have h2' : reAndSep.exec 0 (normalize B ++ []) = none := by rw [List.append_nil]; exact h2
    exact parse_and framework selector locator A B a b hA hB
      (parse_nonEmpty A framework selector locator a _ hA h1)
      (parse_nonEmpty B framework selector locator b _ hB h2') h1 h2
  refine ⟨?_, general⟩
  intro framework selector locator hf
  simp only [List.mem_cons, List.mem_singleton, List.not_mem_nil, or_false] at hf
  rcases hf with rfl | rfl | rfl
  · exact ⟨_, _, rfl, rfl, general _ _ _ "text starts with 'a'" "text ends with 'b'" _ _ rfl rfl
      (by decide) (by decide)⟩
  · exact ⟨_, _, rfl, rfl, general _ _ _ "text starts with 'a'" "text ends with 'b'" _ _ rfl rfl
      (by decide) (by decide)⟩
  · exact ⟨_, _, rfl, rfl, general _ _ _ "text starts with 'a'" "text ends with 'b'" _ _ rfl rfl
      (by decide) (by decide)⟩

/-- An instance of `C4_conjunction_joins_with_indent`: for cypress,
`value does not contain 'x' and is the 2nd child`. -/
theorem C4_conjunction_joins_with_indent_witness :
    parseCustomAssertion
      ("value does not contain 'x'".toList ++ " and ".toList ++ "is the 2nd child".toList)
      "cypress" "#s" "loc"
      = some (some ("cy.get('#s').invoke('val').should('not.contain', \"x\");".toList
          ++ "\n  ".toList ++ "cy.get('#s:nth-child(2)').should('exist');".toList)) :=
  C4_conjunction_joins_with_indent.2 "cypress" "#s" "loc" "value does not contain 'x'"
    "is the 2nd child" _ _ (by decide) (by decide) (by decide) (by decide)

/-- Claim C5 (as the code has it): for playwright the disjunction
`text starts with 'a' or on failure, x` has two compiling parts, and the returned
block is not comment-only: only the first line of the `try`/`catch` code of the
second part is commented out, and the line `} catch (e) {` is live. -/
theorem C5_disjunction_leaves_live_code :
    ∃ out, parseCustomAssertion "text starts with 'a' or on failure, x" "playwright" "#s" "loc"
        = some (some out) ∧
      linesOf out = ["// At least one of the following should pass:",
        "  //   expect(await loc.textContent()).toMatch(/^a/);",
        "  //   try \x7b", "  // assertion", "\x7d catch (e) \x7b", "  x", "\x7d"] ∧
      (linesOf out).all isCommentLine = false :=
  ⟨_, rfl, by decide, by decide⟩

/-- Claim C6: for one click on `#go` and the config `{framework: 'playwright'}` the
generated text has exactly five lines: the two header lines, the opening of the
test block, the default playwright click template rendered against `#go`, and
the closing line. -/
theorem C6_playwright_click_scenario :
    ∃ out, generateAutomationScript
        (some [{ type := "click", selector := "#go", value := none, assert := false,
                 assertType := none, assertInstruction := none }])
        (some { framework := some "playwright", locatorMap := none, actions := none }) = .ok out ∧
      linesOf out = ["// Playwright script generated",
        "import \x7b test, expect \x7d from '@playwright/test';",
        "test('automation', async (\x7b page \x7d) => \x7b",
        "  await document.querySelector(\"#go\").click();",
        "\x7d);"] :=
  ⟨_, rfl, by decide⟩

/-- Claim C7: without a config, a non-empty list of click actions and of input
actions carrying a value yields one statement per action, in input order, joined
by newlines: the click statement for a click, the value assignment for an input,
with the selector and the value copied as they are. -/
theorem C7_fallback_statements (acts : List Action) (hne : acts ≠ [])
    (hkind : ∀ a ∈ acts, a.type = "click" ∨ (a.type = "input" ∧ a.value.isSome = true)) :
    generateAutomationScript (some acts) none = .ok (join "\n" (acts.map fun a =>
      if a.type = "click".toList then "document.querySelector(\"".toList ++ a.selector ++ "\").click();".toList
      else "document.querySelector(\"".toList ++ a.selector ++ "\").value = \"".toList
        ++ a.value.getD [] ++ "\";".toList)) := by
  cases acts with
  | nil => exact absurd rfl hne
  | cons b rest =>
    show Except.ok (join "\n" ((b :: rest).map plainLine)) = _
    congr 2
    apply List.map_congr_left
    intro a ha
    rcases hkind a ha with h | ⟨h, hv⟩
    · simp [plainLine, strEq, h, cat]
    · obtain ⟨v, hv⟩ := Option.isSome_iff_exists.mp hv
      have hnc : a.type ≠ "click".toList := by rw [h]; decide
      simp [plainLine, strEq, h, hnc, hv, cat]

/-- An instance of `C7_fallback_statements`: a click on `#go`, then `bob` typed in `#name`. -/
theorem C7_fallback_statements_witness :
    generateAutomationScript
      (some [{ type := "click", selector := "#go", value := none, assert := false,
               assertType := none, assertInstruction := none },
             { type := "input", selector := "#name", value := some "bob", assert := false,
               assertType := none, assertInstruction := none }]) none
      = .ok "document.querySelector(\"#go\").click();\ndocument.querySelector(\"#name\").value = \"bob\";" :=
  C7_fallback_statements _ (by decide) (by decide)

/-- Claim C8 (as the code has it): without a config, a click action that asks for
an assertion yields the click statement alone; the line
`// Assertion not supported in plain JS` is not in the output. -/
theorem C8_fallback_click_with_assert :
    generateAutomationScript
      (some [{ type := "click", selector := "#go", value := none, assert := true,
               assertType := some "exists", assertInstruction := none }]) none
      = .ok "document.querySelector(\"#go\").click();" ∧
    ("// Assertion not supported in plain JS" : Str) ∉
      linesOf "document.querySelector(\"#go\").click();" := by
  constructor
  · rfl
  · decide

/-- Claim C9: with an absent or an empty action list the result is the placeholder
`// No actions selected.`, for an absent config and for every present one. -/
theorem C9_no_actions_placeholder (config : Option Config) :
    generateAutomationScript none config = .ok "// No actions selected." ∧
    generateAutomationScript (some []) config = .ok "// No actions selected." :=
  ⟨rfl, rfl⟩

/-- Claim C10, as stated, fails for cypress: the first line of the text generated
for one click is the header comment, not the line of the action. -/
theorem C10_cypress_has_header :
    ∃ out, generateAutomationScript
        (some [{ type := "click", selector := "#go", value := none, assert := false,
                 assertType := none, assertInstruction := none }])
        (some { framework := some "cypress", locatorMap := none, actions := none }) = .ok out ∧
      linesOf out = ["// Cypress script generated", "  cy.get(\"#go\").click();"] :=
  ⟨_, rfl, by decide⟩

/-- Claim C10, amended: when every action of a non-empty list yields its lines, the
text generated for framework plain is those lines, in the order of the actions,
joined by newlines, with nothing before and nothing after; for cypress the one
header line `// Cypress script generated` comes first and nothing follows the
lines of the actions. -/
theorem C10_plain_cypress_boilerplate (cfg : Config) (acts : List Action)
    (lss : List (List Str)) (hne : acts ≠ [])
    (h : List.Forall₂ (fun a ls => actionLines (parseConfig cfg) a = .ok ls) acts lss) :
    ((parseConfig cfg).framework = "plain" →
      generateAutomationScript (some acts) (some cfg) = .ok (join "\n" lss.flatten)) ∧
    ((parseConfig cfg).framework = "cypress" →
      generateAutomationScript (some acts) (some cfg)
        = .ok (join "\n" ("// Cypress script generated".toList :: lss.flatten))) := by
  have hall := allActionLines_ok (parseConfig cfg) acts lss h
  cases acts with
  | nil => exact absurd rfl hne
  | cons b rest =>
    have hp : headerLines "plain".toList = [] ∧ footerLines "plain".toList = [] := by decide
    have hc : headerLines "cypress".toList = ["// Cypress script generated".toList] ∧
        footerLines "cypress".toList = [] := by decide
    constructor
    · intro hf
      simp only [generateAutomationScript, hall, Except.map, hf, hp.1, hp.2, List.nil_append,
        List.append_nil]
    · intro hf
      simp only [generateAutomationScript, hall, Except.map, hf, hc.1, hc.2, List.append_nil,
        List.singleton_append]

/-- An instance of `C10_plain_cypress_boilerplate`: two clicks with framework plain. -/
theorem C10_plain_cypress_boilerplate_witness :
    (parseConfig { framework := some "plain", locatorMap := none, actions := none }).framework
        = "plain".toList ∧
    generateAutomationScript
      (some [{ type := "click", selector := "#a", value := none, assert := false,
               assertType := none, assertInstruction := none },
             { type := "click", selector := "#b", value := none, assert := false,
               assertType := none, assertInstruction := none }])
      (some { framework := some "plain", locatorMap := none, actions := none })
      = .ok "  document.querySelector(\"#a\").click();\n  document.querySelector(\"#b\").click();" :=
  ⟨rfl, (C10_plain_cypress_boilerplate
    { framework := some "plain", locatorMap := none, actions := none }
    [{ type := "click", selector := "#a", value := none, assert := false,
       assertType := none, assertInstruction := none },
     { type := "click", selector := "#b", value := none, assert := false,
       assertType := none, assertInstruction := none }]
    [["  document.querySelector(\"#a\").click();"], ["  document.querySelector(\"#b\").click();"]]
    (by decide) (List.Forall₂.cons rfl (List.Forall₂.cons rfl List.Forall₂.nil))).1 rfl⟩

/-! ### Entries between header and footer -/

theorem actionLines_plain_action (parsed : ParsedConfig) (a : Action) (line : Str)
    (ha : a.assert = false)
    (h : render (getActionTemplate a.type parsed.actionTemplates)
      (getLocator a.selector parsed.locatorMap parsed.framework) a.selector a.value = .ok line) :
    actionLines parsed a = .ok ["  ".toList ++ line] := by
  unfold actionLines
  simp only [ha, Bool.false_eq_true, if_false, h, Except.map, cat, List.flatten, List.append_nil]

theorem forall₂_actionLines (parsed : ParsedConfig) (acts : List Action) (lines : List Str)
    (hno : ∀ a ∈ acts, a.assert = false)
    (h : List.Forall₂ (fun a line =>
      render (getActionTemplate a.type parsed.actionTemplates)
        (getLocator a.selector parsed.locatorMap parsed.framework) a.selector a.value = .ok line)
      acts lines) :
    List.Forall₂ (fun a ls => actionLines parsed a = .ok ls) acts
      (lines.map fun l => ["  ".toList ++ l]) := by
  induction h with
  | nil => exact List.Forall₂.nil
  | cons h1 _ ih =>
    exact List.Forall₂.cons
      (actionLines_plain_action parsed _ _ (hno _ (List.mem_cons_self _ _)) h1)
      (ih fun a ha => hno a (List.mem_cons_of_mem _ ha))

theorem flatten_map_singleton (f : Str → Str) (lines : List Str) :
    (lines.map fun l => [f l]).flatten = lines.map f := by
  induction lines with
  | nil => rfl
  | cons l t ih => simp [List.flatten, ih]

/-- Claim C11: with a config and a non-empty list of actions none of which asks for
an assertion, when the template of each action renders to a line, the generated
text is the header lines of the framework, then for each action in input order
two spaces and its rendered line, then the footer lines, joined by newlines. -/
theorem C11_entries_between_header_and_footer (cfg : Config) (acts : List Action)
    (lines : List Str) (hne : acts ≠ []) (hno : ∀ a ∈ acts, a.assert = false)
    (h : List.Forall₂ (fun a line =>
      render (getActionTemplate a.type (parseConfig cfg).actionTemplates)
        (getLocator a.selector (parseConfig cfg).locatorMap (parseConfig cfg).framework)
        a.selector a.value = .ok line) acts lines) :
    generateAutomationScript (some acts) (some cfg) =
      .ok (join "\n" (headerLines (parseConfig cfg).framework
        ++ lines.map (fun l => "  ".toList ++ l)
        ++ footerLines (parseConfig cfg).framework)) := by
  have hall := allActionLines_ok (parseConfig cfg) acts _
    (forall₂_actionLines (parseConfig cfg) acts lines hno h)
  rw [flatten_map_singleton] at hall
  cases acts with
  | nil => exact absurd rfl hne
  | cons b rest => simp only [generateAutomationScript, hall, Except.map]

/-- An instance of `C11_entries_between_header_and_footer`: for selenium, a click on
`#go` and then `bob` typed in `#name`. -/
theorem C11_entries_between_header_and_footer_witness :
    generateAutomationScript
      (some [{ type := "click", selector := "#go", value := none, assert := false,
               assertType := none, assertInstruction := none },
             { type := "input", selector := "#name", value := some "bob", assert := false,
               assertType := none, assertInstruction := none }])
      (some { framework := some "selenium", locatorMap := none, actions := none })
      = .ok (join "\n" ["// Selenium script generated",
          "const \x7bBuilder, By, until\x7d = require(\"selenium-webdriver\");",
          "let driver = new Builder().forBrowser(\"chrome\").build();",
          "(async function run() \x7b",
          "  driver.findElement(By.cssSelector(\"#go\")).click();",
          "  driver.findElement(By.cssSelector(\"#name\")).sendKeys(\"bob\");",
          "\x7d)();"]) :=
  C11_entries_between_header_and_footer
    { framework := some "selenium", locatorMap := none, actions := none }
    [{ type := "click", selector := "#go", value := none, assert := false,
       assertType := none, assertInstruction := none },
     { type := "input", selector := "#name", value := some "bob", assert := false,
       assertType := none, assertInstruction := none }]
    ["driver.findElement(By.cssSelector(\"#go\")).click();",
     "driver.findElement(By.cssSelector(\"#name\")).sendKeys(\"bob\");"]
    (by decide) (by decide) (List.Forall₂.cons rfl (List.Forall₂.cons rfl List.Forall₂.nil))

/-! ### Clauses with a quoted literal -/

theorem reQuote_eq : reQuote = .cls isQuote := rfl

theorem reDot_eq : reDot = .cls isDot := rfl

theorem headIs_flatMap {α β : Type} {l : List α} {r : α} {K : α → List β} {r' : β}
    (h : HeadIs l r) (hK : HeadIs (K r) r') : HeadIs (l.flatMap K) r' := by
  obtain ⟨more, rfl⟩ := h
  obtain ⟨more', hm⟩ := hK
  exact ⟨more' ++ more.flatMap K, by simp [List.flatMap_cons, hm]⟩

theorem headIs_append {α : Type} {l : List α} {r : α} (h : HeadIs l r) (l' : List α) :
    HeadIs (l ++ l') r := by
  obtain ⟨more, rfl⟩ := h
  exact ⟨more ++ l', rfl⟩

theorem headIs_map {α β : Type} {l : List α} {r : α} (f : α → β) (h : HeadIs l r) :
    HeadIs (l.map f) (f r) := by
  obtain ⟨more, rfl⟩ := h
  exact ⟨more.map f, rfl⟩

theorem headIs_seq {a b : Re} {s : Str} {c : Caps} {r r' : Str × Caps}
    (ha : HeadIs (a.run s c) r) (hb : HeadIs (b.run r.1 r.2) r') :
    HeadIs ((Re.seq a b).run s c) r' := by
  rw [run_seq_eq]
  exact headIs_flatMap ha hb

theorem headIs_str (w rest : Str) (c : Caps) : HeadIs ((Re.str w).run (w ++ rest) c) (rest, c) := by
  rw [run_str]
  have hp : w.isPrefixOf (w ++ rest) = true :=
    List.isPrefixOf_iff_prefix.mpr (List.prefix_append _ _)
  simp only [hp, if_true, List.drop_left]
  exact ⟨[], rfl⟩

theorem consumed_append (a b : Str) : consumed (a ++ b) b = a := by
  simp [consumed]

theorem starLoop_cls_lazy (p : Char → Bool) (c : Caps) :
    ∀ (fuel : Nat) (s : Str), s.length ≤ fuel →
      starLoop (Re.cls p).run false fuel s c = (tailsWhile p s).reverse.map fun u => (u, c) := by
  intro fuel
  induction fuel with
  | zero =>
    intro s hs
    have : s = [] := List.length_eq_zero.mp (Nat.le_zero.mp hs)
    subst this
    rfl
  | succ n ih =>
    intro s hs
    cases s with
    | nil => simp [starLoop, run_cls_eq, tailsWhile]
    | cons x t =>
      have ht : t.length ≤ n := by simpa using hs
      by_cases hp : p x = true
      · simp [starLoop, run_cls_eq, tailsWhile, hp, ih t ht]
      · simp [starLoop, run_cls_eq, tailsWhile, hp]

theorem run_plus_cls_lazy (p : Char → Bool) (x : Char) (t : Str) (c : Caps) (hx : p x = true) :
    (Re.plus (.cls p) false).run (x :: t) c = (tailsWhile p t).reverse.map fun u => (u, c) := by
  rw [run_plus_eq, run_cls_eq]
  simp [hx, starLoop_cls_lazy p c t.length t (Nat.le_refl _)]

/-- A lazy run over `w` and a final quote, followed by a continuation that fails on
every text starting with a character that is no quote: the continuation is first
tried, with success, on the quote alone. -/
theorem flatMap_lazy_tails {β : Type} (p : Char → Bool) (c : Caps) (G : Str × Caps → List β)
    (hG : ∀ z rest, isQuote z = false → G (z :: rest, c) = []) (q : Char) (hq : p q = true)
    (w : Str) (hw : ∀ z ∈ w, p z = true ∧ isQuote z = false) :
    ((tailsWhile p (w ++ [q])).reverse.map fun u => (u, c)).flatMap G = G ([q], c) ++ G ([], c) := by
  induction w with
  | nil => simp [tailsWhile, hq]
  | cons z w' ih =>
    obtain ⟨hz1, hz2⟩ := hw z (List.mem_cons_self _ _)
    have ih' := ih fun y hy => hw y (List.mem_cons_of_mem _ hy)
    simp only [List.cons_append, tailsWhile, hz1, if_true, List.reverse_append, List.reverse_cons,
      List.reverse_nil, List.nil_append, List.singleton_append, List.map_cons, List.flatMap_cons,
      hG z _ hz2]
    exact ih'

theorem optQuote_eos_nonquote (z : Char) (rest : Str) (c : Caps) (hz : isQuote z = false) :
    (Re.seq (.opt reQuote) .eos).run (z :: rest) c = [] := by
  rw [run_seq_eq, reQuote_eq]
  simp [Re.run, hz]

theorem optQuote_eos_quote (q : Char) (c : Caps) (hq : isQuote q = true) :
    (Re.seq (.opt reQuote) .eos).run [q] c = [([], c)] := by
  rw [run_seq_eq, reQuote_eq]
  simp [Re.run, hq]

/-- The end of a clause expression, `(.+?)['"]?$` with the capture 3, run on a
literal `v` and its closing quote: the first result captures `v`. -/
theorem headIs_value_tail (v : Str) (q : Char) (c : Caps) (hv : v ≠ [])
    (hchars : ∀ z ∈ v, isDot z = true ∧ isQuote z = false)
    (hq1 : isDot q = true) (hq2 : isQuote q = true) :
    HeadIs ((Re.seq (.group 3 (.plus reDot false)) (.seq (.opt reQuote) .eos)).run (v ++ [q]) c)
      ([], c.set 3 (some v)) := by
  cases v with
  | nil => exact absurd rfl hv
  | cons x t =>
    obtain ⟨hx1, _⟩ := hchars x (List.mem_cons_self _ _)
    have ht : ∀ z ∈ t, isDot z = true ∧ isQuote z = false :=
      fun z hz => hchars z (List.mem_cons_of_mem _ hz)
    rw [run_seq_eq]
    have hg : (Re.group 3 (.plus reDot false)).run (x :: t ++ [q]) c
        = ((tailsWhile isDot (t ++ [q])).reverse.map fun u => (u, c)).map
            fun r => (r.1, r.2.set 3 (some (consumed (x :: t ++ [q]) r.1))) := by
      rw [reDot_eq]
      show ((Re.plus (.cls isDot) false).run (x :: (t ++ [q])) c).map _ = _
      rw [run_plus_cls_lazy isDot x _ c hx1]
    rw [hg, List.flatMap_map]
    rw [flatMap_lazy_tails isDot c _ ?_ q hq1 t ht]
    · have e : consumed (x :: t ++ [q]) [q] = x :: t := consumed_append (x :: t) [q]
      simp only [e, optQuote_eos_quote q _ hq2]
      exact ⟨_, rfl⟩
    · intro z rest hz
      exact optQuote_eos_nonquote z rest _ hz

theorem headIs_group (n : Nat) (a : Re) (w rest : Str) (c caps : Caps)
    (h : HeadIs (a.run (w ++ rest) c) (rest, caps)) :
    HeadIs ((Re.group n a).run (w ++ rest) c) (rest, caps.set n (some w)) := by
  obtain ⟨more, hm⟩ := h
  show HeadIs ((a.run (w ++ rest) c).map _) _
  rw [hm, List.map_cons, consumed_append]
  exact ⟨_, rfl⟩

theorem reClause_eq (phrase : Str) :
    reClause phrase = .seq nounRe (.seq (Re.str phrase) (.seq (.opt reQuote)
      (.seq (.group 3 (.plus reDot false)) (.seq (.opt reQuote) .eos)))) := rfl

theorem headIs_noun_text (rest : Str) (c : Caps) :
    HeadIs (nounRe.run ("text".toList ++ rest) c) (rest, c.set 1 (some "text".toList)) := by
  have h : HeadIs ((Re.alt (Re.str "text") (.alt (Re.str "value")
      (.seq (Re.str "attribute ") (.group 2 (.plus (.cls isAttrChar) true))))).run
        ("text".toList ++ rest) c) (rest, c) :=
    headIs_append (headIs_str "text".toList rest c) _
  exact headIs_group 1 _ "text".toList rest c _ h

theorem headIs_noun_value (rest : Str) (c : Caps) :
    HeadIs (nounRe.run ("value".toList ++ rest) c) (rest, c.set 1 (some "value".toList)) := by
  have h0 : (Re.str "text").run ("value".toList ++ rest) c = [] := by
    rw [run_str]
    rfl
  have h : HeadIs ((Re.alt (Re.str "text") (.alt (Re.str "value")
      (.seq (Re.str "attribute ") (.group 2 (.plus (.cls isAttrChar) true))))).run
        ("value".toList ++ rest) c) (rest, c) := by
    show HeadIs ((Re.str "text").run ("value".toList ++ rest) c ++ _) _
    rw [h0, List.nil_append]
    exact headIs_append (headIs_str "value".toList rest c) _
  exact headIs_group 1 _ "value".toList rest c _ h

theorem dropWhile_append_all (p : Char → Bool) (w rest : Str) (hw : ∀ z ∈ w, p z = true)
    (hrest : rest.dropWhile p = rest) : (w ++ rest).dropWhile p = rest := by
  induction w with
  | nil => exact hrest
  | cons z w' ih =>
    have hz := hw z (List.mem_cons_self _ _)
    simp only [List.cons_append, List.dropWhile_cons, hz, if_true]
    exact ih fun y hy => hw y (List.mem_cons_of_mem _ hy)

theorem headIs_attr_name (x rest : Str) (c : Caps) (hx : x ≠ [])
    (hchars : ∀ z ∈ x, isAttrChar z = true) (hrest : rest.dropWhile isAttrChar = rest) :
    HeadIs ((Re.group 2 (.plus (.cls isAttrChar) true)).run (x ++ rest) c)
      (rest, c.set 2 (some x)) := by
  cases x with
  | nil => exact absurd rfl hx
  | cons a t =>
    have ha := hchars a (List.mem_cons_self _ _)
    have ht : ∀ z ∈ t, isAttrChar z = true := fun z hz => hchars z (List.mem_cons_of_mem _ hz)
    have hrun : HeadIs ((Re.plus (.cls isAttrChar) true).run (a :: t ++ rest) c) (rest, c) := by
      rw [run_plus_cls_greedy]
      simp only [List.cons_append, ha, if_true]
      obtain ⟨more, hm⟩ := tailsWhile_head isAttrChar (t ++ rest)
      rw [hm, dropWhile_append_all isAttrChar t rest ht hrest]
      exact ⟨_, rfl⟩
    exact headIs_group 2 _ (a :: t) rest c _ hrun

theorem headIs_noun_attribute (x rest : Str) (c : Caps) (hx : x ≠ [])
    (hchars : ∀ z ∈ x, isAttrChar z = true) (hrest : rest.dropWhile isAttrChar = rest) :
    HeadIs (nounRe.run ("attribute ".toList ++ x ++ rest) c)
      (rest, (c.set 2 (some x)).set 1 (some ("attribute ".toList ++ x))) := by
  have h0 : (Re.str "text").run ("attribute ".toList ++ x ++ rest) c = [] := by
    rw [run_str]
    rfl
  have h1 : (Re.str "value").run ("attribute ".toList ++ x ++ rest) c = [] := by
    rw [run_str]
    rfl
  have h : HeadIs ((Re.alt (Re.str "text") (.alt (Re.str "value")
      (.seq (Re.str "attribute ") (.group 2 (.plus (.cls isAttrChar) true))))).run
        ("attribute ".toList ++ x ++ rest) c) (rest, c.set 2 (some x)) := by
    show HeadIs ((Re.str "text").run ("attribute ".toList ++ x ++ rest) c ++
      ((Re.str "value").run ("attribute ".toList ++ x ++ rest) c ++ _)) _
    rw [h0, h1, List.nil_append, List.nil_append, List.append_assoc]
    exact headIs_seq (headIs_str "attribute ".toList (x ++ rest) c)
      (headIs_attr_name x rest c hx hchars hrest)
  exact headIs_group 1 _ ("attribute ".toList ++ x) rest c _ h

/-- A clause expression run on a noun, the phrase and a quoted literal: once the
noun group has given `caps`, the first result of the whole expression captures the
literal as the group 3. -/
theorem headIs_reClause (phrase noun v : Str) (q : Char) (c caps : Caps) (hv : v ≠ [])
    (hchars : ∀ z ∈ v, isDot z = true ∧ isQuote z = false)
    (hq1 : isDot q = true) (hq2 : isQuote q = true)
    (hnoun : HeadIs (nounRe.run (noun ++ (phrase ++ q :: (v ++ [q]))) c)
      (phrase ++ q :: (v ++ [q]), caps)) :
    HeadIs ((reClause phrase).run (noun ++ (phrase ++ q :: (v ++ [q]))) c)
      ([], caps.set 3 (some v)) := by
  rw [reClause_eq]
  have hquote : HeadIs ((Re.opt reQuote).run (q :: (v ++ [q])) caps) (v ++ [q], caps) := by
    show HeadIs (reQuote.run (q :: (v ++ [q])) caps ++ _) _
    rw [reQuote_eq, run_cls_eq]
    simp only [hq2, if_true]
    exact ⟨_, rfl⟩
  exact headIs_seq hnoun (headIs_seq (headIs_str phrase _ caps) (headIs_seq hquote
    (headIs_value_tail v q caps hv hchars hq1 hq2)))

theorem exec_of_headIs (re : Re) (n : Nat) (s : Str) (r : Str × Caps)
    (h : HeadIs (re.run s (List.replicate (n + 1) none)) r) :
    re.exec n s = some (r.2.set 0 (some (consumed s r.1))) := by
  obtain ⟨more, hm⟩ := h
  have hmatch : re.matchAt n s = some (r.1, r.2.set 0 (some (consumed s r.1))) := by
    simp only [Re.matchAt, hm]
  cases s with
  | nil => simp only [Re.exec, hmatch, Option.map_some']
  | cons a t => simp only [Re.exec, hmatch]

theorem consumed_nil (s : Str) : consumed s [] = s := by
  simp [consumed]

theorem toLower_cases (c : Char) :
    c.toLower = c ∨ (97 ≤ c.toLower.toNat ∧ c.toLower.toNat ≤ 122) := by
  by_cases hc : c.toNat ≥ 65 ∧ c.toNat ≤ 90
  · right
    have hv := toNat_ofNat_small (c.toNat + 32) (by omega)
    have h1 : c.toLower = Char.ofNat (c.toNat + 32) := by simp only [Char.toLower, if_pos hc]
    rw [h1, hv]
    omega
  · left
    simp only [Char.toLower, if_neg hc]

theorem isQuote_toNat (c : Char) (h : isQuote c = true) : c.toNat = 39 ∨ c.toNat = 34 := by
  simp only [isQuote, Bool.or_eq_true, decide_eq_true_eq] at h
  rcases h with h | h
  · left
    rw [h]
    rfl
  · right
    rw [h]
    rfl

theorem toLower_isQuote (c : Char) (h : isQuote c = false) : isQuote c.toLower = false := by
  rcases toLower_cases c with e | ⟨h1, h2⟩
  · rw [e]
    exact h
  · cases hq : isQuote c.toLower with
    | false => rfl
    | true =>
      have := isQuote_toNat _ hq
      omega

theorem toLower_isDot (c : Char) (h : isDot c = true) : isDot c.toLower = true := by
  rcases toLower_cases c with e | ⟨h1, h2⟩
  · rw [e]
    exact h
  · simp only [isDot, isLineTerminator, Bool.not_eq_true', Bool.or_eq_false_iff,
      decide_eq_false_iff_not]
    omega

theorem toLower_isAttrChar (c : Char) (h : isAttrChar c = true) : isAttrChar c.toLower = true := by
  rcases toLower_cases c with e | ⟨h1, h2⟩
  · rw [e]
    exact h
  · simp only [isAttrChar, isWord, Bool.or_eq_true, Bool.and_eq_true, decide_eq_true_eq]
    left
    left
    left
    left
    exact ⟨h1, h2⟩

theorem literal_toLowerCase {v : Str} (h : Literal v) : Literal (toLowerCase v) := by
  obtain ⟨hne, hch⟩ := h
  refine ⟨?_, ?_⟩
  · cases v with
    | nil => exact absurd rfl hne
    | cons a t => simp [toLowerCase]
  · intro z hz
    simp only [toLowerCase, List.mem_map] at hz
    obtain ⟨y, hy, rfl⟩ := hz
    exact ⟨toLower_isDot y (hch y hy).1, toLower_isQuote y (hch y hy).2⟩

theorem attrName_toLowerCase {x : Str} (h : AttrName x) : AttrName (toLowerCase x) := by
  obtain ⟨hne, hch⟩ := h
  refine ⟨?_, ?_⟩
  · cases x with
    | nil => exact absurd rfl hne
    | cons a t => simp [toLowerCase]
  · intro z hz
    simp only [toLowerCase, List.mem_map] at hz
    obtain ⟨y, hy, rfl⟩ := hz
    exact toLower_isAttrChar y (hch y hy)

/-- Normalisation of a clause instruction whose noun starts with no white space:
nothing is trimmed and each part is lower-cased. -/
theorem normalize_clause (noun phrase v : Str) (hne : noun ≠ []) (hlead : NoLead noun) :
    normalize (clauseInstruction noun phrase v) =
      clauseInstruction (toLowerCase noun) (toLowerCase phrase) (toLowerCase v) := by
  have htrail : NoTrail (clauseInstruction noun phrase v) := by
    intro c t hct
    have hrev : (clauseInstruction noun phrase v).reverse =
        Char.ofNat 39 :: (noun ++ (phrase ++ Char.ofNat 39 :: v)).reverse := by
      simp [clauseInstruction]
    rw [hrev] at hct
    injection hct with h1 _
    rw [← h1]
    rfl
  have h := trim_of_shape [] (clauseInstruction noun phrase v) [] (fun _ h => by simp at h)
    (fun _ h => by simp at h) (noLead_append hlead hne _) htrail
  simp only [List.nil_append, List.append_nil] at h
  show toLowerCase (trim (clauseInstruction noun phrase v)) = _
  rw [h]
  simp [clauseInstruction, toLowerCase]

theorem parseBody_notContain (recur : Str → Option (Option Str))
    (text framework selector locator : Str) (m : Caps) (code : Str)
    (hand : includes text " and " = false) (hor : includes text " or " = false)
    (hm : reNotContain.exec 3 text = some m)
    (hcode : notContainBlock framework selector locator m = some code) :
    parseBody recur text framework selector locator = some (some code) := by
  unfold parseBody
  simp only [hand, hor, Bool.false_eq_true, ↓reduceIte, Option.some_bind, hm, onMatch, hcode, orNext]

/-- A not-contain clause compiles to what the block gives on the captures of the
lower-cased instruction. -/
theorem parse_notContain (noun v framework selector locator : Str) (caps : Caps) (code : Str)
    (hne : noun ≠ []) (hlead : NoLead noun) (hv : Literal v)
    (hplain : Plain (clauseInstruction noun " does not contain " v))
    (hnoun : HeadIs (nounRe.run
        (clauseInstruction (toLowerCase noun) " does not contain " (toLowerCase v))
        (List.replicate 4 none))
      (" does not contain ".toList ++ Char.ofNat 39 :: (toLowerCase v ++ [Char.ofNat 39]), caps))
    (hcode : notContainBlock framework selector locator
      ((caps.set 3 (some (toLowerCase v))).set 0
        (some (clauseInstruction (toLowerCase noun) " does not contain " (toLowerCase v))))
      = some code) :
    parseCustomAssertion (clauseInstruction noun " does not contain " v) framework selector locator
      = some (some code) := by
  have hI : clauseInstruction noun " does not contain " v ≠ [] := by
    cases noun with
    | nil => exact absurd rfl hne
    | cons a t => simp [clauseInstruction]
  have hnorm : normalize (clauseInstruction noun " does not contain ".toList v) =
      clauseInstruction (toLowerCase noun) " does not contain ".toList (toLowerCase v) :=
    normalize_clause noun _ v hne hlead
  obtain ⟨hv1, hv2⟩ := literal_toLowerCase hv
  have hhead := headIs_reClause " does not contain ".toList (toLowerCase noun) (toLowerCase v)
    (Char.ofNat 39) (List.replicate 4 none) caps hv1 hv2 (by decide) (by decide) hnoun
  have hexec := exec_of_headIs (reClause " does not contain ".toList) 3 _ _ hhead
  rw [consumed_nil] at hexec
  unfold parseCustomAssertion
  rw [parseAux_succ _ _ _ _ _ hI]
  obtain ⟨hand, hor⟩ := hplain
  rw [hnorm] at hand hor ⊢
  exact parseBody_notContain _ _ _ _ _ _ code hand hor hexec hcode

theorem noLead_of_head (c : Char) (t : Str) (h : isJsSpace c = false) : NoLead (c :: t) := by
  intro d u hd
  injection hd with h1 _
  rw [← h1]
  exact h

theorem noun_text_facts : "text".toList ≠ [] ∧ NoLead "text".toList :=
  ⟨by decide, noLead_of_head _ _ (by decide)⟩

theorem noun_value_facts : "value".toList ≠ [] ∧ NoLead "value".toList :=
  ⟨by decide, noLead_of_head _ _ (by decide)⟩

theorem noun_attribute_facts (x : Str) :
    "attribute ".toList ++ x ≠ [] ∧ NoLead ("attribute ".toList ++ x) :=
  ⟨by simp, noLead_of_head _ _ (by decide)⟩

theorem toLowerCase_attribute (x : Str) :
    toLowerCase ("attribute ".toList ++ x) = "attribute ".toList ++ toLowerCase x := by
  rw [toLowerCase_append]
  rfl

/-- Claim C12, as stated, fails: the literal `Foo` of the instruction is `foo` in the
emitted statement, so it is not inserted with the letter case it was written in. -/
theorem C12_literal_is_lowercased :
    parseCustomAssertion "text does not contain 'Foo'" "playwright" "#a" "page.locator(\"#a\")"
      = some (some "expect(await page.locator(\"#a\").textContent()).not.toContain(\"foo\");".toList) ∧
    parseCustomAssertion "text does not contain 'Foo'" "playwright" "#a" "page.locator(\"#a\")"
      ≠ some (some "expect(await page.locator(\"#a\").textContent()).not.toContain(\"Foo\");".toList) := by
  decide

/-- Claim C12, amended: for each of the three frameworks and each noun, a not-contain clause
with a quoted literal `V` of ASCII characters (not empty, on one line, without a quote
character) that is neither a conjunction nor a disjunction compiles to the framework's
negative-containment assertion on the text content, the input value or the attribute `X`
(a run of ASCII letters, digits, `_` and `-`), with `V` and `X` inserted lower-cased:
the letters `A` to `Z` become `a` to `z`, every other character is kept. -/
theorem C12_not_contain_lowercased (V X selector locator : Str) (hV : Literal V)
    (_hascii : Ascii V) (hX : AttrName X) :
    (Plain (clauseInstruction "text" " does not contain " V) →
      parseCustomAssertion (clauseInstruction "text" " does not contain " V)
          "playwright" selector locator
        = some (some (cat ["expect(await ", locator, ".textContent()).not.toContain(\"",
            toLowerCase V, "\");"])) ∧
      parseCustomAssertion (clauseInstruction "text" " does not contain " V)
          "cypress" selector locator
        = some (some (cat ["cy.get('", selector, "').invoke('text').should('not.contain', \"",
            toLowerCase V, "\");"])) ∧
      parseCustomAssertion (clauseInstruction "text" " does not contain " V)
          "selenium" selector locator
        = some (some (cat ["assert(!driver.findElement(By.cssSelector('", selector,
            "')).getText().includes(\"", toLowerCase V, "\"));"]))) ∧
    (Plain (clauseInstruction "value" " does not contain " V) →
      parseCustomAssertion (clauseInstruction "value" " does not contain " V)
          "playwright" selector locator
        = some (some (cat ["expect(await ", locator, ".inputValue()).not.toContain(\"",
            toLowerCase V, "\");"])) ∧
      parseCustomAssertion (clauseInstruction "value" " does not contain " V)
          "cypress" selector locator
        = some (some (cat ["cy.get('", selector, "').invoke('val').should('not.contain', \"",
            toLowerCase V, "\");"])) ∧
      parseCustomAssertion (clauseInstruction "value" " does not contain " V)
          "selenium" selector locator
        = some (some (cat ["assert(!driver.findElement(By.cssSelector('", selector,
            "')).getAttribute('value').includes(\"", toLowerCase V, "\"));"]))) ∧
    (Plain (clauseInstruction ("attribute ".toList ++ X) " does not contain " V) →
      parseCustomAssertion (clauseInstruction ("attribute ".toList ++ X) " does not contain " V)
          "playwright" selector locator
        = some (some (cat ["expect((await ", locator, ".getAttribute(\"", toLowerCase X,
            "\"))).not.toContain(\"", toLowerCase V, "\");"])) ∧
      parseCustomAssertion (clauseInstruction ("attribute ".toList ++ X) " does not contain " V)
          "cypress" selector locator
        = some (some (cat ["cy.get('", selector, "').invoke('attr', '", toLowerCase X,
            "').should('not.contain', \"", toLowerCase V, "\");"])) ∧
      parseCustomAssertion (clauseInstruction ("attribute ".toList ++ X) " does not contain " V)
          "selenium" selector locator
        = some (some (cat ["assert(!driver.findElement(By.cssSelector('", selector,
            "')).getAttribute('", toLowerCase X, "').includes(\"", toLowerCase V, "\"));"]))) := by
  have htext := fun fw code => parse_notContain "text".toList V fw selector locator
    ((List.replicate 4 none).set 1 (some "text".toList)) code noun_text_facts.1 noun_text_facts.2 hV
  have hvalue := fun fw code => parse_notContain "value".toList V fw selector locator
    ((List.replicate 4 none).set 1 (some "value".toList)) code noun_value_facts.1
    noun_value_facts.2 hV
  have hattr := fun fw code => parse_notContain ("attribute ".toList ++ X) V fw selector locator
    (((List.replicate 4 none).set 2 (some (toLowerCase X))).set 1
      (some ("attribute ".toList ++ toLowerCase X))) code
    (noun_attribute_facts X).1 (noun_attribute_facts X).2 hV
  obtain ⟨hx1, hx2⟩ := attrName_toLowerCase hX
  refine ⟨fun hp => ⟨?_, ?_, ?_⟩, fun hp => ⟨?_, ?_, ?_⟩, fun hp => ⟨?_, ?_, ?_⟩⟩
  · exact htext _ _ hp (headIs_noun_text _ _) rfl
  · exact htext _ _ hp (headIs_noun_text _ _) rfl
  · exact htext _ _ hp (headIs_noun_text _ _) rfl
  · exact hvalue _ _ hp (headIs_noun_value _ _) rfl
  · exact hvalue _ _ hp (headIs_noun_value _ _) rfl
  · exact hvalue _ _ hp (headIs_noun_value _ _) rfl
  all_goals
    refine hattr _ _ hp ?_ rfl
    rw [toLowerCase_attribute]
    exact headIs_noun_attribute (toLowerCase X) _ _ hx1 hx2 rfl

/-- An instance of `C12_not_contain_lowercased`: for cypress, the attribute `data-Id`
and the literal `Foo Bar`. -/
theorem C12_not_contain_lowercased_witness :
    parseCustomAssertion "attribute data-Id does not contain 'Foo Bar'" "cypress" "#a" "loc"
      = some (some
          "cy.get('#a').invoke('attr', 'data-id').should('not.contain', \"foo bar\");".toList) :=
  ((C12_not_contain_lowercased "Foo Bar".toList "data-Id".toList "#a".toList "loc".toList
    (by decide) (by decide) (by decide)).2.2 (by decide)).2.1

/-! ### Placeholder substitution -/

theorem getSubstitution_dollarFree (matched before after r : Str) (h : DollarFree r) :
    getSubstitution matched before after r = r := by
  induction r with
  | nil => rfl
  | cons c t ih =>
    have hc : c ≠ '$' := h c (List.mem_cons_self _ _)
    have ht : DollarFree t := fun d hd => h d (List.mem_cons_of_mem _ hd)
    rw [getSubstitution.eq_def]
    simp only [hc, ↓reduceIte, ih ht]

theorem splitFirst_nil (p : Str) (hp : p ≠ []) : splitFirst [] p = none := by
  cases p with
  | nil => exact absurd rfl hp
  | cons _ _ => rfl

theorem splitFirst_cons_skip (x : Char) (s p : Str) (h : p.isPrefixOf (x :: s) = false) :
    splitFirst (x :: s) p = (splitFirst s p).map fun r => (x :: r.1, r.2) := by
  rw [splitFirst]
  simp only [h, Bool.false_eq_true, if_false]

theorem isPrefixOf_brace_false (x y : Char) (s p : Str) (hx : x ≠ y) :
    (y :: p).isPrefixOf (x :: s) = false := by
  simp [List.isPrefixOf, hx]
  intro h
  exact absurd h.symm hx

/-- A text without a brace is skipped by the search of a placeholder. -/
theorem splitFirst_braceFree_append (u s p : Str) (hu : BraceFree u) :
    splitFirst (u ++ s) (Char.ofNat 123 :: p)
      = (splitFirst s (Char.ofNat 123 :: p)).map fun r => (u ++ r.1, r.2) := by
  induction u with
  | nil => simp
  | cons x t ih =>
    have hx : x ≠ Char.ofNat 123 := hu x (List.mem_cons_self _ _)
    have ht : BraceFree t := fun d hd => hu d (List.mem_cons_of_mem _ hd)
    rw [List.cons_append, splitFirst_cons_skip x _ _ (isPrefixOf_brace_false x _ _ _ hx), ih ht]
    cases splitFirst s (Char.ofNat 123 :: p) with
    | none => rfl
    | some r => rfl

/-- The first occurrence of a placeholder after a text without a brace. -/
theorem splitFirst_found (u s p : Str) (hu : BraceFree u) :
    splitFirst (u ++ ((Char.ofNat 123 :: p) ++ s)) (Char.ofNat 123 :: p) = some (u, s) := by
  rw [splitFirst_braceFree_append u _ p hu]
  have hpre : (Char.ofNat 123 :: p).isPrefixOf ((Char.ofNat 123 :: p) ++ s) = true :=
    List.isPrefixOf_iff_prefix.mpr (List.prefix_append _ _)
  have : splitFirst ((Char.ofNat 123 :: p) ++ s) (Char.ofNat 123 :: p) = some ([], s) := by
    rw [List.cons_append, splitFirst]
    rw [List.cons_append] at hpre
    simp only [hpre, if_true]
    simp
  rw [this]
  simp

/-- Another placeholder, whose name starts with another letter, is skipped by the search. -/
theorem splitFirst_skip_other (u q s p : Str) (x y : Char) (hu : BraceFree u)
    (hq : BraceFree (x :: q)) (hxy : x ≠ y) :
    splitFirst (u ++ ((Char.ofNat 123 :: x :: q) ++ s)) (Char.ofNat 123 :: y :: p)
      = (splitFirst s (Char.ofNat 123 :: y :: p)).map
          fun r => (u ++ ((Char.ofNat 123 :: x :: q) ++ r.1), r.2) := by
  rw [splitFirst_braceFree_append u _ _ hu]
  have hno : (Char.ofNat 123 :: y :: p).isPrefixOf (Char.ofNat 123 :: ((x :: q) ++ s)) = false := by
    simp [List.isPrefixOf, hxy]
    intro h
    exact absurd h.symm hxy
  have e : (Char.ofNat 123 :: x :: q) ++ s = Char.ofNat 123 :: ((x :: q) ++ s) := rfl
  rw [e, splitFirst_cons_skip _ _ _ hno, splitFirst_braceFree_append (x :: q) s _ hq]
  cases splitFirst s (Char.ofNat 123 :: y :: p) with
  | none => rfl
  | some r => simp

theorem jsReplace_absent (t p r : Str) (h : splitFirst t p = none) : jsReplace t p r = t := by
  simp only [jsReplace, h]

theorem jsReplace_found (t p r a s : Str) (h : splitFirst t p = some (a, s)) (hr : DollarFree r) :
    jsReplace t p r = a ++ r ++ s := by
  simp only [jsReplace, h, getSubstitution_dollarFree _ _ _ _ hr]

theorem render_str (t loc sel : Str) (value : Option Str) :
    render (.str t) (.str loc) sel value =
      .ok (if truthy value then
          jsReplace (jsReplace (jsReplace t "\x7blocator\x7d" loc) "\x7bselector\x7d" sel)
            "\x7bvalue\x7d" (value.getD [])
        else jsReplace (jsReplace t "\x7blocator\x7d" loc) "\x7bselector\x7d" sel) := rfl

theorem actionLines_of_render (parsed : ParsedConfig) (act : Action) (t line : Str)
    (ht : UsesTemplate parsed act t)
    (h : render (.str t) (getLocator act.selector parsed.locatorMap parsed.framework)
      act.selector act.value = .ok line) :
    actionLines parsed act = .ok ["  ".toList ++ line] := by
  rcases ht with ⟨ha, htpl⟩ | ⟨ha, hi, htpl⟩
  · unfold actionLines
    simp only [ha, Bool.false_eq_true, if_false, htpl, h, Except.map, cat, List.flatten,
      List.append_nil]
  · unfold actionLines customCodeOf
    simp only [ha, if_true, hi, Bool.false_eq_true, if_false, htpl, h, Except.map, truthy, cat,
      List.flatten, List.append_nil]
    rfl

theorem generate_single (cfg : Config) (act : Action) (t line : Str)
    (ht : UsesTemplate (parseConfig cfg) act t)
    (h : render (.str t)
      (getLocator act.selector (parseConfig cfg).locatorMap (parseConfig cfg).framework)
      act.selector act.value = .ok line) :
    generateAutomationScript (some [act]) (some cfg) =
      .ok (join "\n" (headerLines (parseConfig cfg).framework ++ ["  ".toList ++ line]
        ++ footerLines (parseConfig cfg).framework)) := by
  have h1 := actionLines_of_render (parseConfig cfg) act t line ht h
  simp only [generateAutomationScript, allActionLines, h1, Except.bind, Except.map, List.append_nil]

theorem absent_after_one (u q c p : Str) (x y : Char) (hu : BraceFree u) (hq : BraceFree (x :: q))
    (hc : BraceFree c) (hxy : x ≠ y) :
    splitFirst (u ++ ((Char.ofNat 123 :: x :: q) ++ c)) (Char.ofNat 123 :: y :: p) = none := by
  rw [splitFirst_skip_other u q c p x y hu hq hxy]
  have : splitFirst c (Char.ofNat 123 :: y :: p) = none := by
    have := splitFirst_braceFree_append c [] (y :: p) hc
    rw [List.append_nil, splitFirst_nil _ (by simp)] at this
    exact this
  rw [this]
  rfl

theorem absent_in_two (a b c q p : Str) (x y : Char) (ha : BraceFree a) (hb : BraceFree b)
    (hc : BraceFree c) (hq : BraceFree (x :: q)) (hxy : x ≠ y) :
    splitFirst (a ++ ((Char.ofNat 123 :: x :: q) ++ (b ++ ((Char.ofNat 123 :: x :: q) ++ c))))
      (Char.ofNat 123 :: y :: p) = none := by
  rw [splitFirst_skip_other a q _ p x y ha hq hxy, absent_after_one b q c p x y hb hq hc hxy]
  rfl

theorem braceFree_append {u v : Str} (hu : BraceFree u) (hv : BraceFree v) : BraceFree (u ++ v) := by
  intro c hc
  rcases List.mem_append.mp hc with h | h
  · exact hu c h
  · exact hv c h

theorem render_locator_twice (a b c loc sel : Str) (value : Option Str) (ha : BraceFree a)
    (hb : BraceFree b) (hc : BraceFree c) (hl : BraceFree loc) (hd : DollarFree loc) :
    render (.str (a ++ ("\x7blocator\x7d".toList ++ (b ++ ("\x7blocator\x7d".toList ++ c)))))
      (.str loc) sel value
      = .ok (a ++ loc ++ (b ++ ("\x7blocator\x7d".toList ++ c))) := by
  have eL : "\x7blocator\x7d".toList = Char.ofNat 123 :: 'l' :: "ocator\x7d".toList := by decide
  have eS : "\x7bselector\x7d".toList = Char.ofNat 123 :: 's' :: "elector\x7d".toList := by decide
  have eV : "\x7bvalue\x7d".toList = Char.ofNat 123 :: 'v' :: "alue\x7d".toList := by decide
  have hq : BraceFree ('l' :: "ocator\x7d".toList) := by decide
  have hu : BraceFree (a ++ loc ++ b) := braceFree_append (braceFree_append ha hl) hb
  have h1 : jsReplace (a ++ ("\x7blocator\x7d".toList ++ (b ++ ("\x7blocator\x7d".toList ++ c))))
      "\x7blocator\x7d".toList loc = (a ++ loc ++ b) ++ ("\x7blocator\x7d".toList ++ c) := by
    rw [jsReplace_found _ _ loc a (b ++ ("\x7blocator\x7d".toList ++ c)) _ hd]
    · simp only [List.append_assoc]
    · rw [eL]
      exact splitFirst_found a _ _ ha
  have h2 : ∀ r, jsReplace ((a ++ loc ++ b) ++ ("\x7blocator\x7d".toList ++ c))
      "\x7bselector\x7d".toList r = (a ++ loc ++ b) ++ ("\x7blocator\x7d".toList ++ c) := by
    intro r
    apply jsReplace_absent
    rw [eL, eS]
    exact absent_after_one _ _ c _ 'l' 's' hu hq hc (by decide)
  have h3 : ∀ r, jsReplace ((a ++ loc ++ b) ++ ("\x7blocator\x7d".toList ++ c))
      "\x7bvalue\x7d".toList r = (a ++ loc ++ b) ++ ("\x7blocator\x7d".toList ++ c) := by
    intro r
    apply jsReplace_absent
    rw [eL, eV]
    exact absent_after_one _ _ c _ 'l' 'v' hu hq hc (by decide)
  rw [render_str]
  show Except.ok (if truthy value = true then
      jsReplace (jsReplace (jsReplace _ "\x7blocator\x7d".toList loc) "\x7bselector\x7d".toList sel)
        "\x7bvalue\x7d".toList (value.getD [])
    else jsReplace (jsReplace _ "\x7blocator\x7d".toList loc) "\x7bselector\x7d".toList sel) = _
  rw [h1, h2, h3, ite_self]
  simp only [List.append_assoc]

theorem render_selector_twice (a b c loc sel : Str) (value : Option Str) (ha : BraceFree a)
    (hb : BraceFree b) (hc : BraceFree c) (hs : BraceFree sel) (hd : DollarFree sel) :
    render (.str (a ++ ("\x7bselector\x7d".toList ++ (b ++ ("\x7bselector\x7d".toList ++ c)))))
      (.str loc) sel value
      = .ok (a ++ sel ++ (b ++ ("\x7bselector\x7d".toList ++ c))) := by
  have eL : "\x7blocator\x7d".toList = Char.ofNat 123 :: 'l' :: "ocator\x7d".toList := by decide
  have eS : "\x7bselector\x7d".toList = Char.ofNat 123 :: 's' :: "elector\x7d".toList := by decide
  have eV : "\x7bvalue\x7d".toList = Char.ofNat 123 :: 'v' :: "alue\x7d".toList := by decide
  have hq : BraceFree ('s' :: "elector\x7d".toList) := by decide
  have hu : BraceFree (a ++ sel ++ b) := braceFree_append (braceFree_append ha hs) hb
  have h1 : ∀ r, jsReplace (a ++ ("\x7bselector\x7d".toList ++ (b ++ ("\x7bselector\x7d".toList ++ c))))
      "\x7blocator\x7d".toList r
      = a ++ ("\x7bselector\x7d".toList ++ (b ++ ("\x7bselector\x7d".toList ++ c))) := by
    intro r
    apply jsReplace_absent
    rw [eL, eS]
    exact absent_in_two a b c _ _ 's' 'l' ha hb hc hq (by decide)
  have h2 : jsReplace (a ++ ("\x7bselector\x7d".toList ++ (b ++ ("\x7bselector\x7d".toList ++ c))))
      "\x7bselector\x7d".toList sel = (a ++ sel ++ b) ++ ("\x7bselector\x7d".toList ++ c) := by
    rw [jsReplace_found _ _ sel a (b ++ ("\x7bselector\x7d".toList ++ c)) _ hd]
    · simp only [List.append_assoc]
    · rw [eS]
      exact splitFirst_found a _ _ ha
  have h3 : ∀ r, jsReplace ((a ++ sel ++ b) ++ ("\x7bselector\x7d".toList ++ c))
      "\x7bvalue\x7d".toList r = (a ++ sel ++ b) ++ ("\x7bselector\x7d".toList ++ c) := by
    intro r
    apply jsReplace_absent
    rw [eS, eV]
    exact absent_after_one _ _ c _ 's' 'v' hu hq hc (by decide)
  rw [render_str]
  show Except.ok (if truthy value = true then
      jsReplace (jsReplace (jsReplace _ "\x7blocator\x7d".toList loc) "\x7bselector\x7d".toList sel)
        "\x7bvalue\x7d".toList (value.getD [])
    else jsReplace (jsReplace _ "\x7blocator\x7d".toList loc) "\x7bselector\x7d".toList sel) = _
  rw [h1, h2, h3, ite_self]
  simp only [List.append_assoc]

theorem render_value_twice (a b c loc sel v : Str) (ha : BraceFree a) (hb : BraceFree b)
    (hc : BraceFree c) (hv : v ≠ []) (hd : DollarFree v) :
    render (.str (a ++ ("\x7bvalue\x7d".toList ++ (b ++ ("\x7bvalue\x7d".toList ++ c)))))
      (.str loc) sel (some v)
      = .ok (a ++ v ++ (b ++ ("\x7bvalue\x7d".toList ++ c))) := by
  have eL : "\x7blocator\x7d".toList = Char.ofNat 123 :: 'l' :: "ocator\x7d".toList := by decide
  have eS : "\x7bselector\x7d".toList = Char.ofNat 123 :: 's' :: "elector\x7d".toList := by decide
  have eV : "\x7bvalue\x7d".toList = Char.ofNat 123 :: 'v' :: "alue\x7d".toList := by decide
  have hq : BraceFree ('v' :: "alue\x7d".toList) := by decide
  have h1 : ∀ r, jsReplace (a ++ ("\x7bvalue\x7d".toList ++ (b ++ ("\x7bvalue\x7d".toList ++ c))))
      "\x7blocator\x7d".toList r
      = a ++ ("\x7bvalue\x7d".toList ++ (b ++ ("\x7bvalue\x7d".toList ++ c))) := by
    intro r
    apply jsReplace_absent
    rw [eL, eV]
    exact absent_in_two a b c _ _ 'v' 'l' ha hb hc hq (by decide)
  have h2 : ∀ r, jsReplace (a ++ ("\x7bvalue\x7d".toList ++ (b ++ ("\x7bvalue\x7d".toList ++ c))))
      "\x7bselector\x7d".toList r
      = a ++ ("\x7bvalue\x7d".toList ++ (b ++ ("\x7bvalue\x7d".toList ++ c))) := by
    intro r
    apply jsReplace_absent
    rw [eS, eV]
    exact absent_in_two a b c _ _ 'v' 's' ha hb hc hq (by decide)
  have h3 : jsReplace (a ++ ("\x7bvalue\x7d".toList ++ (b ++ ("\x7bvalue\x7d".toList ++ c))))
      "\x7bvalue\x7d".toList v = a ++ v ++ (b ++ ("\x7bvalue\x7d".toList ++ c)) := by
    rw [jsReplace_found _ _ v a (b ++ ("\x7bvalue\x7d".toList ++ c)) _ hd]
    rw [eV]
    exact splitFirst_found a _ _ ha
  have ht : truthy (some v) = true := by
    cases v with
    | nil => exact absurd rfl hv
    | cons _ _ => rfl
  rw [render_str]
  show Except.ok (if truthy (some v) = true then
      jsReplace (jsReplace (jsReplace _ "\x7blocator\x7d".toList loc) "\x7bselector\x7d".toList sel)
        "\x7bvalue\x7d".toList ((some v).getD [])
    else jsReplace (jsReplace _ "\x7blocator\x7d".toList loc) "\x7bselector\x7d".toList sel) = _
  rw [if_pos ht, h1, h2]
  exact congrArg Except.ok h3

/-- Claim C13, as stated, fails: for cypress, a click template of the user that holds
`{selector}` twice is rendered with the first occurrence substituted and the
second one left in the line. -/
theorem C13_second_occurrence_remains :
    generateAutomationScript
      (some [{ type := "click", selector := "#go", value := none, assert := false,
               assertType := none, assertInstruction := none }])
      (some { framework := some "cypress", locatorMap := none,
              actions := some { kinds := [("click", "tap(\x7bselector\x7d, \x7bselector\x7d);")],
                                assert := none } })
      = .ok "// Cypress script generated\n  tap(#go, \x7bselector\x7d);" ∧
    includes "// Cypress script generated\n  tap(#go, \x7bselector\x7d);" "\x7bselector\x7d" = true :=
  ⟨rfl, by decide⟩

/-- Claim C13, amended: each placeholder is substituted at its first occurrence
only.  For an action rendered from a template `t` with a locator that is a string,
and texts `a`, `b`, `c` without a brace: when `t` is `a{locator}b{locator}c` the
entry is `a`, the locator, `b{locator}c`; when `t` is `a{selector}b{selector}c` it is
`a`, the selector, `b{selector}c`; when `t` is `a{value}b{value}c` and the action has
the value `v` it is `a`, `v`, `b{value}c` (the inserted text holding no dollar
sign, and no brace for the locator and the selector). -/
theorem C13_first_occurrence_only (cfg : Config) (act : Action) (t loc a b c : Str)
    (ht : UsesTemplate (parseConfig cfg) act t)
    (hloc : getLocator act.selector (parseConfig cfg).locatorMap (parseConfig cfg).framework
      = .str loc)
    (ha : BraceFree a) (hb : BraceFree b) (hc : BraceFree c) :
    (t = a ++ ("\x7blocator\x7d".toList ++ (b ++ ("\x7blocator\x7d".toList ++ c))) →
      BraceFree loc → DollarFree loc →
      generateAutomationScript (some [act]) (some cfg) =
        .ok (join "\n" (headerLines (parseConfig cfg).framework
          ++ ["  ".toList ++ (a ++ loc ++ (b ++ ("\x7blocator\x7d".toList ++ c)))]
          ++ footerLines (parseConfig cfg).framework))) ∧
    (t = a ++ ("\x7bselector\x7d".toList ++ (b ++ ("\x7bselector\x7d".toList ++ c))) →
      BraceFree act.selector → DollarFree act.selector →
      generateAutomationScript (some [act]) (some cfg) =
        .ok (join "\n" (headerLines (parseConfig cfg).framework
          ++ ["  ".toList ++ (a ++ act.selector ++ (b ++ ("\x7bselector\x7d".toList ++ c)))]
          ++ footerLines (parseConfig cfg).framework))) ∧
    (∀ v, t = a ++ ("\x7bvalue\x7d".toList ++ (b ++ ("\x7bvalue\x7d".toList ++ c))) →
      act.value = some v → v ≠ [] → DollarFree v →
      generateAutomationScript (some [act]) (some cfg) =
        .ok (join "\n" (headerLines (parseConfig cfg).framework
          ++ ["  ".toList ++ (a ++ v ++ (b ++ ("\x7bvalue\x7d".toList ++ c)))]
          ++ footerLines (parseConfig cfg).framework))) := by
  refine ⟨?_, ?_, ?_⟩
  · intro e hl hd
    apply generate_single cfg act t _ ht
    rw [hloc, e]
    exact render_locator_twice a b c loc act.selector act.value ha hb hc hl hd
  · intro e hs hd
    apply generate_single cfg act t _ ht
    rw [hloc, e]
    exact render_selector_twice a b c loc act.selector act.value ha hb hc hs hd
  · intro v e hv hne hd
    apply generate_single cfg act t _ ht
    rw [hloc, e, hv]
    exact render_value_twice a b c loc act.selector v ha hb hc hne hd

/-- An instance of `C13_first_occurrence_only`: for playwright, an assertion template
of the user with `{locator}` twice. -/
theorem C13_first_occurrence_only_witness :
    generateAutomationScript
      (some [{ type := "click", selector := "#go", value := none, assert := true,
               assertType := some "exists", assertInstruction := none }])
      (some { framework := some "playwright", locatorMap := some [("#go", "page.locator('#go')")],
              actions := some { kinds := [],
                                assert := some [("exists", "check(\x7blocator\x7d, \x7blocator\x7d);")] } })
      = .ok (join "\n" (headerLines "playwright"
          ++ ["  ".toList ++ ("check(".toList ++ "page.locator('#go')".toList
                ++ (", ".toList ++ ("\x7blocator\x7d".toList ++ ");".toList)))]
          ++ footerLines "playwright")) :=
  (C13_first_occurrence_only
    { framework := some "playwright", locatorMap := some [("#go", "page.locator('#go')")],
      actions := some { kinds := [],
                        assert := some [("exists", "check(\x7blocator\x7d, \x7blocator\x7d);")] } }
    { type := "click", selector := "#go", value := none, assert := true,
      assertType := some "exists", assertInstruction := none }
    "check(\x7blocator\x7d, \x7blocator\x7d);" "page.locator('#go')" "check(" ", " ");"
    (Or.inr ⟨rfl, rfl, rfl⟩) rfl (by decide) (by decide) (by decide)).1 (by decide) (by decide)
    (by decide)

/-! ### Template and locator lookup -/

theorem or_of_truthy (a b : JsVal) (h : a.truthy = true) : a.or b = a := by
  simp only [JsVal.or, h, if_true]

theorem or_of_falsy (a b : JsVal) (h : a.truthy = false) : a.or b = b := by
  simp only [JsVal.or, h, Bool.false_eq_true, if_false]

theorem getProp_own (own : List (Str × Str)) (key s : Str) (h : own.lookup key = some s) :
    getProp own key = .str s := by
  simp only [getProp, h]

theorem getProp_falsy (own : List (Str × Str)) (key : Str)
    (h : own.lookup key = none ∨ own.lookup key = some []) (hp : objectPrototype key = .undefined) :
    (getProp own key).truthy = false := by
  rcases h with h | h
  · simp only [getProp, h, hp]; rfl
  · simp only [getProp, h]; rfl

theorem str_or_empty (e : Str) : (JsVal.str e).or (.str []) = .str e := by
  cases e with
  | nil => rfl
  | cons _ _ => rfl

theorem str_truthy (s : Str) (h : s ≠ []) : (JsVal.str s).truthy = true := by
  cases s with
  | nil => exact absurd rfl h
  | cons _ _ => rfl

/-- Claim C14: with an `assert` mapping, `getAssertionTemplate` returns the entry of
the requested kind when it is there and not empty; when that entry is missing or
empty (and the kind is not a name inherited from `Object.prototype`) it returns
the entry of `exists` when there is one; without an `assert` mapping it returns
the empty string. -/
theorem C14_assertion_template_fallback (kind : Str) (kinds : List (Str × Str)) :
    (∀ a s, a.lookup kind = some s → s ≠ [] →
      getAssertionTemplate kind { kinds := kinds, assert := some a } = .str s) ∧
    (∀ a e, (a.lookup kind = none ∨ a.lookup kind = some []) → objectPrototype kind = .undefined →
      a.lookup "exists".toList = some e →
      getAssertionTemplate kind { kinds := kinds, assert := some a } = .str e) ∧
    getAssertionTemplate kind { kinds := kinds, assert := none } = .str [] := by
  refine ⟨?_, ?_, rfl⟩
  · intro a s hs hne
    show ((getProp a kind).or (getProp a "exists")).or (.str "") = _
    rw [getProp_own a kind s hs, or_of_truthy _ _ (str_truthy s hne),
      or_of_truthy _ _ (str_truthy s hne)]
  · intro a e hk hp he
    show ((getProp a kind).or (getProp a "exists")).or (.str "") = _
    rw [or_of_falsy _ _ (getProp_falsy a kind hk hp), getProp_own a _ e he]
    exact str_or_empty e

/-- An instance of `C14_assertion_template_fallback`: `value is` is asked for, and
the mapping defines `exists` only. -/
theorem C14_assertion_template_fallback_witness :
    getAssertionTemplate "value is"
      { kinds := [], assert := some [("exists", "cy.get(\"\x7bselector\x7d\").should(\"exist\");")] }
      = .str "cy.get(\"\x7bselector\x7d\").should(\"exist\");" :=
  (C14_assertion_template_fallback "value is" []).2.1 _ _ (Or.inl (by decide)) (by decide)
    (by decide)

/-- Claim C15: for cypress and for selenium `getLocator` returns the selector as it
is, whatever the locator map holds. -/
theorem C15_locator_is_selector (selector : Str) (locatorMap : List (Str × Str)) :
    getLocator selector locatorMap "cypress" = .str selector ∧
    getLocator selector locatorMap "selenium" = .str selector :=
  ⟨rfl, rfl⟩

/-- Claim C16, as stated, fails: for playwright an entry of the map whose text is
empty is not returned; the default lookup expression is. -/
theorem C16_empty_entry_gives_default :
    getLocator "#a" [("#a", "")] "playwright" = .str "document.querySelector(\"#a\")" ∧
    getLocator "#a" [("#a", "")] "playwright" ≠ .str "" := by
  constructor <;> decide

/-- Claim C16, amended: for a framework other than cypress and selenium,
`getLocator` returns the entry of the selector in the map when that entry is not
empty; when the map has no entry or an empty one, and the selector is not a
name inherited from `Object.prototype`, it returns the default lookup expression. -/
theorem C16_locator_from_map_or_default (selector framework : Str) (locatorMap : List (Str × Str))
    (hc : framework ≠ "cypress".toList) (hs : framework ≠ "selenium".toList) :
    (∀ e, locatorMap.lookup selector = some e → e ≠ [] →
      getLocator selector locatorMap framework = .str e) ∧
    ((locatorMap.lookup selector = none ∨ locatorMap.lookup selector = some []) →
      objectPrototype selector = .undefined →
      getLocator selector locatorMap framework
        = .str ("document.querySelector(\"".toList ++ selector ++ "\")".toList)) := by
  have hfw : (strEq framework "cypress" || strEq framework "selenium") = false := by
    have h1 : strEq framework "cypress" = false := decide_eq_false hc
    have h2 : strEq framework "selenium" = false := decide_eq_false hs
    rw [h1, h2]
    rfl
  have hget : getLocator selector locatorMap framework
      = (getProp locatorMap selector).or
          (.str (cat ["document.querySelector(\"", selector, "\")"])) := by
    simp only [getLocator, hfw, Bool.false_eq_true, if_false]
  constructor
  · intro e he hne
    rw [hget, getProp_own _ _ e he, or_of_truthy _ _ (str_truthy e hne)]
  · intro hk hp
    rw [hget, or_of_falsy _ _ (getProp_falsy _ _ hk hp)]
    simp only [cat, List.flatten, List.append_nil, List.append_assoc]

/-- An instance of `C16_locator_from_map_or_default`: the entry of `#login` for playwright. -/
theorem C16_locator_from_map_or_default_witness :
    getLocator "#login" [("#login", "page.locator('#login')")] "playwright"
      = .str "page.locator('#login')" :=
  (C16_locator_from_map_or_default "#login" "playwright" [("#login", "page.locator('#login')")]
    (by decide) (by decide)).1 _ (by decide) (by decide)

/-! ### Configuration -/

theorem orDefault_some (f d : Str) (h : f ≠ []) : orDefault (some f) d = f := by
  cases f with
  | nil => exact absurd rfl h
  | cons _ _ => rfl

theorem parseConfig_framework (cfg : Config) (f : Str) (hf : cfg.framework = some f) (hne : f ≠ []) :
    (parseConfig cfg).framework = f := by
  simp only [parseConfig, hf, orDefault_some f _ hne]

theorem parseConfig_templates (cfg : Config) :
    (parseConfig cfg).actionTemplates
      = (defaultTemplates (parseConfig cfg).framework).spread
          (cfg.actions.getD Templates.empty) := rfl

theorem spread_lookup_user (base over : Templates) (k s : Str) (h : over.kinds.lookup k = some s) :
    (base.spread over).kinds.lookup k = some s := by
  simp only [Templates.spread, List.lookup_append, h]
  rfl

theorem spread_lookup_default (base over : Templates) (k : Str) (h : over.kinds.lookup k = none) :
    (base.spread over).kinds.lookup k = base.kinds.lookup k := by
  simp only [Templates.spread, List.lookup_append, h]
  rfl

theorem defaultTemplates_unrecognized (f : Str)
    (h : f ∉ ["plain".toList, "playwright".toList, "cypress".toList, "selenium".toList]) :
    defaultTemplates f = Templates.empty := by
  simp only [List.mem_cons, List.mem_singleton, List.not_mem_nil, or_false, not_or] at h
  obtain ⟨h1, h2, h3, h4⟩ := h
  simp only [defaultTemplates, strEq, decide_eq_false h1, decide_eq_false h2, decide_eq_false h3,
    decide_eq_false h4, Bool.false_eq_true, if_false]

/-- Claim C17, as stated, fails: a framework name outside the four is kept by
`parseConfig`, and no default template is loaded for it. -/
theorem C17_unrecognized_framework_is_kept :
    (parseConfig { framework := some "webdriverio", locatorMap := none, actions := none }).framework
      = "webdriverio".toList ∧
    (parseConfig { framework := some "webdriverio", locatorMap := none, actions := none }).actionTemplates
      = { kinds := [], assert := none } := by
  constructor <;> decide

/-- Claim C17, amended: a config without a framework (or with the empty name) gets
the framework `plain` and the templates of the user laid over the defaults of
plain, key by key; a config whose framework is a name outside plain, playwright,
cypress and selenium keeps that name, and its templates are those of the user alone. -/
theorem C17_absent_or_unrecognized_framework (cfg : Config) :
    ((cfg.framework = none ∨ cfg.framework = some []) →
      (parseConfig cfg).framework = "plain".toList ∧
      (∀ k s, (cfg.actions.getD Templates.empty).kinds.lookup k = some s →
        (parseConfig cfg).actionTemplates.kinds.lookup k = some s) ∧
      (∀ k, (cfg.actions.getD Templates.empty).kinds.lookup k = none →
        (parseConfig cfg).actionTemplates.kinds.lookup k
          = (defaultTemplates "plain").kinds.lookup k) ∧
      (∀ m, (cfg.actions.getD Templates.empty).assert = some m →
        (parseConfig cfg).actionTemplates.assert = some m) ∧
      ((cfg.actions.getD Templates.empty).assert = none →
        (parseConfig cfg).actionTemplates.assert = (defaultTemplates "plain").assert)) ∧
    (∀ f, cfg.framework = some f → f ≠ [] →
      f ∉ ["plain".toList, "playwright".toList, "cypress".toList, "selenium".toList] →
      (parseConfig cfg).framework = f ∧
      (parseConfig cfg).actionTemplates = cfg.actions.getD Templates.empty) := by
  constructor
  · intro h
    have hf : (parseConfig cfg).framework = "plain".toList := by
      rcases h with h | h <;> simp only [parseConfig, h] <;> rfl
    refine ⟨hf, ?_, ?_, ?_, ?_⟩
    · intro k s hk
      rw [parseConfig_templates]
      exact spread_lookup_user _ _ k s hk
    · intro k hk
      rw [parseConfig_templates, hf]
      exact spread_lookup_default _ _ k hk
    · intro m hm
      rw [parseConfig_templates]
      simp only [Templates.spread, hm]
    · intro hm
      rw [parseConfig_templates, hf]
      simp only [Templates.spread, hm]
  · intro f hf hne hrec
    have hfw := parseConfig_framework cfg f hf hne
    refine ⟨hfw, ?_⟩
    rw [parseConfig_templates, hfw, defaultTemplates_unrecognized f hrec]
    cases hu : (cfg.actions.getD Templates.empty) with
    | mk kinds assert =>
      cases assert <;> simp [Templates.spread, Templates.empty]

/-- An instance of `C17_absent_or_unrecognized_framework`: no framework and no
template of the user. -/
theorem C17_absent_or_unrecognized_framework_witness :
    (parseConfig { framework := none, locatorMap := none, actions := none }).framework
      = "plain".toList :=
  ((C17_absent_or_unrecognized_framework
    { framework := none, locatorMap := none, actions := none }).1 (Or.inl rfl)).1

theorem defaults_complete : ∀ f ∈ recognizedFrameworks,
    hasTemplate ((defaultTemplates f).kinds.lookup "click".toList) = true ∧
    hasTemplate ((defaultTemplates f).kinds.lookup "input".toList) = true ∧
    ∀ kind ∈ ["exists".toList, "has text".toList, "value is".toList],
      hasTemplate (((defaultTemplates f).assert.getD []).lookup kind) = true := by
  decide

theorem recognized_ne_nil : ∀ f ∈ recognizedFrameworks, f ≠ [] := by decide

/-- Claim C18, as stated, fails: for playwright, a user `assert` mapping that defines
`exists` only replaces the default mapping whole, and `has text` is left without
a template. -/
theorem C18_partial_assert_is_not_filled :
    (parseConfig
      { framework := some "playwright"
        locatorMap := none
        actions := some { kinds := [], assert := some [("exists", "X")] } }).actionTemplates.assert
      = some [("exists".toList, "X".toList)] ∧
    hasTemplate ([("exists".toList, "X".toList)].lookup "has text".toList) = false := by
  constructor <;> decide

/-- Claim C18, amended: for a config whose resolved framework is one of the four,
`actionTemplates` holds for click and for input the template of the user when the
user defines one (even an empty one) and otherwise the non-empty default; its
`assert` mapping is the mapping of the user, as a whole, when the user supplies
one, and otherwise the default mapping with its three non-empty kinds. -/
theorem C18_templates_after_merge (cfg : Config)
    (hrec : (parseConfig cfg).framework ∈ recognizedFrameworks) :
    (∀ k ∈ ["click".toList, "input".toList],
      (∀ s, (cfg.actions.getD Templates.empty).kinds.lookup k = some s →
        (parseConfig cfg).actionTemplates.kinds.lookup k = some s) ∧
      ((cfg.actions.getD Templates.empty).kinds.lookup k = none →
        hasTemplate ((parseConfig cfg).actionTemplates.kinds.lookup k) = true)) ∧
    (∀ m, (cfg.actions.getD Templates.empty).assert = some m →
      (parseConfig cfg).actionTemplates.assert = some m) ∧
    ((cfg.actions.getD Templates.empty).assert = none →
      ∀ kind ∈ ["exists".toList, "has text".toList, "value is".toList],
        hasTemplate (((parseConfig cfg).actionTemplates.assert.getD []).lookup kind) = true) := by
  obtain ⟨hclick, hinput, hassert⟩ := defaults_complete _ hrec
  refine ⟨?_, ?_, ?_⟩
  · intro k hk
    refine ⟨fun s hs => ?_, fun hnone => ?_⟩
    · rw [parseConfig_templates]
      exact spread_lookup_user _ _ k s hs
    · rw [parseConfig_templates, spread_lookup_default _ _ k hnone]
      simp only [List.mem_cons, List.mem_singleton, List.not_mem_nil, or_false] at hk
      rcases hk with rfl | rfl
      · exact hclick
      · exact hinput
  · intro m hm
    rw [parseConfig_templates]
    simp only [Templates.spread, hm]
  · intro hm kind hkind
    rw [parseConfig_templates]
    simp only [Templates.spread, hm]
    exact hassert kind hkind

/-- An instance of `C18_templates_after_merge`: cypress with a user template for click only. -/
theorem C18_templates_after_merge_witness :
    hasTemplate ((parseConfig
      { framework := some "cypress"
        locatorMap := none
        actions := some { kinds := [("click", "cy.get(\"\x7bselector\x7d\").dblclick();")],
                          assert := none } }).actionTemplates.kinds.lookup "input".toList) = true :=
  ((C18_templates_after_merge _ (by decide)).1 "input".toList (by decide)).2 (by decide)

/-- Claim C19: for a config whose framework `f` is one of the four, each top-level key
of `actionTemplates` (an action kind such as click or input, or `assert`) has the
value of the user when the user defines the key and the default of `f` otherwise,
and `locatorMap` is the map of the user, or the empty map when there is none. -/
theorem C19_user_key_wins (cfg : Config) (f : Str) (hf : cfg.framework = some f)
    (hrec : f ∈ recognizedFrameworks) :
    (parseConfig cfg).framework = f ∧
    (∀ k s, (cfg.actions.getD Templates.empty).kinds.lookup k = some s →
      (parseConfig cfg).actionTemplates.kinds.lookup k = some s) ∧
    (∀ k, (cfg.actions.getD Templates.empty).kinds.lookup k = none →
      (parseConfig cfg).actionTemplates.kinds.lookup k = (defaultTemplates f).kinds.lookup k) ∧
    (∀ m, (cfg.actions.getD Templates.empty).assert = some m →
      (parseConfig cfg).actionTemplates.assert = some m) ∧
    ((cfg.actions.getD Templates.empty).assert = none →
      (parseConfig cfg).actionTemplates.assert = (defaultTemplates f).assert) ∧
    (parseConfig cfg).locatorMap = cfg.locatorMap.getD [] := by
  have hfw := parseConfig_framework cfg f hf (recognized_ne_nil f hrec)
  refine ⟨hfw, ?_, ?_, ?_, ?_, rfl⟩
  · intro k s hk
    rw [parseConfig_templates]
    exact spread_lookup_user _ _ k s hk
  · intro k hk
    rw [parseConfig_templates, hfw]
    exact spread_lookup_default _ _ k hk
  · intro m hm
    rw [parseConfig_templates]
    simp only [Templates.spread, hm]
  · intro hm
    rw [parseConfig_templates, hfw]
    simp only [Templates.spread, hm]

/-- An instance of `C19_user_key_wins`: for playwright the user defines click, and
input comes from the defaults. -/
theorem C19_user_key_wins_witness :
    (parseConfig
      { framework := some "playwright"
        locatorMap := none
        actions := some { kinds := [("click", "await \x7blocator\x7d.tap();")], assert := none }
      }).actionTemplates.kinds.lookup "input".toList
      = some "await \x7blocator\x7d.fill(\"\x7bvalue\x7d\");".toList :=
  (C19_user_key_wins _ "playwright" rfl (by decide)).2.2.1 "input".toList (by decide)

/-! ### Termination -/

theorem capsLe_set (bound : Nat) (c : Caps) (n : Nat) (v : Str) (hc : CapsLe bound c)
    (hv : v.length ≤ bound) : CapsLe bound (c.set n (some v)) := by
  intro w hw s hs
  rcases List.mem_or_eq_of_mem_set hw with h | h
  · exact hc w h s hs
  · rw [h] at hs
    injection hs with hs
    rw [← hs]
    exact hv

theorem capsLe_replicate (bound n : Nat) : CapsLe bound (List.replicate n none) := by
  intro v hv s hs
  rw [List.eq_of_mem_replicate hv] at hs
  exact absurd hs (by simp)

theorem consumed_length_le (s rest : Str) : (consumed s rest).length ≤ s.length := by
  simp only [consumed, List.length_take]
  omega

theorem starLoop_shrinks (step : Str → Caps → List (Str × Caps)) (greedy : Bool)
    (hstep : Shrinks step) (fuel : Nat) : Shrinks (starLoop step greedy fuel) := by
  induction fuel with
  | zero =>
    intro s c r hr
    simp only [starLoop, List.mem_singleton] at hr
    subst hr
    exact ⟨Nat.le_refl _, fun _ _ h => h⟩
  | succ n ih =>
    intro s c r hr
    have key : r = (s, c) ∨ ∃ r1 ∈ step s c, r ∈ starLoop step greedy n r1.1 r1.2 := by
      simp only [starLoop] at hr
      cases greedy with
      | true =>
        simp only [if_true, List.mem_append, List.mem_flatMap, List.mem_filter,
          List.mem_singleton] at hr
        rcases hr with ⟨r1, ⟨h1, _⟩, h2⟩ | h
        · exact Or.inr ⟨r1, h1, h2⟩
        · exact Or.inl h
      | false =>
        simp only [Bool.false_eq_true, if_false, List.mem_cons, List.mem_flatMap,
          List.mem_filter] at hr
        rcases hr with h | ⟨r1, ⟨h1, _⟩, h2⟩
        · exact Or.inl h
        · exact Or.inr ⟨r1, h1, h2⟩
    rcases key with h | ⟨r1, h1, h2⟩
    · subst h
      exact ⟨Nat.le_refl _, fun _ _ h => h⟩
    · obtain ⟨hl1, hc1⟩ := hstep s c r1 h1
      obtain ⟨hl2, hc2⟩ := ih r1.1 r1.2 r h2
      exact ⟨Nat.le_trans hl2 hl1, fun bound hb hc =>
        hc2 bound (Nat.le_trans hl1 hb) (hc1 bound hb hc)⟩

theorem run_shrinks (re : Re) : Shrinks re.run := by
  induction re with
  | eps =>
    intro s c r hr
    simp only [Re.run, List.mem_singleton] at hr
    subst hr
    exact ⟨Nat.le_refl _, fun _ _ h => h⟩
  | lit ch =>
    intro s c r hr
    cases s with
    | nil => simp [Re.run] at hr
    | cons x t =>
      simp only [Re.run] at hr
      split at hr
      · simp only [List.mem_singleton] at hr
        subst hr
        exact ⟨Nat.le_succ _, fun _ _ h => h⟩
      · simp at hr
  | cls p =>
    intro s c r hr
    cases s with
    | nil => simp [Re.run] at hr
    | cons x t =>
      simp only [Re.run] at hr
      split at hr
      · simp only [List.mem_singleton] at hr
        subst hr
        exact ⟨Nat.le_succ _, fun _ _ h => h⟩
      · simp at hr
  | seq a b iha ihb =>
    intro s c r hr
    rw [run_seq_eq] at hr
    obtain ⟨r1, h1, h2⟩ := List.mem_flatMap.mp hr
    obtain ⟨hl1, hc1⟩ := iha s c r1 h1
    obtain ⟨hl2, hc2⟩ := ihb r1.1 r1.2 r h2
    exact ⟨Nat.le_trans hl2 hl1, fun bound hb hc =>
      hc2 bound (Nat.le_trans hl1 hb) (hc1 bound hb hc)⟩
  | alt a b iha ihb =>
    intro s c r hr
    simp only [Re.run, List.mem_append] at hr
    rcases hr with h | h
    · exact iha s c r h
    · exact ihb s c r h
  | opt a iha =>
    intro s c r hr
    simp only [Re.run, List.mem_append, List.mem_singleton] at hr
    rcases hr with h | h
    · exact iha s c r h
    · subst h
      exact ⟨Nat.le_refl _, fun _ _ h => h⟩
  | plus a greedy iha =>
    intro s c r hr
    rw [run_plus_eq] at hr
    obtain ⟨r1, h1, h2⟩ := List.mem_flatMap.mp hr
    obtain ⟨hl1, hc1⟩ := iha s c r1 h1
    obtain ⟨hl2, hc2⟩ := starLoop_shrinks a.run greedy iha _ r1.1 r1.2 r h2
    exact ⟨Nat.le_trans hl2 hl1, fun bound hb hc =>
      hc2 bound (Nat.le_trans hl1 hb) (hc1 bound hb hc)⟩
  | group n a iha =>
    intro s c r hr
    simp only [Re.run, List.mem_map] at hr
    obtain ⟨r1, h1, rfl⟩ := hr
    obtain ⟨hl1, hc1⟩ := iha s c r1 h1
    exact ⟨hl1, fun bound hb hc =>
      capsLe_set bound _ n _ (hc1 bound hb hc) (Nat.le_trans (consumed_length_le _ _) hb)⟩
  | eos =>
    intro s c r hr
    simp only [Re.run] at hr
    split at hr
    · simp only [List.mem_singleton] at hr
      subst hr
      exact ⟨Nat.le_refl _, fun _ _ h => h⟩
    · simp at hr

theorem exec_some_run (re : Re) (n : Nat) (text : Str) (m : Caps) (h : re.exec n text = some m) :
    ∃ u r, u <:+ text ∧ r ∈ re.run u (List.replicate (n + 1) none) ∧
      m = r.2.set 0 (some (consumed u r.1)) := by
  have hmatch : ∀ u r', re.matchAt n u = some r' →
      ∃ r, r ∈ re.run u (List.replicate (n + 1) none) ∧ r'.2 = r.2.set 0 (some (consumed u r.1)) := by
    intro u r' hm
    unfold Re.matchAt at hm
    cases hrun : re.run u (List.replicate (n + 1) none) with
    | nil => rw [hrun] at hm; simp at hm
    | cons r more =>
      rw [hrun] at hm
      simp only [Option.some.injEq] at hm
      exact ⟨r, List.mem_cons_self _ _, by rw [← hm]⟩
  induction text with
  | nil =>
    simp only [Re.exec, Option.map_eq_some'] at h
    obtain ⟨r', hr', hm⟩ := h
    obtain ⟨r, hr, he⟩ := hmatch [] r' hr'
    exact ⟨[], r, List.suffix_refl _, hr, by rw [← hm, he]⟩
  | cons c t ih =>
    simp only [Re.exec] at h
    cases hm : re.matchAt n (c :: t) with
    | some r' =>
      rw [hm] at h
      simp only [Option.some.injEq] at h
      obtain ⟨r, hr, he⟩ := hmatch _ r' hm
      exact ⟨c :: t, r, List.suffix_refl _, hr, by rw [← h, he]⟩
    | none =>
      rw [hm] at h
      obtain ⟨u, r, hu, hr, he⟩ := ih h
      exact ⟨u, r, List.suffix_cons_iff.mpr (Or.inr hu), hr, he⟩

theorem cap_length_le (bound : Nat) (m : Caps) (i : Nat) (h : CapsLe bound m) :
    (capText m i).length ≤ bound := by
  unfold capText cap
  cases hg : m.get? i with
  | none => simp
  | some v =>
    cases v with
    | none => simp
    | some s =>
      have hmem : some s ∈ m := List.mem_iff_get?.mpr ⟨i, hg⟩
      simpa using h (some s) hmem s rfl

theorem capsLe_of_set_zero (bound : Nat) (c : Caps) (v : Option Str) (i : Nat) (hi : i ≠ 0)
    (h : CapsLe bound c) : (capText (c.set 0 v) i).length ≤ bound := by
  have e : capText (c.set 0 v) i = capText c i := by
    unfold capText cap
    rw [List.get?_eq_getElem?, List.get?_eq_getElem?, List.getElem?_set_ne (Ne.symm hi)]
  rw [e]
  exact cap_length_le bound c i h

/-- The captures of an expression that starts with a literal word are shorter than
the text searched. -/
theorem capText_lt_of_literal_start (w : Str) (rest : Re) (n : Nat) (text : Str) (m : Caps)
    (i : Nat) (hw : w ≠ []) (hi : i ≠ 0) (h : (Re.seq (Re.str w) rest).exec n text = some m) :
    (capText m i).length < text.length := by
  obtain ⟨u, r, hu, hr, hm⟩ := exec_some_run _ n text m h
  rw [run_seq_eq, run_str] at hr
  by_cases hp : w.isPrefixOf u = true
  · simp only [hp, if_true, List.flatMap_cons, List.flatMap_nil, List.append_nil] at hr
    obtain ⟨_, hc⟩ := run_shrinks rest _ _ r hr
    have hb := hc (u.drop w.length).length (Nat.le_refl _) (capsLe_replicate _ _)
    have hle := capsLe_of_set_zero _ r.2 (some (consumed u r.1)) i hi hb
    rw [← hm] at hle
    have hwl : 0 < w.length := List.length_pos.mpr hw
    have hul : w.length ≤ u.length := (List.isPrefixOf_iff_prefix.mp hp).length_le
    have hut : u.length ≤ text.length := hu.length_le
    simp only [List.length_drop] at hle
    omega
  · simp only [hp, Bool.false_eq_true, if_false, List.flatMap_nil, List.not_mem_nil] at hr

theorem reIfThen_caps (text : Str) (m : Caps) (h : reIfThen.exec 2 text = some m) :
    (capText m 1).length < text.length ∧ (capText m 2).length < text.length :=
  ⟨capText_lt_of_literal_start "if " _ 2 text m 1 (by decide) (by decide) h,
   capText_lt_of_literal_start "if " _ 2 text m 2 (by decide) (by decide) h⟩

theorem reRetry_caps (text : Str) (m : Caps) (h : reRetry.exec 1 text = some m) :
    (capText m 1).length < text.length :=
  capText_lt_of_literal_start "retry until " _ 1 text m 1 (by decide) (by decide) h

theorem reReport_caps (text : Str) (m : Caps) (h : reReport.exec 3 text = some m) :
    (capText m 3).length < text.length :=
  capText_lt_of_literal_start "report " _ 3 text m 3 (by decide) (by decide) h

theorem matchAt_rest_le (re : Re) (n : Nat) (u : Str) (r : Str × Caps)
    (h : re.matchAt n u = some r) : r.1.length ≤ u.length := by
  unfold Re.matchAt at h
  cases hrun : re.run u (List.replicate (n + 1) none) with
  | nil => rw [hrun] at h; simp at h
  | cons r1 more =>
    rw [hrun] at h
    simp only [Option.some.injEq] at h
    rw [← h]
    exact (run_shrinks re u _ r1 (by rw [hrun]; exact List.mem_cons_self _ _)).1

theorem splitLoop_le (re : Re) (fuel : Nat) :
    ∀ (s cur : Str), ∀ p ∈ splitLoop re fuel s cur, p.length ≤ cur.length + s.length := by
  induction fuel with
  | zero =>
    intro s cur p hp
    simp only [splitLoop, List.mem_singleton] at hp
    subst hp
    simp
  | succ n ih =>
    intro s cur p hp
    cases s with
    | nil =>
      simp only [splitLoop, List.mem_singleton] at hp
      subst hp
      simp
    | cons c t =>
      have hadv : ∀ q ∈ splitLoop re n t (c :: cur), q.length ≤ cur.length + (c :: t).length := by
        intro q hq
        have := ih t (c :: cur) q hq
        simp only [List.length_cons] at this ⊢
        omega
      rw [splitLoop] at hp
      cases hm : re.matchAt 0 (c :: t) with
      | none =>
        simp only [hm] at hp
        exact hadv p hp
      | some r =>
        simp only [hm] at hp
        split at hp
        · rename_i hlt
          rcases List.mem_cons.mp hp with h | h
          · subst h
            simp
          · have := ih r.1 [] p h
            simp only [List.length_nil, Nat.zero_add] at this
            omega
        · exact hadv p hp

/-- When the separator matches somewhere, every piece of the split is shorter than
the text. -/
theorem splitLoop_lt (re : Re) :
    ∀ (s : Str) (fuel : Nat) (cur : Str), s.length ≤ fuel →
      (∃ u r, u <:+ s ∧ re.matchAt 0 u = some r ∧ r.1.length < u.length) →
      ∀ p ∈ splitLoop re (fuel + 1) s cur, p.length < cur.length + s.length := by
  intro s
  induction s with
  | nil =>
    intro fuel cur _ hw
    obtain ⟨u, r, hu, hm, hlt⟩ := hw
    have : u = [] := List.suffix_nil.mp hu
    subst this
    simp at hlt
  | cons c t ih =>
    intro fuel cur hfuel hw p hp
    obtain ⟨u, r, hu, hm, hlt⟩ := hw
    have hadv : (∃ u r, u <:+ t ∧ re.matchAt 0 u = some r ∧ r.1.length < u.length) →
        ∀ q ∈ splitLoop re fuel t (c :: cur), q.length < cur.length + (c :: t).length := by
      intro hw' q hq
      cases fuel with
      | zero => simp at hfuel
      | succ k =>
        have := ih k (c :: cur) (by simpa using hfuel) hw' q hq
        simp only [List.length_cons] at this ⊢
        omega
    rw [splitLoop] at hp
    cases hmc : re.matchAt 0 (c :: t) with
    | none =>
      simp only [hmc] at hp
      rcases List.suffix_cons_iff.mp hu with h | h
      · rw [h, hmc] at hm
        exact absurd hm (by simp)
      · exact hadv ⟨u, r, h, hm, hlt⟩ p hp
    | some rc =>
      simp only [hmc] at hp
      split at hp
      · rename_i hlt'
        rcases List.mem_cons.mp hp with h | h
        · subst h
          simp
        · have := splitLoop_le re fuel rc.1 [] p h
          simp only [List.length_nil, Nat.zero_add] at this
          omega
      · rename_i hnlt
        rcases List.suffix_cons_iff.mp hu with h | h
        · rw [h, hmc] at hm
          injection hm with hm
          rw [hm] at hnlt
          rw [h] at hlt
          exact absurd hlt hnlt
        · exact hadv ⟨u, r, h, hm, hlt⟩ p hp

theorem jsSplit_lt (re : Re) (s : Str)
    (h : ∃ u r, u <:+ s ∧ re.matchAt 0 u = some r ∧ r.1.length < u.length) :
    ∀ p ∈ jsSplit re s, p.length < s.length := by
  intro p hp
  have := splitLoop_lt re s s.length [] (Nat.le_refl _) h p hp
  simpa using this

theorem mem_tailsWhile_self (p : Char → Bool) (t : Str) : t ∈ tailsWhile p t := by
  cases t with
  | nil => simp [tailsWhile]
  | cons x u =>
    by_cases hp : p x = true
    · simp [tailsWhile, hp]
    · simp [tailsWhile, hp]

theorem mem_reSpaces_run (x : Char) (t : Str) (c : Caps) (hx : isJsSpace x = true) :
    (t, c) ∈ reSpaces.run (x :: t) c := by
  rw [reSpaces_run]
  simp only [hx, if_true, List.mem_map]
  exact ⟨t, mem_tailsWhile_self _ t, rfl⟩

theorem reSpaces_run_lt (s : Str) (c : Caps) (r : Str × Caps) (h : r ∈ reSpaces.run s c) :
    r.1.length < s.length := by
  have hcons' : ∀ x t (q : Str × Caps), q ∈ (Re.cls isJsSpace).run (x :: t) c →
      q.1.length < (x :: t).length := by
    intro x t q hr
    rw [run_cls_eq] at hr
    by_cases hx : isJsSpace x = true
    · simp only [hx, if_true, List.mem_singleton] at hr
      subst hr
      simp
    · simp [hx] at hr
  unfold reSpaces at h
  rw [run_plus_eq] at h
  obtain ⟨r1, h1, h2⟩ := List.mem_flatMap.mp h
  have hs := (starLoop_shrinks _ true (run_shrinks (Re.cls isJsSpace)) _ r1.1 r1.2 r h2).1
  cases s with
  | nil => simp [run_cls_eq] at h1
  | cons x t =>
    have := hcons' x t r1 h1
    omega

/-- A text that holds the word `w` between two spaces has a place where the
separator `/\s+w\s+/` matches, and the match takes at least one character. -/
theorem separator_matches (w text : Str) (h : includes text (' ' :: (w ++ [' '])) = true) :
    ∃ u r, u <:+ text ∧
      (Re.seq reSpaces (Re.seq (Re.str w) reSpaces)).matchAt 0 u = some r ∧
      r.1.length < u.length := by
  obtain ⟨pre, post, htext⟩ := includes_decomp text _ h
  have hsp : isJsSpace ' ' = true := by decide
  have hmem : ∀ c : Caps, (post, c) ∈
      (Re.seq reSpaces (Re.seq (Re.str w) reSpaces)).run (' ' :: (w ++ ' ' :: post)) c := by
    intro c
    rw [run_seq_eq]
    refine List.mem_flatMap.mpr ⟨(w ++ ' ' :: post, c), mem_reSpaces_run _ _ c hsp, ?_⟩
    rw [run_seq_eq, run_str]
    have hp : w.isPrefixOf (w ++ ' ' :: post) = true :=
      List.isPrefixOf_iff_prefix.mpr (List.prefix_append _ _)
    simp only [hp, if_true, List.flatMap_cons, List.flatMap_nil, List.append_nil,
      List.drop_left]
    exact mem_reSpaces_run _ _ c hsp
  have hlt : ∀ (c : Caps) (q : Str × Caps),
      q ∈ (Re.seq reSpaces (Re.seq (Re.str w) reSpaces)).run (' ' :: (w ++ ' ' :: post)) c →
      q.1.length < (' ' :: (w ++ ' ' :: post)).length := by
    intro c q hq
    rw [run_seq_eq] at hq
    obtain ⟨r1, h1, h2⟩ := List.mem_flatMap.mp hq
    have := reSpaces_run_lt _ c r1 h1
    have := (run_shrinks _ r1.1 r1.2 q h2).1
    omega
  refine ⟨' ' :: (w ++ ' ' :: post), ?_⟩
  have hsuf : (' ' :: (w ++ ' ' :: post)) <:+ text := ⟨pre, by rw [htext]; simp⟩
  unfold Re.matchAt
  cases hrun : (Re.seq reSpaces (Re.seq (Re.str w) reSpaces)).run (' ' :: (w ++ ' ' :: post))
      (List.replicate (0 + 1) none) with
  | nil =>
    have := hmem (List.replicate (0 + 1) none)
    rw [hrun] at this
    simp at this
  | cons r more =>
    refine ⟨_, hsuf, rfl, ?_⟩
    exact hlt _ r (by rw [hrun]; exact List.mem_cons_self _ _)

theorem jsSplit_and_lt (text : Str) (h : includes text " and " = true) :
    ∀ p ∈ jsSplit reAndSep text, p.length < text.length :=
  jsSplit_lt reAndSep text (separator_matches "and" text h)

theorem jsSplit_or_lt (text : Str) (h : includes text " or " = true) :
    ∀ p ∈ jsSplit reOrSep text, p.length < text.length :=
  jsSplit_lt reOrSep text (separator_matches "or" text h)

theorem trimStart_length_le (s : Str) : (trimStart s).length ≤ s.length := by
  induction s with
  | nil => simp [trimStart]
  | cons c t ih =>
    simp only [trimStart]
    split
    · simp only [List.length_cons]; omega
    · exact Nat.le_refl _

theorem normalize_length_le (s : Str) : (normalize s).length ≤ s.length := by
  have h1 := trimStart_length_le s
  have h2 := trimStart_length_le (trimStart s).reverse
  simp only [normalize, toLowerCase, List.length_map, trim, trimEnd, List.length_reverse] at h2 ⊢
  omega

theorem isSome_bind {α β : Type} (x : Option α) (f : α → Option β) (hx : x.isSome = true)
    (hf : ∀ a, (f a).isSome = true) : (x.bind f).isSome = true := by
  cases x with
  | none => simp at hx
  | some a => exact hf a

theorem isSome_orNext (b : Option Str) (next : Option (Option Str)) (h : next.isSome = true) :
    (orNext b next).isSome = true := by
  cases b with
  | none => exact h
  | some _ => rfl

theorem mapFuel_isSome (f : Str → Option (Option Str)) (parts : List Str)
    (h : ∀ p ∈ parts, (f p).isSome = true) : (mapFuel f parts).isSome = true := by
  induction parts with
  | nil => rfl
  | cons p t ih =>
    have hp := h p (List.mem_cons_self _ _)
    have ht := ih fun q hq => h q (List.mem_cons_of_mem _ hq)
    unfold mapFuel
    cases hfp : f p with
    | none => rw [hfp] at hp; simp at hp
    | some r =>
      cases hmt : mapFuel f t with
      | none => rw [hmt] at ht; simp at ht
      | some rs => rfl

theorem retryBlock_isSome (recur : Str → Option (Option Str)) (framework : Str) (m : Caps)
    (h : (recur (capText m 1)).isSome = true) : (retryBlock recur framework m).isSome = true := by
  unfold retryBlock
  simp only []
  split
  · simp [h]
  · split <;> rfl

/-- The cascade returns when the recursive calls on shorter texts return. -/
theorem parseBody_isSome (recur : Str → Option (Option Str)) (text framework selector locator : Str)
    (h : ∀ part : Str, part.length < text.length → (recur part).isSome = true) :
    (parseBody recur text framework selector locator).isSome = true := by
  unfold parseBody
  split
  · rename_i hand
    have := mapFuel_isSome recur _ fun p hp => h p (jsSplit_and_lt text hand p hp)
    simp [this]
  · refine isSome_bind _ _ ?_ fun d => ?_
    · split
      · rename_i hor
        have := mapFuel_isSome recur _ fun p hp => h p (jsSplit_or_lt text hor p hp)
        simp [this]
      · rfl
    refine isSome_orNext _ _ (isSome_orNext _ _ (isSome_orNext _ _ (isSome_orNext _ _
      (isSome_orNext _ _ ?_))))
    refine isSome_bind _ _ ?_ fun c => ?_
    · split
      · rename_i m hm
        obtain ⟨h1, h2⟩ := reIfThen_caps text m hm
        refine isSome_bind _ _ (h _ h1) fun _ => ?_
        simp [h _ h2]
      · rfl
    refine isSome_orNext _ _ (isSome_orNext _ _ ?_)
    refine isSome_bind _ _ ?_ fun c => ?_
    · split
      · rename_i m hm
        exact retryBlock_isSome _ _ _ (h _ (reRetry_caps text m hm))
      · rfl
    refine isSome_orNext _ _ ?_
    refine isSome_bind _ _ ?_ fun c => ?_
    · split
      · rename_i m hm
        split
        · simp [h _ (reReport_caps text m hm)]
        · rfl
      · rfl
    exact isSome_orNext _ _ (isSome_orNext _ _ rfl)

theorem parseAux_isSome (framework selector locator : Str) :
    ∀ (fuel : Nat) (instruction : Str), instruction.length < fuel →
      (parseCustomAssertionAux fuel instruction framework selector locator).isSome = true := by
  intro fuel
  induction fuel with
  | zero => intro instruction h; simp at h
  | succ n ih =>
    intro instruction hlen
    by_cases he : instruction = []
    · subst he
      rw [parseAux_nil]
      rfl
    · rw [parseAux_succ _ _ _ _ _ he]
      apply parseBody_isSome
      intro part hpart
      have := normalize_length_le instruction
      exact ih part (by omega)

/-- Claim C20: `parseCustomAssertion` returns on every instruction and every
framework, with the same result for every fuel above the length of the
instruction, so the bound of the model is never what ends the recursion; and
each recursive call is on a text shorter than the normalized text: the pieces
of a conjunction and of a disjunction, the condition and the action of a
conditional, the condition of retry-until and the condition of report. -/
theorem C20_parse_terminates (instruction framework selector locator : Str) :
    (∃ result, parseCustomAssertion instruction framework selector locator = some result ∧
      ∀ fuel, instruction.length + 1 ≤ fuel →
        parseCustomAssertionAux fuel instruction framework selector locator = some result) ∧
    (∀ text : Str, includes text " and " = true →
      ∀ p ∈ jsSplit reAndSep text, p.length < text.length) ∧
    (∀ text : Str, includes text " or " = true →
      ∀ p ∈ jsSplit reOrSep text, p.length < text.length) ∧
    (∀ (text : Str) (m : Caps), reIfThen.exec 2 text = some m →
      (capText m 1).length < text.length ∧ (capText m 2).length < text.length) ∧
    (∀ (text : Str) (m : Caps), reRetry.exec 1 text = some m →
      (capText m 1).length < text.length) ∧
    (∀ (text : Str) (m : Caps), reReport.exec 3 text = some m →
      (capText m 3).length < text.length) := by
  refine ⟨?_, jsSplit_and_lt, jsSplit_or_lt, reIfThen_caps, reRetry_caps, reReport_caps⟩
  have h := parseAux_isSome framework selector locator (instruction.length + 1) instruction
    (Nat.lt_succ_self _)
  obtain ⟨result, hr⟩ := Option.isSome_iff_exists.mp h
  exact ⟨result, hr, fun fuel hf => parseAux_mono hf _ _ _ _ result hr⟩

/-- An instance of `C20_parse_terminates`: a conditional whose action is a report gets
its result with the fuel 60. -/
theorem C20_parse_terminates_witness :
    ∃ result, parseCustomAssertionAux 60 "if text starts with 'a' then report 'x'"
      "playwright" "#a" "loc" = some result :=
  match (C20_parse_terminates "if text starts with 'a' then report 'x'".toList
    "playwright".toList "#a".toList "loc".toList).1 with
  | ⟨result, _, h⟩ => ⟨result, h 60 (by decide)⟩

/-! ### Patterns of the cascade on instructions of a given shape -/

theorem escapeRegex_cons (c : Char) (v : Str) :
    escapeRegex (c :: v) = (if isRegexMeta c then [Char.ofNat 92, c] else [c]) ++ escapeRegex v := by
  simp [escapeRegex, List.flatMap_cons]

theorem not_meta_ne_backslash (c : Char) (h : isRegexMeta c = false) : c ≠ Char.ofNat 92 := by
  intro e
  subst e
  revert h
  decide

theorem dropEscapes_escapeRegex (v : Str) : dropEscapes (escapeRegex v) = v := by
  unfold dropEscapes
  induction v with
  | nil => rfl
  | cons c t ih =>
    rw [escapeRegex_cons]
    by_cases hm : isRegexMeta c = true
    · simp only [hm, if_true, List.cons_append, List.nil_append, dropEscapesAux, Bool.false_eq_true,
        if_false, ih]
    · have hm' : isRegexMeta c = false := by simpa using hm
      have hb := not_meta_ne_backslash c hm'
      simp only [hm', Bool.false_eq_true, if_false, List.cons_append, List.nil_append, dropEscapesAux,
        hb, ih]

theorem wellEscaped_escapeRegex (v : Str) : wellEscaped (escapeRegex v) = true := by
  unfold wellEscaped
  induction v with
  | nil => rfl
  | cons c t ih =>
    rw [escapeRegex_cons]
    by_cases hm : isRegexMeta c = true
    · simp only [hm, if_true, List.cons_append, List.nil_append, wellEscapedAux, Bool.false_eq_true,
        if_false, ih, Bool.and_self]
    · have hm' : isRegexMeta c = false := by simpa using hm
      have hb := not_meta_ne_backslash c hm'
      simp only [hm', Bool.false_eq_true, if_false, List.cons_append, List.nil_append, wellEscapedAux,
        hb, ih, Bool.not_false, Bool.and_self]

/-- The match of a clause expression on the normalized text of a clause instruction. -/
theorem clause_exec (phrase noun v : Str) (caps : Caps) (hne : noun ≠ []) (hlead : NoLead noun)
    (hv : Literal v) (hphrase : toLowerCase phrase = phrase)
    (hnoun : HeadIs (nounRe.run (clauseInstruction (toLowerCase noun) phrase (toLowerCase v))
        (List.replicate 4 none))
      (phrase ++ Char.ofNat 39 :: (toLowerCase v ++ [Char.ofNat 39]), caps)) :
    normalize (clauseInstruction noun phrase v)
      = clauseInstruction (toLowerCase noun) phrase (toLowerCase v) ∧
    (reClause phrase).exec 3 (clauseInstruction (toLowerCase noun) phrase (toLowerCase v))
      = some ((caps.set 3 (some (toLowerCase v))).set 0
          (some (clauseInstruction (toLowerCase noun) phrase (toLowerCase v)))) := by
  have hnorm := normalize_clause noun phrase v hne hlead
  rw [hphrase] at hnorm
  obtain ⟨hv1, hv2⟩ := literal_toLowerCase hv
  have hhead := headIs_reClause phrase (toLowerCase noun) (toLowerCase v)
    (Char.ofNat 39) (List.replicate 4 none) caps hv1 hv2 (by decide) (by decide) hnoun
  have hexec := exec_of_headIs (reClause phrase) 3 _ _ hhead
  rw [consumed_nil] at hexec
  exact ⟨hnorm, hexec⟩

theorem clauseInstruction_ne_nil (noun phrase v : Str) : clauseInstruction noun phrase v ≠ [] := by
  cases noun with
  | nil =>
    cases phrase with
    | nil => simp [clauseInstruction]
    | cons _ _ => simp [clauseInstruction]
  | cons a t => simp [clauseInstruction]

theorem parseBody_startsWith (recur : Str → Option (Option Str))
    (text framework selector locator : Str) (m : Caps) (code : Str)
    (hand : includes text " and " = false) (hor : includes text " or " = false)
    (h1 : reNotContain.exec 3 text = none)
    (hm : reStartsWith.exec 3 text = some m)
    (hcode : startsWithBlock framework selector locator m = some code) :
    parseBody recur text framework selector locator = some (some code) := by
  unfold parseBody
  simp only [hand, hor, Bool.false_eq_true, ↓reduceIte, Option.some_bind, h1, hm, onMatch, hcode,
    orNext]

theorem parseBody_endsWith (recur : Str → Option (Option Str))
    (text framework selector locator : Str) (m : Caps) (code : Str)
    (hand : includes text " and " = false) (hor : includes text " or " = false)
    (h1 : reNotContain.exec 3 text = none) (h2 : reStartsWith.exec 3 text = none)
    (hm : reEndsWith.exec 3 text = some m)
    (hcode : endsWithBlock framework selector locator m = some code) :
    parseBody recur text framework selector locator = some (some code) := by
  unfold parseBody
  simp only [hand, hor, Bool.false_eq_true, ↓reduceIte, Option.some_bind, h1, h2, hm, onMatch,
    hcode, orNext]

/-- A starts-with clause compiles to what the block gives on the captures of the
lower-cased instruction, when the pattern of not-contain does not match. -/
theorem parse_startsWith (noun v framework selector locator : Str) (caps : Caps) (code : Str)
    (hne : noun ≠ []) (hlead : NoLead noun) (hv : Literal v)
    (hplain : Plain (clauseInstruction noun " starts with " v))
    (hearly : NoneMatches beforeStartsWith (clauseInstruction noun " starts with " v))
    (hnoun : HeadIs (nounRe.run
        (clauseInstruction (toLowerCase noun) " starts with " (toLowerCase v))
        (List.replicate 4 none))
      (" starts with ".toList ++ Char.ofNat 39 :: (toLowerCase v ++ [Char.ofNat 39]), caps))
    (hcode : startsWithBlock framework selector locator
      ((caps.set 3 (some (toLowerCase v))).set 0
        (some (clauseInstruction (toLowerCase noun) " starts with " (toLowerCase v))))
      = some code) :
    parseCustomAssertion (clauseInstruction noun " starts with " v) framework selector locator
      = some (some code) := by
  obtain ⟨hnorm, hexec⟩ := clause_exec " starts with ".toList noun v caps hne hlead hv rfl hnoun
  have h1 := hearly (reNotContain, 3) (by simp [beforeStartsWith])
  unfold parseCustomAssertion
  rw [parseAux_succ _ _ _ _ _ (clauseInstruction_ne_nil _ _ _)]
  obtain ⟨hand, hor⟩ := hplain
  simp only at h1
  rw [hnorm] at hand hor h1 ⊢
  exact parseBody_startsWith _ _ _ _ _ _ code hand hor h1 hexec hcode

/-- An ends-with clause compiles to what the block gives on the captures of the
lower-cased instruction, when the two patterns tried before do not match. -/
theorem parse_endsWith (noun v framework selector locator : Str) (caps : Caps) (code : Str)
    (hne : noun ≠ []) (hlead : NoLead noun) (hv : Literal v)
    (hplain : Plain (clauseInstruction noun " ends with " v))
    (hearly : NoneMatches beforeEndsWith (clauseInstruction noun " ends with " v))
    (hnoun : HeadIs (nounRe.run
        (clauseInstruction (toLowerCase noun) " ends with " (toLowerCase v))
        (List.replicate 4 none))
      (" ends with ".toList ++ Char.ofNat 39 :: (toLowerCase v ++ [Char.ofNat 39]), caps))
    (hcode : endsWithBlock framework selector locator
      ((caps.set 3 (some (toLowerCase v))).set 0
        (some (clauseInstruction (toLowerCase noun) " ends with " (toLowerCase v))))
      = some code) :
    parseCustomAssertion (clauseInstruction noun " ends with " v) framework selector locator
      = some (some code) := by
  obtain ⟨hnorm, hexec⟩ := clause_exec " ends with ".toList noun v caps hne hlead hv rfl hnoun
  have h1 := hearly (reNotContain, 3) (by simp [beforeEndsWith])
  have h2 := hearly (reStartsWith, 3) (by simp [beforeEndsWith])
  unfold parseCustomAssertion
  rw [parseAux_succ _ _ _ _ _ (clauseInstruction_ne_nil _ _ _)]
  obtain ⟨hand, hor⟩ := hplain
  simp only at h1 h2
  rw [hnorm] at hand hor h1 h2 ⊢
  exact parseBody_endsWith _ _ _ _ _ _ code hand hor h1 h2 hexec hcode

theorem reWait_eq :
    reWait = .seq (Re.str "wait ") (.seq (.opt waitPrefixRe) (.seq (.opt (.lit ' '))
      (.seq (.group 2 (.plus (.cls isDigit) true)) (.seq (.lit ' ') (.seq waitUnitRe
        (.seq (Re.str " for ") (.group 4 (.plus (.cls isDot) true)))))))) := rfl

theorem headIs_group_plus (n : Nat) (p : Char → Bool) (x rest : Str) (c : Caps) (hx : x ≠ [])
    (hchars : ∀ z ∈ x, p z = true) (hrest : rest.dropWhile p = rest) :
    HeadIs ((Re.group n (.plus (.cls p) true)).run (x ++ rest) c) (rest, c.set n (some x)) := by
  cases x with
  | nil => exact absurd rfl hx
  | cons a t =>
    have ha := hchars a (List.mem_cons_self _ _)
    have ht : ∀ z ∈ t, p z = true := fun z hz => hchars z (List.mem_cons_of_mem _ hz)
    have hrun : HeadIs ((Re.plus (.cls p) true).run (a :: t ++ rest) c) (rest, c) := by
      rw [run_plus_cls_greedy]
      simp only [List.cons_append, ha, if_true]
      obtain ⟨more, hm⟩ := tailsWhile_head p (t ++ rest)
      rw [hm, dropWhile_append_all p t rest ht hrest]
      exact ⟨_, rfl⟩
    exact headIs_group n _ (a :: t) rest c _ hrun

theorem run_lit_eq (ch : Char) (s : Str) (c : Caps) :
    (Re.lit ch).run s c = match s with
      | [] => []
      | x :: t => if x = ch then [(t, c)] else [] := by
  cases s <;> rfl

theorem headIs_lit (ch : Char) (t : Str) (c : Caps) : HeadIs ((Re.lit ch).run (ch :: t) c) (t, c) := by
  rw [run_lit_eq]
  simp only [if_true]
  exact ⟨[], rfl⟩

theorem headIs_opt {a : Re} {s : Str} {c : Caps} {r : Str × Caps} (h : HeadIs (a.run s c) r) :
    HeadIs ((Re.opt a).run s c) r :=
  headIs_append h _

theorem headIs_opt_skip {a : Re} {s : Str} {c : Caps} (h : a.run s c = []) :
    HeadIs ((Re.opt a).run s c) (s, c) := by
  show HeadIs (a.run s c ++ [(s, c)]) (s, c)
  rw [h]
  exact ⟨[], rfl⟩

theorem run_str_cons_ne (a : Char) (w : Str) (d : Char) (t : Str) (c : Caps) (h : a ≠ d) :
    (Re.str (a :: w)).run (d :: t) c = [] := by
  rw [run_str]
  have : (a :: w).isPrefixOf (d :: t) = false := by
    simp [List.isPrefixOf, h]
  simp only [this, Bool.false_eq_true, if_false]

theorem digit_ne_of_not_digit (a d : Char) (ha : isDigit a = false) (hd : isDigit d = true) :
    a ≠ d := by
  intro e
  rw [e, hd] at ha
  exact Bool.noConfusion ha

/-- Without `up to` and without `for`, the optional group and the optional space of
the pattern of `wait` are skipped in front of a digit. -/
theorem headIs_wait_prefix_none (d : Char) (t : Str) (c : Caps) (hd : isDigit d = true) :
    HeadIs ((Re.opt waitPrefixRe).run (d :: t) c) (d :: t, c) ∧
    HeadIs ((Re.opt (.lit ' ')).run (d :: t) c) (d :: t, c) := by
  constructor
  · apply headIs_opt_skip
    show ((Re.str "up to").run (d :: t) c ++ (Re.str "for").run (d :: t) c).map _ = []
    have h1 : (Re.str "up to").run (d :: t) c = [] :=
      run_str_cons_ne 'u' _ d t c (digit_ne_of_not_digit _ _ (by decide) hd)
    have h2 : (Re.str "for").run (d :: t) c = [] :=
      run_str_cons_ne 'f' _ d t c (digit_ne_of_not_digit _ _ (by decide) hd)
    rw [h1, h2]
    rfl
  · apply headIs_opt_skip
    rw [run_lit_eq]
    have : d ≠ ' ' := fun e => digit_ne_of_not_digit ' ' d (by decide) hd e.symm
    simp only [this, if_false]

theorem headIs_wait_prefix_upto (rest : Str) (c : Caps) :
    HeadIs ((Re.opt waitPrefixRe).run ("up to ".toList ++ rest) c)
      (' ' :: rest, c.set 1 (some "up to".toList)) := by
  apply headIs_opt
  have h : HeadIs ((Re.alt (Re.str "up to") (Re.str "for")).run ("up to".toList ++ (' ' :: rest)) c)
      (' ' :: rest, c) := headIs_append (headIs_str "up to".toList (' ' :: rest) c) _
  exact headIs_group 1 _ "up to".toList (' ' :: rest) c _ h

theorem headIs_wait_prefix_for (rest : Str) (c : Caps) :
    HeadIs ((Re.opt waitPrefixRe).run ("for ".toList ++ rest) c)
      (' ' :: rest, c.set 1 (some "for".toList)) := by
  apply headIs_opt
  have h0 : (Re.str "up to").run ("for".toList ++ (' ' :: rest)) c = [] := by
    rw [run_str]
    rfl
  have h : HeadIs ((Re.alt (Re.str "up to") (Re.str "for")).run ("for".toList ++ (' ' :: rest)) c)
      (' ' :: rest, c) := by
    show HeadIs ((Re.str "up to").run ("for".toList ++ (' ' :: rest)) c ++ _) _
    rw [h0, List.nil_append]
    exact headIs_str "for".toList (' ' :: rest) c
  exact headIs_group 1 _ "for".toList (' ' :: rest) c _ h

/-- The group of the unit, in front of ` for `, takes the unit that is written. -/
theorem headIs_wait_unit (unit rest : Str) (c : Caps)
    (hu : unit ∈ ["seconds".toList, "second".toList, "ms".toList, "milliseconds".toList]) :
    HeadIs (waitUnitRe.run (unit ++ (' ' :: rest)) c) (' ' :: rest, c.set 3 (some unit)) := by
  apply headIs_group 3
  simp only [List.mem_cons, List.mem_singleton, List.not_mem_nil, or_false] at hu
  rcases hu with rfl | rfl | rfl | rfl
  · exact headIs_append (headIs_str "seconds".toList _ c) _
  · have h0 : (Re.str "seconds").run ("second".toList ++ (' ' :: rest)) c = [] := by
      rw [run_str]
      rfl
    show HeadIs ((Re.str "seconds").run ("second".toList ++ (' ' :: rest)) c ++ _) _
    rw [h0, List.nil_append]
    exact headIs_append (headIs_str "second".toList _ c) _
  · have h0 : (Re.str "seconds").run ("ms".toList ++ (' ' :: rest)) c = [] := by
      rw [run_str]
      rfl
    have h1 : (Re.str "second").run ("ms".toList ++ (' ' :: rest)) c = [] := by
      rw [run_str]
      rfl
    show HeadIs ((Re.str "seconds").run ("ms".toList ++ (' ' :: rest)) c ++
      ((Re.str "second").run ("ms".toList ++ (' ' :: rest)) c ++ _)) _
    rw [h0, h1, List.nil_append, List.nil_append]
    exact headIs_append (headIs_str "ms".toList _ c) _
  · have h0 : (Re.str "seconds").run ("milliseconds".toList ++ (' ' :: rest)) c = [] := by
      rw [run_str]
      rfl
    have h1 : (Re.str "second").run ("milliseconds".toList ++ (' ' :: rest)) c = [] := by
      rw [run_str]
      rfl
    have h2 : (Re.str "ms").run ("milliseconds".toList ++ (' ' :: rest)) c = [] := by
      rw [run_str]
      rfl
    show HeadIs ((Re.str "seconds").run ("milliseconds".toList ++ (' ' :: rest)) c ++
      ((Re.str "second").run ("milliseconds".toList ++ (' ' :: rest)) c ++
        ((Re.str "ms").run ("milliseconds".toList ++ (' ' :: rest)) c ++ _))) _
    rw [h0, h1, h2, List.nil_append, List.nil_append, List.nil_append]
    exact headIs_str "milliseconds".toList _ c

/-- The pattern of `wait` on a normalized instruction: once the optional words are
read, the first result captures the digits, the unit and what is waited for. -/
theorem headIs_reWait (pre digits unit what : Str) (p1 : Option Str) (rest1 : Str)
    (hd : Digits digits) (hw : what ≠ [] ∧ ∀ z ∈ what, isDot z = true)
    (hu : unit ∈ ["seconds".toList, "second".toList, "ms".toList, "milliseconds".toList])
    (hp1 : HeadIs ((Re.opt waitPrefixRe).run
        (pre ++ (digits ++ (' ' :: (unit ++ (" for ".toList ++ what))))) (List.replicate 5 none))
      (rest1, (List.replicate 5 none).set 1 p1))
    (hp2 : HeadIs ((Re.opt (.lit ' ')).run rest1 ((List.replicate 5 none).set 1 p1))
      (digits ++ (' ' :: (unit ++ (" for ".toList ++ what))),
        (List.replicate 5 none).set 1 p1)) :
    HeadIs (reWait.run (waitInstruction pre digits unit what) (List.replicate 5 none))
      ([], [none, p1, some digits, some unit, some what]) := by
  rw [reWait_eq]
  have h4 := headIs_group_plus 4 isDot what [] [none, p1, some digits, some unit, none] hw.1 hw.2 rfl
  rw [List.append_nil] at h4
  have h3 : HeadIs (waitUnitRe.run (unit ++ (" for ".toList ++ what))
      [none, p1, some digits, none, none])
      (" for ".toList ++ what, [none, p1, some digits, some unit, none]) :=
    headIs_wait_unit unit ("for ".toList ++ what) _ hu
  have h2 : HeadIs ((Re.group 2 (.plus (.cls isDigit) true)).run
      (digits ++ (' ' :: (unit ++ (" for ".toList ++ what)))) ((List.replicate 5 none).set 1 p1))
      (' ' :: (unit ++ (" for ".toList ++ what)), [none, p1, some digits, none, none]) :=
    headIs_group_plus 2 isDigit digits _ _ hd.1 hd.2 rfl
  exact headIs_seq (headIs_str "wait ".toList _ _) (headIs_seq hp1 (headIs_seq hp2
    (headIs_seq h2 (headIs_seq (headIs_lit ' ' _ _) (headIs_seq h3
      (headIs_seq (headIs_str " for ".toList what _) h4))))))

theorem toLower_digit (c : Char) (h : isDigit c = true) : c.toLower = c := by
  simp only [isDigit, Bool.and_eq_true, decide_eq_true_eq] at h
  simp only [Char.toLower]
  rw [if_neg (by omega)]

theorem toLowerCase_digits (d : Str) (h : ∀ c ∈ d, isDigit c = true) : toLowerCase d = d := by
  induction d with
  | nil => rfl
  | cons c t ih =>
    have hc := toLower_digit c (h c (List.mem_cons_self _ _))
    have ht := ih fun z hz => h z (List.mem_cons_of_mem _ hz)
    simp only [toLowerCase, List.map_cons] at ht ⊢
    rw [hc, ht]

theorem noTrail_append (a : Str) {b : Str} (hb : NoTrail b) (hne : b ≠ []) : NoTrail (a ++ b) := by
  unfold NoTrail at hb ⊢
  rw [List.reverse_append]
  exact noLead_append hb (by simpa using hne) _

theorem awaited_toLowerCase {what : Str} (h : Awaited what) :
    toLowerCase what ≠ [] ∧ ∀ z ∈ toLowerCase what, isDot z = true := by
  obtain ⟨hne, hch, _⟩ := h
  refine ⟨?_, ?_⟩
  · cases what with
    | nil => exact absurd rfl hne
    | cons a t => simp [toLowerCase]
  · intro z hz
    simp only [toLowerCase, List.mem_map] at hz
    obtain ⟨y, hy, rfl⟩ := hz
    exact toLower_isDot y (hch y hy)

/-- Normalisation of a wait instruction: nothing is trimmed, and only what is waited
for is changed by the lower-casing. -/
theorem normalize_wait (pre digits unit what : Str) (hpre : toLowerCase pre = pre)
    (hunit : toLowerCase unit = unit) (hd : Digits digits) (hw : Awaited what) :
    normalize (waitInstruction pre digits unit what)
      = waitInstruction pre digits unit (toLowerCase what) := by
  have htrail : NoTrail (waitInstruction pre digits unit what) := by
    have e : waitInstruction pre digits unit what
        = ("wait ".toList ++ (pre ++ (digits ++ (' ' :: (unit ++ " for ".toList))))) ++ what := by
      simp [waitInstruction]
    rw [e]
    exact noTrail_append _ hw.2.2 hw.1
  have hlead : NoLead (waitInstruction pre digits unit what) :=
    noLead_of_head 'w' _ (by decide)
  have h := trim_of_shape [] (waitInstruction pre digits unit what) [] (fun _ h => by simp at h)
    (fun _ h => by simp at h) hlead htrail
  simp only [List.nil_append, List.append_nil] at h
  show toLowerCase (trim (waitInstruction pre digits unit what)) = _
  rw [h]
  unfold waitInstruction
  rw [toLowerCase_append, toLowerCase_append, toLowerCase_append, hpre,
    toLowerCase_digits digits hd.2]
  show _ ++ (pre ++ (digits ++ (' ' :: toLowerCase (unit ++ (" for ".toList ++ what))))) = _
  rw [toLowerCase_append, toLowerCase_append, hunit]
  rfl

theorem parseBody_wait (recur : Str → Option (Option Str))
    (text framework selector locator : Str) (m : Caps) (code : Str)
    (hand : includes text " and " = false) (hor : includes text " or " = false)
    (h1 : reNotContain.exec 3 text = none) (h2 : reStartsWith.exec 3 text = none)
    (h3 : reEndsWith.exec 3 text = none) (h4 : reNthChild.exec 2 text = none)
    (h5 : reIfThen.exec 2 text = none)
    (hm : reWait.exec 4 text = some m)
    (hcode : waitBlock framework selector locator m = some code) :
    parseBody recur text framework selector locator = some (some code) := by
  unfold parseBody
  simp only [hand, hor, Bool.false_eq_true, ↓reduceIte, Option.some_bind, h1, h2, h3, h4, h5, hm,
    onMatch, hcode, orNext]

/-- A wait instruction compiles to what the block gives on the captures of the
pattern, when no earlier pattern matches. -/
theorem parse_wait (pre digits unit what framework selector locator : Str) (p1 : Option Str)
    (rest1 code : Str) (hpre : toLowerCase pre = pre) (hunit : toLowerCase unit = unit)
    (hu : unit ∈ ["seconds".toList, "second".toList, "ms".toList, "milliseconds".toList])
    (hd : Digits digits) (hw : Awaited what)
    (hplain : Plain (waitInstruction pre digits unit what))
    (hearly : NoneMatches beforeWait (waitInstruction pre digits unit what))
    (hp1 : HeadIs ((Re.opt waitPrefixRe).run
        (pre ++ (digits ++ (' ' :: (unit ++ (" for ".toList ++ toLowerCase what)))))
        (List.replicate 5 none))
      (rest1, (List.replicate 5 none).set 1 p1))
    (hp2 : HeadIs ((Re.opt (.lit ' ')).run rest1 ((List.replicate 5 none).set 1 p1))
      (digits ++ (' ' :: (unit ++ (" for ".toList ++ toLowerCase what))),
        (List.replicate 5 none).set 1 p1))
    (hcode : waitBlock framework selector locator
      [some (waitInstruction pre digits unit (toLowerCase what)), p1, some digits, some unit,
        some (toLowerCase what)] = some code) :
    parseCustomAssertion (waitInstruction pre digits unit what) framework selector locator
      = some (some code) := by
  have hnorm := normalize_wait pre digits unit what hpre hunit hd hw
  have hhead := headIs_reWait pre digits unit (toLowerCase what) p1 rest1 hd
    (awaited_toLowerCase hw) hu hp1 hp2
  have hexec := exec_of_headIs reWait 4 _ _ hhead
  rw [consumed_nil] at hexec
  have h1 := hearly (reNotContain, 3) (by simp [beforeWait])
  have h2 := hearly (reStartsWith, 3) (by simp [beforeWait])
  have h3 := hearly (reEndsWith, 3) (by simp [beforeWait])
  have h4 := hearly (reNthChild, 2) (by simp [beforeWait])
  have h5 := hearly (reIfThen, 2) (by simp [beforeWait])
  have hI : waitInstruction pre digits unit what ≠ [] := by simp [waitInstruction]
  unfold parseCustomAssertion
  rw [parseAux_succ _ _ _ _ _ hI]
  obtain ⟨hand, hor⟩ := hplain
  simp only at h1 h2 h3 h4 h5
  rw [hnorm] at hand hor h1 h2 h3 h4 h5 ⊢
  exact parseBody_wait _ _ _ _ _ _ code hand hor h1 h2 h3 h4 h5 hexec hcode

/-- The block of `wait` on captures that hold the digits, the unit and what is
waited for. -/
theorem waitBlock_caps (framework selector locator whole digits unit what : Str)
    (p1 : Option Str)
    (hu : unit ∈ ["seconds".toList, "second".toList, "ms".toList, "milliseconds".toList]) :
    waitBlock framework selector locator [some whole, p1, some digits, some unit, some what]
      = byFramework framework
          (cat ["await ", locator, ".waitFor(\x7b timeout: ",
            numToStr (waitMs unit (parseInt digits)), " \x7d); // waiting for ", what])
          (cat ["cy.get('", selector, "', \x7b timeout: ",
            numToStr (waitMs unit (parseInt digits)), " \x7d); // waiting for ", what])
          (cat ["await driver.wait(until.elementLocated(By.cssSelector('", selector, "')), ",
            numToStr (waitMs unit (parseInt digits)), "); // waiting for ", what]) := by
  simp only [List.mem_cons, List.mem_singleton, List.not_mem_nil, or_false] at hu
  rcases hu with rfl | rfl | rfl | rfl <;> rfl

theorem digitChar_facts : ∀ k, k < 10 →
    (Nat.digitChar k).toNat - 48 = k ∧ isDigit (Nat.digitChar k) = true := by
  decide

theorem parseInt_append_one (l : Str) (d : Char) :
    parseInt (l ++ [d]) = 10 * parseInt l + (d.toNat - 48) := by
  simp [parseInt, List.foldl_append]

/-- The digits core of `Nat.repr` writes, in front of `ds`, a run of decimal digits
that `parseInt` reads back as the number. -/
theorem toDigitsCore_spec : ∀ (fuel n : Nat) (ds : List Char), n < fuel →
    ∃ l : Str, Nat.toDigitsCore 10 fuel n ds = l ++ ds ∧ Digits l ∧ parseInt l = n := by
  intro fuel
  induction fuel with
  | zero => intro n ds h; exact absurd h (Nat.not_lt_zero _)
  | succ f ih =>
    intro n ds hn
    obtain ⟨hd1, hd2⟩ := digitChar_facts (n % 10) (Nat.mod_lt _ (by decide))
    by_cases h0 : n / 10 = 0
    · refine ⟨[Nat.digitChar (n % 10)], ?_, ⟨by simp, ?_⟩, ?_⟩
      · simp [Nat.toDigitsCore, h0]
      · intro c hc
        rw [List.mem_singleton.mp hc]
        exact hd2
      · have hlt : n < 10 := by
          rcases Nat.div_eq_zero_iff (by decide : 0 < 10) |>.mp h0 with h
          exact h
        show 10 * 0 + ((Nat.digitChar (n % 10)).toNat - 48) = n
        rw [hd1, Nat.mod_eq_of_lt hlt]
        omega
    · have hlt : n / 10 < f := by
        have : n / 10 < n := Nat.div_lt_self (by
          rcases Nat.eq_zero_or_pos n with h | h
          · subst h; simp at h0
          · exact h) (by decide)
        omega
      obtain ⟨l, hl, ⟨hne, hdig⟩, hp⟩ := ih (n / 10) (Nat.digitChar (n % 10) :: ds) hlt
      refine ⟨l ++ [Nat.digitChar (n % 10)], ?_, ⟨by simp, ?_⟩, ?_⟩
      · simp [Nat.toDigitsCore, h0, hl]
      · intro c hc
        rcases List.mem_append.mp hc with h | h
        · exact hdig c h
        · rw [List.mem_singleton.mp h]
          exact hd2
      · rw [parseInt_append_one, hp, hd1]
        omega

/-- The decimal text of a number is a run of digits that denotes the number. -/
theorem parseInt_numToStr (n : Nat) : Digits (numToStr n) ∧ parseInt (numToStr n) = n := by
  obtain ⟨l, hl, hd, hp⟩ := toDigitsCore_spec (n + 1) n [] (Nat.lt_succ_self n)
  have e : numToStr n = l := by
    show (Nat.repr n).toList = l
    simp only [Nat.repr, Nat.toDigits, hl, List.append_nil]
    rfl
  rw [e]
  exact ⟨hd, hp⟩

theorem parseAux_eq_parse (fuel : Nat) (part framework selector locator : Str)
    (h : part.length < fuel) :
    parseCustomAssertionAux fuel part framework selector locator
      = parseCustomAssertion part framework selector locator := by
  have hsome := parseAux_isSome framework selector locator (part.length + 1) part
    (Nat.lt_succ_self _)
  obtain ⟨r, hr⟩ := Option.isSome_iff_exists.mp hsome
  have hmono := parseAux_mono (Nat.succ_le_of_lt h) part framework selector locator r hr
  unfold parseCustomAssertion
  rw [hr, hmono]

theorem isJsSpace_toLower (c : Char) : isJsSpace c.toLower = isJsSpace c := by
  cases h : isJsSpace c with
  | true => rw [toLower_space c h, h]
  | false => exact toLower_not_space c h

theorem trimStart_toLowerCase (s : Str) : trimStart (toLowerCase s) = toLowerCase (trimStart s) := by
  induction s with
  | nil => rfl
  | cons c t ih =>
    show trimStart (c.toLower :: toLowerCase t) = _
    simp only [trimStart, isJsSpace_toLower]
    split
    · exact ih
    · rfl

theorem trim_toLowerCase (s : Str) : trim (toLowerCase s) = toLowerCase (trim s) := by
  have hrev : ∀ x : Str, (toLowerCase x).reverse = toLowerCase x.reverse := fun x => by
    simp [toLowerCase, List.map_reverse]
  unfold trim trimEnd
  rw [trimStart_toLowerCase, hrev, trimStart_toLowerCase, hrev]

theorem normalize_toLowerCase (s : Str) : normalize (toLowerCase s) = normalize s := by
  unfold normalize
  rw [trim_toLowerCase, toLowerCase_idem]

/-- Compiling the lower-cased text of an instruction is compiling the instruction. -/
theorem parse_toLowerCase (s framework selector locator : Str) :
    parseCustomAssertion (toLowerCase s) framework selector locator
      = parseCustomAssertion s framework selector locator := by
  have hlen : (toLowerCase s).length = s.length := by simp [toLowerCase]
  unfold parseCustomAssertion
  rw [hlen]
  cases s with
  | nil => rfl
  | cons c t =>
    have h1 : toLowerCase (c :: t) ≠ [] := by simp [toLowerCase]
    rw [parseAux_succ _ _ _ _ _ h1, parseAux_succ _ _ _ _ _ (List.cons_ne_nil c t),
      normalize_toLowerCase]

theorem tailsWhile_reverse_head (p : Char → Bool) (s : Str) :
    ∃ more, (tailsWhile p s).reverse = s :: more := by
  cases s with
  | nil => exact ⟨[], rfl⟩
  | cons x t =>
    by_cases hp : p x = true
    · exact ⟨(tailsWhile p t).reverse, by simp [tailsWhile, hp]⟩
    · exact ⟨[], by simp [tailsWhile, hp]⟩

/-- A lazy run over `w` in front of `target`, followed by a continuation that fails
as long as a character of `w` is left: the continuation first succeeds on `target`. -/
theorem flatMap_lazy_first {β : Type} (p : Char → Bool) (c : Caps) (G : Str × Caps → List β)
    (target : Str) (r : β) (hr : HeadIs (G (target, c)) r) :
    ∀ w : Str, (∀ z ∈ w, p z = true) →
      (∀ suf ∈ w.tails, suf ≠ [] → G (suf ++ target, c) = []) →
      HeadIs (((tailsWhile p (w ++ target)).reverse.map fun u => (u, c)).flatMap G) r := by
  intro w
  induction w with
  | nil =>
    intro _ _
    obtain ⟨more, hm⟩ := tailsWhile_reverse_head p target
    simp only [List.nil_append, hm, List.map_cons, List.flatMap_cons]
    exact headIs_append hr _
  | cons z w' ih =>
    intro hw hG
    have hz := hw z (List.mem_cons_self _ _)
    have h0 := hG (z :: w') (by simp) (List.cons_ne_nil _ _)
    have ih' := ih (fun y hy => hw y (List.mem_cons_of_mem _ hy))
      (fun suf hs hne => hG suf (by simp [List.tails, hs]) hne)
    have e : tailsWhile p (z :: (w' ++ target))
        = tailsWhile p (w' ++ target) ++ [z :: (w' ++ target)] := by
      simp only [tailsWhile, hz, if_true]
    rw [List.cons_append] at h0 ⊢
    rw [e, List.reverse_append]
    simp only [List.reverse_cons, List.reverse_nil, List.nil_append, List.singleton_append,
      List.map_cons, List.flatMap_cons, h0]
    exact ih'

theorem isPrefixOf_append_of_le (p x y : Str) (h : p.length ≤ x.length) :
    p.isPrefixOf (x ++ y) = p.isPrefixOf x := by
  induction p generalizing x with
  | nil => simp
  | cons a t ih =>
    cases x with
    | nil => simp at h
    | cons b u =>
      have hl : t.length ≤ u.length := by simpa using h
      show (a == b && t.isPrefixOf (u ++ y)) = (a == b && t.isPrefixOf u)
      rw [ih u hl]

theorem thenAt_append (x y : Str) (h : 7 ≤ x.length) : thenAt (x ++ y) = thenAt x := by
  unfold thenAt
  rw [isPrefixOf_append_of_le _ x y (by simpa using Nat.le_of_succ_le h),
    isPrefixOf_append_of_le _ x y (by simpa using h)]

theorem reIfThen_eq :
    reIfThen = .seq (Re.str "if ") (.seq (.group 1 (.plus (.cls isDot) false)) thenTailRe) := rfl

theorem thenTail_fails (u : Str) (c : Caps) (h : thenAt u = false) : thenTailRe.run u c = [] := by
  unfold thenAt at h
  simp only [Bool.or_eq_false_iff] at h
  obtain ⟨h1, h2⟩ := h
  have hstr : ∀ (x : Str) (c' : Caps), " then ".toList.isPrefixOf x = false →
      (Re.seq (Re.str " then ") (.group 2 (.plus (.cls isDot) true))).run x c' = [] := by
    intro x c' hx
    rw [run_seq_eq, run_str]
    simp only [hx, Bool.false_eq_true, if_false, List.flatMap_nil]
  unfold thenTailRe
  rw [run_seq_eq]
  show ((Re.lit ',').run u c ++ [(u, c)]).flatMap _ = []
  rw [run_lit_eq]
  cases u with
  | nil => simp only [List.nil_append, List.flatMap_cons, List.flatMap_nil, List.append_nil,
      hstr [] c h1]
  | cons x t =>
    by_cases hx : x = ','
    · subst hx
      have h2' : " then ".toList.isPrefixOf t = false := by
        simpa [List.isPrefixOf] using h2
      simp only [if_true, List.singleton_append, List.flatMap_cons, List.flatMap_nil,
        List.append_nil, hstr t c h2', hstr _ c h1]
    · simp only [hx, if_false, List.nil_append, List.flatMap_cons, List.flatMap_nil,
        List.append_nil, hstr _ c h1]

theorem thenTail_headIs (sep a : Str) (c : Caps) (ha : OneLine a)
    (hsep : sep ∈ [", then ".toList, " then ".toList]) :
    HeadIs (thenTailRe.run (sep ++ a) c) ([], c.set 2 (some a)) := by
  have h2 := headIs_group_plus 2 isDot a [] c ha.1 ha.2 rfl
  rw [List.append_nil] at h2
  have hs : HeadIs ((Re.seq (Re.str " then ") (.group 2 (.plus (.cls isDot) true))).run
      (" then ".toList ++ a) c) ([], c.set 2 (some a)) :=
    headIs_seq (headIs_str " then ".toList a c) h2
  simp only [List.mem_cons, List.mem_singleton, List.not_mem_nil, or_false] at hsep
  unfold thenTailRe
  rcases hsep with rfl | rfl
  · exact headIs_seq (headIs_opt (headIs_lit ',' (" then ".toList ++ a) c)) hs
  · have hskip : HeadIs ((Re.opt (.lit ',')).run (" then ".toList ++ a) c)
        (" then ".toList ++ a, c) := headIs_opt_skip rfl
    exact headIs_seq hskip hs

/-- The pattern of the conditional on `if <c><sep><a>`, when it reads `c` whole: the
first result captures `c` and `a`. -/
theorem headIs_reIfThen (c sep a : Str) (hc : OneLine c) (ha : OneLine a)
    (hsep : sep ∈ [", then ".toList, " then ".toList]) (hwhole : ReadsWhole c sep) :
    HeadIs (reIfThen.run (ifInstruction c sep a) (List.replicate 3 none))
      ([], [none, some c, some a]) := by
  have hseplen : 6 ≤ sep.length := by
    simp only [List.mem_cons, List.mem_singleton, List.not_mem_nil, or_false] at hsep
    rcases hsep with rfl | rfl <;> decide
  obtain ⟨hcne, hcdot⟩ := hc
  cases c with
  | nil => exact absurd rfl hcne
  | cons x w =>
    have hx := hcdot x (List.mem_cons_self _ _)
    have hw : ∀ z ∈ w, isDot z = true := fun z hz => hcdot z (List.mem_cons_of_mem _ hz)
    rw [reIfThen_eq]
    refine headIs_seq (headIs_str "if ".toList _ _) ?_
    rw [run_seq_eq]
    show HeadIs ((((Re.plus (.cls isDot) false).run (x :: (w ++ (sep ++ a)))
      (List.replicate 3 none)).map _).flatMap _) _
    rw [run_plus_cls_lazy isDot x _ _ hx, List.flatMap_map]
    apply flatMap_lazy_first isDot _ _ (sep ++ a) _ ?_ w hw
    · intro suf hs hne
      apply thenTail_fails
      have h1 : thenAt (suf ++ sep) = false := hwhole suf hs hne
      have hlen : 7 ≤ (suf ++ sep).length := by
        have : 1 ≤ suf.length := by
          cases suf with
          | nil => exact absurd rfl hne
          | cons _ _ => simp
        simp only [List.length_append]
        omega
      rw [← List.append_assoc, thenAt_append _ _ hlen]
      exact h1
    · have e : consumed (x :: (w ++ (sep ++ a))) (sep ++ a) = x :: w :=
        consumed_append (x :: w) (sep ++ a)
      show HeadIs (thenTailRe.run (sep ++ a) ((List.replicate 3 none).set 1
        (some (consumed (x :: (w ++ (sep ++ a))) (sep ++ a))))) _
      rw [e]
      exact thenTail_headIs sep a _ ha hsep

theorem noLead_if (rest : Str) : NoLead ("if ".toList ++ rest) :=
  noLead_of_head 'i' _ (by decide)

/-- Normalisation of a conditional instruction: nothing is trimmed, and the
condition and the action are lower-cased. -/
theorem normalize_if (c sep a : Str) (hsep : toLowerCase sep = sep) (ha : Awaited a) :
    normalize (ifInstruction c sep a) = ifInstruction (toLowerCase c) sep (toLowerCase a) := by
  have htrail : NoTrail (ifInstruction c sep a) := by
    have e : ifInstruction c sep a = ("if ".toList ++ (c ++ sep)) ++ a := by
      simp [ifInstruction]
    rw [e]
    exact noTrail_append _ ha.2.2 ha.1
  have h := trim_of_shape [] (ifInstruction c sep a) [] (fun _ h => by simp at h)
    (fun _ h => by simp at h) (noLead_if _) htrail
  simp only [List.nil_append, List.append_nil] at h
  show toLowerCase (trim (ifInstruction c sep a)) = _
  rw [h]
  unfold ifInstruction
  rw [toLowerCase_append, toLowerCase_append, toLowerCase_append, hsep]
  rfl

theorem parseBody_ifThen (recur : Str → Option (Option Str))
    (text framework selector locator : Str) (m : Caps) (condition compiled : Option Str)
    (code : Str)
    (hand : includes text " and " = false) (hor : includes text " or " = false)
    (h1 : reNotContain.exec 3 text = none) (h2 : reStartsWith.exec 3 text = none)
    (h3 : reEndsWith.exec 3 text = none) (h4 : reNthChild.exec 2 text = none)
    (hm : reIfThen.exec 2 text = some m)
    (hcond : recur (capText m 1) = some condition)
    (hact : recur (capText m 2) = some compiled)
    (hcode : ifThenBlock framework m condition compiled = some code) :
    parseBody recur text framework selector locator = some (some code) := by
  unfold parseBody
  simp only [hand, hor, Bool.false_eq_true, ↓reduceIte, Option.some_bind, h1, h2, h3, h4, hm,
    onMatch, hcond, hact, Option.map_some', hcode, orNext]

theorem ifThenBlock_text (framework whole c a : Str) (condition compiled : Option Str)
    (hfw : framework ∈ ["playwright".toList, "cypress".toList, "selenium".toList]) :
    ifThenBlock framework [some whole, some c, some a] condition compiled
      = some (
          if framework = "cypress".toList then
            cat ["cy.then(() => \x7b if (", showNull condition, ") \x7b ",
              if truthy compiled then showNull compiled else a, " \x7d \x7d);"]
          else
            cat ["if (", showNull condition, ") \x7b\n  ",
              if truthy compiled then showNull compiled else a, "\n\x7d"]) := by
  simp only [List.mem_cons, List.mem_singleton, List.not_mem_nil, or_false] at hfw
  rcases hfw with rfl | rfl | rfl <;> rfl

theorem reReport_eq :
    reReport = .seq (Re.str "report ") (.seq (.cls isQuote) (.seq
      (.group 1 (.plus (.cls isDot) true)) (.seq (.cls isQuote) (.opt reportIfRe)))) := rfl

theorem mem_tailsWhile_suffix (p : Char → Bool) (s u : Str) (h : u ∈ tailsWhile p s) :
    u <:+ s := by
  induction s with
  | nil =>
    simp only [tailsWhile, List.mem_singleton] at h
    rw [h]
  | cons x t ih =>
    by_cases hp : p x = true
    · simp only [tailsWhile, hp, if_true, List.mem_append, List.mem_singleton] at h
      rcases h with h | h
      · exact (ih h).trans (List.suffix_cons x t)
      · rw [h]
    · simp only [tailsWhile, hp, Bool.false_eq_true, if_false, List.mem_singleton] at h
      rw [h]

/-- A greedy run over `w`, a quote and `rest`, followed by a continuation that fails
on every end of `rest`: the continuation first succeeds on the quote and `rest`. -/
theorem flatMap_greedy_first {β : Type} (p : Char → Bool) (c : Caps) (G : Str × Caps → List β)
    (q : Char) (rest : Str) (r : β) (hq : p q = true)
    (hG : ∀ u, u <:+ rest → G (u, c) = []) (hr : HeadIs (G (q :: rest, c)) r) :
    ∀ w : Str, (∀ z ∈ w, p z = true) →
      HeadIs (((tailsWhile p (w ++ q :: rest)).map fun u => (u, c)).flatMap G) r := by
  have hnil : ((tailsWhile p rest).map fun u => (u, c)).flatMap G = [] := by
    rw [List.flatMap_eq_nil_iff]
    intro x hx
    obtain ⟨u, hu, rfl⟩ := List.mem_map.mp hx
    exact hG u (mem_tailsWhile_suffix p rest u hu)
  intro w
  induction w with
  | nil =>
    intro _
    have e : tailsWhile p (q :: rest) = tailsWhile p rest ++ [q :: rest] := by
      simp only [tailsWhile, hq, if_true]
    rw [List.nil_append, e, List.map_append, List.flatMap_append, hnil, List.nil_append]
    simp only [List.map_cons, List.map_nil, List.flatMap_cons, List.flatMap_nil, List.append_nil]
    exact hr
  | cons z w' ih =>
    intro hw
    have hz := hw z (List.mem_cons_self _ _)
    have e : tailsWhile p (z :: (w' ++ q :: rest))
        = tailsWhile p (w' ++ q :: rest) ++ [z :: (w' ++ q :: rest)] := by
      simp only [tailsWhile, hz, if_true]
    rw [List.cons_append, e, List.map_append, List.flatMap_append]
    exact headIs_append (ih fun y hy => hw y (List.mem_cons_of_mem _ hy)) _

theorem quote_then_fails (b : Re) (u : Str) (c : Caps) (h : ∀ z t, u = z :: t → isQuote z = false) :
    (Re.seq (.cls isQuote) b).run u c = [] := by
  rw [run_seq_eq, run_cls_eq]
  cases u with
  | nil => rfl
  | cons z t => simp only [h z t rfl, Bool.false_eq_true, if_false, List.flatMap_nil]

theorem suffix_head_quoteFree (s u : Str) (hs : QuoteFree s) (hu : u <:+ s) :
    ∀ z t, u = z :: t → isQuote z = false := by
  intro z t e
  apply hs z
  apply hu.subset
  rw [e]
  exact List.mem_cons_self _ _

theorem reportIf_headIs (cond : Str) (c : Caps) (hc : OneLine cond) :
    HeadIs ((Re.opt reportIfRe).run (" if ".toList ++ cond) c)
      ([], (c.set 3 (some cond)).set 2 (some (" if ".toList ++ cond))) := by
  have h3 := headIs_group_plus 3 isDot cond [] c hc.1 hc.2 rfl
  rw [List.append_nil] at h3
  have hs : HeadIs ((Re.seq (Re.str " if ") (.group 3 (.plus (.cls isDot) true))).run
      ((" if ".toList ++ cond) ++ []) c) ([], c.set 3 (some cond)) := by
    rw [List.append_nil]
    exact headIs_seq (headIs_str " if ".toList cond c) h3
  have h2 := headIs_group 2 _ (" if ".toList ++ cond) [] c _ hs
  rw [List.append_nil] at h2
  exact headIs_opt h2

/-- The pattern of `report` on `report '<msg>'<tail>` with a message and a tail
without quote characters: the message is captured whole, and the first result of
the optional end on the tail ends the match. -/
theorem headIs_reReport (msg tail : Str) (caps : Caps) (hm : Literal msg)
    (htq : QuoteFree tail)
    (htail : HeadIs ((Re.opt reportIfRe).run tail ((List.replicate 4 none).set 1 (some msg)))
      ([], caps)) :
    HeadIs (reReport.run (reportInstruction msg tail) (List.replicate 4 none)) ([], caps) := by
  obtain ⟨hne, hch⟩ := hm
  cases msg with
  | nil => exact absurd rfl hne
  | cons x w =>
    have hx := (hch x (List.mem_cons_self _ _)).1
    have hw : ∀ z ∈ w, isDot z = true := fun z hz => (hch z (List.mem_cons_of_mem _ hz)).1
    have hq : isQuote (Char.ofNat 39) = true := by decide
    have hqd : isDot (Char.ofNat 39) = true := by decide
    rw [reReport_eq]
    refine headIs_seq (headIs_str "report ".toList _ _)
      (headIs_seq (r := (x :: w ++ Char.ofNat 39 :: tail, List.replicate 4 none)) ?_ ?_)
    · show HeadIs ((Re.cls isQuote).run (Char.ofNat 39 :: (x :: w ++ Char.ofNat 39 :: tail)) _)
        (x :: w ++ Char.ofNat 39 :: tail, List.replicate 4 none)
      rw [run_cls_eq]
      simp only [hq, if_true]
      exact ⟨[], rfl⟩
    · rw [run_seq_eq]
      show HeadIs ((((Re.plus (.cls isDot) true).run (x :: (w ++ Char.ofNat 39 :: tail))
        (List.replicate 4 none)).map _).flatMap _) _
      rw [run_plus_cls_greedy]
      simp only [hx, if_true]
      rw [List.flatMap_map]
      apply flatMap_greedy_first isDot _ _ (Char.ofNat 39) tail _ hqd ?_ ?_ w hw
      · intro u hu
        exact quote_then_fails _ u _ (suffix_head_quoteFree tail u htq hu)
      · have e : consumed (x :: (w ++ Char.ofNat 39 :: tail)) (Char.ofNat 39 :: tail) = x :: w :=
          consumed_append (x :: w) (Char.ofNat 39 :: tail)
        show HeadIs ((Re.seq (.cls isQuote) (.opt reportIfRe)).run (Char.ofNat 39 :: tail)
          ((List.replicate 4 none).set 1
            (some (consumed (x :: (w ++ Char.ofNat 39 :: tail)) (Char.ofNat 39 :: tail))))) _
        rw [e]
        refine headIs_seq (r := (tail, (List.replicate 4 none).set 1 (some (x :: w)))) ?_ htail
        rw [run_cls_eq]
        simp only [hq, if_true]
        exact ⟨[], rfl⟩

theorem parseBody_report (recur : Str → Option (Option Str))
    (text framework selector locator : Str) (m : Caps) (cond : Option Str) (code : Str)
    (hand : includes text " and " = false) (hor : includes text " or " = false)
    (h1 : reNotContain.exec 3 text = none) (h2 : reStartsWith.exec 3 text = none)
    (h3 : reEndsWith.exec 3 text = none) (h4 : reNthChild.exec 2 text = none)
    (h5 : reIfThen.exec 2 text = none) (h6 : reWait.exec 4 text = none)
    (h7 : reRetry.exec 1 text = none)
    (hm : reReport.exec 3 text = some m)
    (hcond : (if truthy (cap m 3) then recur (capText m 3) else some none) = some cond)
    (hcode : reportBlock framework m cond = some code) :
    parseBody recur text framework selector locator = some (some code) := by
  unfold parseBody
  simp only [hand, hor, Bool.false_eq_true, ↓reduceIte, Option.some_bind, h1, h2, h3, h4, h5, h6,
    h7, hm, onMatch, hcond, Option.map_some', hcode, orNext]

theorem literal_oneLine {v : Str} (h : Literal v) : OneLine v :=
  ⟨h.1, fun z hz => (h.2 z hz).1⟩

theorem literal_quoteFree {v : Str} (h : Literal v) : QuoteFree v :=
  fun z hz => (h.2 z hz).2

/-- Normalisation of a report instruction whose tail is empty or ends with no white
space: nothing is trimmed. -/
theorem normalize_report (msg tail : Str) (ht : tail = [] ∨ NoTrail tail) :
    normalize (reportInstruction msg tail)
      = reportInstruction (toLowerCase msg) (toLowerCase tail) := by
  have htrail : NoTrail (reportInstruction msg tail) := by
    rcases ht with rfl | hn
    · have e : reportInstruction msg [] = ("report ".toList ++ (Char.ofNat 39 :: msg))
          ++ [Char.ofNat 39] := by simp [reportInstruction]
      rw [e]
      exact noTrail_append _ (by decide) (by simp)
    · by_cases hne : tail = []
      · subst hne
        have e : reportInstruction msg [] = ("report ".toList ++ (Char.ofNat 39 :: msg))
            ++ [Char.ofNat 39] := by simp [reportInstruction]
        rw [e]
        exact noTrail_append _ (by decide) (by simp)
      · have e : reportInstruction msg tail
            = ("report ".toList ++ (Char.ofNat 39 :: (msg ++ [Char.ofNat 39]))) ++ tail := by
          simp [reportInstruction]
        rw [e]
        exact noTrail_append _ hn hne
  have h := trim_of_shape [] (reportInstruction msg tail) [] (fun _ h => by simp at h)
    (fun _ h => by simp at h) (noLead_of_head 'r' _ (by decide)) htrail
  simp only [List.nil_append, List.append_nil] at h
  show toLowerCase (trim (reportInstruction msg tail)) = _
  rw [h]
  simp [reportInstruction, toLowerCase]

/-- A report instruction compiles to what the block gives on the captures of the
pattern, when no earlier pattern matches. -/
theorem parse_report (msg tail framework selector locator : Str) (c2 c3 cond : Option Str)
    (code : Str) (hm : Literal msg) (htq : QuoteFree tail) (ht : tail = [] ∨ NoTrail tail)
    (hplain : Plain (reportInstruction msg tail))
    (hearly : NoneMatches beforeReport (reportInstruction msg tail))
    (htail : HeadIs ((Re.opt reportIfRe).run (toLowerCase tail)
        ((List.replicate 4 none).set 1 (some (toLowerCase msg))))
      ([], [none, some (toLowerCase msg), c2, c3]))
    (hcond : (if truthy c3 then
        parseCustomAssertionAux (reportInstruction msg tail).length (c3.getD []) framework
          selector locator
      else some none) = some cond)
    (hcode : reportBlock framework
      [some (reportInstruction (toLowerCase msg) (toLowerCase tail)), some (toLowerCase msg),
        c2, c3] cond = some code) :
    parseCustomAssertion (reportInstruction msg tail) framework selector locator
      = some (some code) := by
  have hnorm := normalize_report msg tail ht
  have htq' : QuoteFree (toLowerCase tail) := by
    intro z hz
    simp only [toLowerCase, List.mem_map] at hz
    obtain ⟨y, hy, rfl⟩ := hz
    exact toLower_isQuote y (htq y hy)
  have hhead := headIs_reReport (toLowerCase msg) (toLowerCase tail) _ (literal_toLowerCase hm)
    htq' htail
  have hexec := exec_of_headIs reReport 3 _ _ hhead
  rw [consumed_nil] at hexec
  have h1 := hearly (reNotContain, 3) (by simp [beforeReport])
  have h2 := hearly (reStartsWith, 3) (by simp [beforeReport])
  have h3 := hearly (reEndsWith, 3) (by simp [beforeReport])
  have h4 := hearly (reNthChild, 2) (by simp [beforeReport])
  have h5 := hearly (reIfThen, 2) (by simp [beforeReport])
  have h6 := hearly (reWait, 4) (by simp [beforeReport])
  have h7 := hearly (reRetry, 1) (by simp [beforeReport])
  have hI : reportInstruction msg tail ≠ [] := by simp [reportInstruction]
  unfold parseCustomAssertion
  rw [parseAux_succ _ _ _ _ _ hI]
  obtain ⟨hand, hor⟩ := hplain
  simp only at h1 h2 h3 h4 h5 h6 h7
  rw [hnorm] at hand hor h1 h2 h3 h4 h5 h6 h7 ⊢
  exact parseBody_report _ _ _ _ _ _ cond code hand hor h1 h2 h3 h4 h5 h6 h7 hexec hcond hcode

theorem byFramework_other {framework : Str} (h : OtherFramework framework) (p c s : Str) :
    byFramework framework p c s = none := by
  obtain ⟨h1, h2, h3⟩ := h
  have e1 : strEq framework "playwright" = false := decide_eq_false h1
  have e2 : strEq framework "cypress" = false := decide_eq_false h2
  have e3 : strEq framework "selenium" = false := decide_eq_false h3
  unfold byFramework
  rw [e1, e2, e3]
  rfl

theorem notContainBlock_other {framework : Str} (h : OtherFramework framework)
    (selector locator : Str) (m : Caps) : notContainBlock framework selector locator m = none := by
  unfold notContainBlock
  simp only [byFramework_other h]
  split
  · rfl
  · split
    · rfl
    · split <;> rfl

theorem startsWithBlock_other {framework : Str} (h : OtherFramework framework)
    (selector locator : Str) (m : Caps) : startsWithBlock framework selector locator m = none := by
  unfold startsWithBlock
  simp only [byFramework_other h]
  split
  · rfl
  · split
    · rfl
    · split <;> rfl

theorem endsWithBlock_other {framework : Str} (h : OtherFramework framework)
    (selector locator : Str) (m : Caps) : endsWithBlock framework selector locator m = none := by
  unfold endsWithBlock
  simp only [byFramework_other h]
  split
  · rfl
  · split
    · rfl
    · split <;> rfl

theorem retryBlock_other {framework : Str} (h : OtherFramework framework)
    (recur : Str → Option (Option Str)) (m : Caps) : retryBlock recur framework m = some none := by
  obtain ⟨h1, h2, h3⟩ := h
  have e1 : strEq framework "playwright" = false := decide_eq_false h1
  have e2 : strEq framework "cypress" = false := decide_eq_false h2
  have e3 : strEq framework "selenium" = false := decide_eq_false h3
  unfold retryBlock
  rw [e1, e2, e3]
  rfl

theorem reportBlock_other {framework : Str} (h : OtherFramework framework) (m : Caps)
    (cond : Option Str) : reportBlock framework m cond = none := by
  unfold reportBlock
  simp only [byFramework_other h]
  split <;> rfl

theorem onMatch_none (m : Option Caps) (block : Caps → Option Str) (h : ∀ c, block c = none) :
    onMatch m block = none := by
  cases m with
  | none => rfl
  | some c => exact h c

theorem mapFuel_mem (f : Str → Option (Option Str)) :
    ∀ (parts : List Str) (rs : List (Option Str)), mapFuel f parts = some rs →
      ∀ r ∈ rs, ∃ p ∈ parts, f p = some r := by
  intro parts
  induction parts with
  | nil =>
    intro rs h r hr
    simp only [mapFuel, Option.some.injEq] at h
    subst h
    simp at hr
  | cons p t ih =>
    intro rs h r hr
    unfold mapFuel at h
    cases hfp : f p with
    | none => simp [hfp] at h
    | some a =>
      cases hmt : mapFuel f t with
      | none => simp [hfp, hmt] at h
      | some rest =>
        simp only [hfp, hmt, Option.map_some', Option.some.injEq] at h
        subst h
        rcases List.mem_cons.mp hr with e | hin
        · exact ⟨p, List.mem_cons_self _ _, by rw [hfp, e]⟩
        · obtain ⟨q, hq, hfq⟩ := ih rest hmt r hin
          exact ⟨q, List.mem_cons_of_mem _ hq, hfq⟩

theorem filterBoolean_falsy (rs : List (Option Str)) (h : ∀ r ∈ rs, truthy r = false) :
    filterBoolean rs = [] := by
  induction rs with
  | nil => rfl
  | cons r t ih =>
    have hr := h r (List.mem_cons_self _ _)
    have ht := ih fun q hq => h q (List.mem_cons_of_mem _ hq)
    simp only [filterBoolean, List.filterMap_cons, hr, Bool.false_eq_true, if_false] at ht ⊢
    exact ht

theorem nthChildBlock_other {framework : Str} (h : OtherFramework framework)
    (selector locator : Str) (m : Caps) : nthChildBlock framework selector locator m = none :=
  byFramework_other h _ _ _

theorem ifThenBlock_other {framework : Str} (h : OtherFramework framework) (m : Caps)
    (condition compiled : Option Str) : ifThenBlock framework m condition compiled = none :=
  byFramework_other h _ _ _

theorem waitBlock_other {framework : Str} (h : OtherFramework framework)
    (selector locator : Str) (m : Caps) : waitBlock framework selector locator m = none :=
  byFramework_other h _ _ _

theorem onFailureBlock_other {framework : Str} (h : OtherFramework framework) (m : Caps) :
    onFailureBlock framework m = none :=
  byFramework_other h _ _ _

theorem orNext_none (next : Option (Option Str)) : orNext none next = next := rfl

/-- With a framework outside the three, the cascade yields no code when its
recursive calls yield none: the empty text for a conjunction, `null` otherwise. -/
theorem parseBody_other {framework : Str} (h : OtherFramework framework)
    (recur : Str → Option (Option Str)) (text selector locator : Str)
    (hrec : ∀ part r, recur part = some r → truthy r = false) (r : Option Str)
    (hr : parseBody recur text framework selector locator = some r) :
    r = if includes text " and " then some [] else none := by
  unfold parseBody at hr
  by_cases hand : includes text " and " = true
  · simp only [hand, if_true] at hr ⊢
    cases hm : mapFuel recur (jsSplit reAndSep text) with
    | none => simp [hm] at hr
    | some rs =>
      simp only [hm, Option.map_some', Option.some.injEq] at hr
      have hf := filterBoolean_falsy rs fun x hx => by
        obtain ⟨p, _, hp⟩ := mapFuel_mem recur _ rs hm x hx
        exact hrec p x hp
      rw [hf] at hr
      rw [← hr]
      rfl
  · simp only [hand, Bool.false_eq_true, if_false] at hr ⊢
    simp only [onMatch_none _ _ (notContainBlock_other h selector locator),
      onMatch_none _ _ (startsWithBlock_other h selector locator),
      onMatch_none _ _ (endsWithBlock_other h selector locator),
      onMatch_none _ _ (nthChildBlock_other h selector locator),
      onMatch_none _ _ (waitBlock_other h selector locator),
      onMatch_none _ _ (onFailureBlock_other h), orNext_none] at hr
    obtain ⟨d, hd, hr⟩ := Option.bind_eq_some.mp hr
    have hd' : d = none := by
      split at hd
      · cases hm : mapFuel recur (jsSplit reOrSep text) with
        | none => simp [hm] at hd
        | some rs =>
          simp only [hm, Option.map_some', Option.some.injEq] at hd
          have hf := filterBoolean_falsy rs fun x hx => by
            obtain ⟨p, _, hp⟩ := mapFuel_mem recur _ rs hm x hx
            exact hrec p x hp
          rw [hf] at hd
          rw [← hd]
          rfl
      · exact (Option.some.inj hd).symm
    subst hd'
    rw [orNext_none] at hr
    obtain ⟨c, hc, hr⟩ := Option.bind_eq_some.mp hr
    have hc' : c = none := by
      split at hc
      · simp only [ifThenBlock_other h] at hc
        obtain ⟨_, _, hc⟩ := Option.bind_eq_some.mp hc
        obtain ⟨_, _, hc⟩ := Option.map_eq_some'.mp hc
        exact hc.symm
      · exact (Option.some.inj hc).symm
    subst hc'
    rw [orNext_none] at hr
    obtain ⟨t, ht, hr⟩ := Option.bind_eq_some.mp hr
    have ht' : t = none := by
      split at ht
      · rw [retryBlock_other h] at ht
        exact (Option.some.inj ht).symm
      · exact (Option.some.inj ht).symm
    subst ht'
    rw [orNext_none] at hr
    obtain ⟨p, hp, hr⟩ := Option.bind_eq_some.mp hr
    have hp' : p = none := by
      split at hp
      · simp only [reportBlock_other h] at hp
        obtain ⟨_, _, hp⟩ := Option.map_eq_some'.mp hp
        exact hp.symm
      · exact (Option.some.inj hp).symm
    subst hp'
    rw [orNext_none] at hr
    exact (Option.some.inj hr).symm

theorem parseAux_other {framework : Str} (h : OtherFramework framework) (selector locator : Str) :
    ∀ (fuel : Nat) (instruction : Str) (r : Option Str),
      parseCustomAssertionAux fuel instruction framework selector locator = some r →
      r = if instruction ≠ [] ∧ includes (normalize instruction) " and " = true then some []
        else none := by
  intro fuel
  induction fuel with
  | zero =>
    intro instruction r hr
    simp [parseCustomAssertionAux] at hr
  | succ n ih =>
    intro instruction r hr
    by_cases he : instruction = []
    · subst he
      rw [parseAux_nil] at hr
      simp only [ne_eq, not_true_eq_false, false_and, if_false]
      exact (Option.some.inj hr).symm
    · rw [parseAux_succ _ _ _ _ _ he] at hr
      have hb := parseBody_other h _ _ selector locator (fun part x hx => by
        rw [ih part x hx]
        split <;> rfl) r hr
      rw [hb]
      simp only [ne_eq, he, not_false_eq_true, true_and]

theorem lookup_plain_kinds_other (t : Str) (hc : t ≠ "click".toList) (hi : t ≠ "input".toList)
    (a b : Str) : List.lookup t [("click".toList, a), ("input".toList, b)] = none := by
  have e1 : (t == "click".toList) = false := beq_false_of_ne hc
  have e2 : (t == "input".toList) = false := beq_false_of_ne hi
  simp only [List.lookup, e1, e2]

/-- The template of an action kind other than `assert` is the same whether the
defaults of plain were loaded or not: the fallback of `getActionTemplate` holds
the two templates of plain. -/
theorem getActionTemplate_plain_or_empty (u : Templates) (t : Str) (ht : t ≠ "assert".toList) :
    getActionTemplate t (Templates.empty.spread u)
      = getActionTemplate t ((defaultTemplates "plain").spread u) := by
  have e : strEq t "assert" = false := decide_eq_false ht
  unfold getActionTemplate Templates.get
  simp only [e, Bool.false_eq_true, if_false]
  cases hl : u.kinds.lookup t with
  | some s =>
    have h1 : getProp (Templates.empty.spread u).kinds t = .str s := by
      apply getProp_own
      simp only [Templates.spread, List.lookup_append, hl]
      rfl
    have h2 : getProp ((defaultTemplates "plain").spread u).kinds t = .str s := by
      apply getProp_own
      simp only [Templates.spread, List.lookup_append, hl]
      rfl
    rw [h1, h2]
  | none =>
    have h1 : getProp (Templates.empty.spread u).kinds t = objectPrototype t := by
      simp only [getProp, Templates.spread, Templates.empty, List.append_nil, hl]
    have h2 : getProp ((defaultTemplates "plain").spread u).kinds t
        = getProp (defaultTemplates "plain").kinds t := by
      simp only [getProp, Templates.spread, List.lookup_append, hl]
      rfl
    rw [h1, h2]
    by_cases hc : t = "click".toList
    · subst hc
      rfl
    · by_cases hi : t = "input".toList
      · subst hi
        rfl
      · have h3 : getProp (defaultTemplates "plain").kinds t = objectPrototype t := by
          have : (defaultTemplates "plain").kinds.lookup t = none :=
            lookup_plain_kinds_other t hc hi _ _
          simp only [getProp, this]
        rw [h3]

theorem getLocator_same (selector framework : Str) (locatorMap : List (Str × Str))
    (hc : framework ≠ "cypress".toList) (hs : framework ≠ "selenium".toList) :
    getLocator selector locatorMap framework = getLocator selector locatorMap "plain" := by
  have h1 : strEq framework "cypress" = false := decide_eq_false hc
  have h2 : strEq framework "selenium" = false := decide_eq_false hs
  unfold getLocator
  rw [h1, h2]
  rfl

theorem actionLines_same (f : Str) (lm : List (Str × Str)) (u : Templates) (a : Action)
    (hc : f ≠ "cypress".toList) (hs : f ≠ "selenium".toList)
    (ha : a.assert = false) (ht : a.type ≠ "assert".toList) :
    actionLines ⟨f, lm, Templates.empty.spread u⟩ a
      = actionLines ⟨"plain", lm, (defaultTemplates "plain").spread u⟩ a := by
  unfold actionLines
  simp only [ha, Bool.false_eq_true, if_false, getLocator_same a.selector f lm hc hs,
    getActionTemplate_plain_or_empty u a.type ht]

theorem allActionLines_same (f : Str) (lm : List (Str × Str)) (u : Templates)
    (hc : f ≠ "cypress".toList) (hs : f ≠ "selenium".toList) (acts : List Action)
    (h : ∀ a ∈ acts, a.assert = false ∧ a.type ≠ "assert".toList) :
    allActionLines ⟨f, lm, Templates.empty.spread u⟩ acts
      = allActionLines ⟨"plain", lm, (defaultTemplates "plain").spread u⟩ acts := by
  induction acts with
  | nil => rfl
  | cons a rest ih =>
    obtain ⟨ha, ht⟩ := h a (List.mem_cons_self _ _)
    have ih' := ih fun b hb => h b (List.mem_cons_of_mem _ hb)
    simp only [allActionLines, actionLines_same f lm u a hc hs ha ht, ih']

/-! ### Conditional, report, escaping, wait, other frameworks -/

/-- Claim C21, as stated, fails: with the condition `text starts with 'a'` the pattern
of `starts with` matches first, and the result is its assertion with the rest of
the instruction as literal, not the conditional built from the compiled condition
and action. -/
theorem C21_clause_condition_is_taken_as_clause :
    parseCustomAssertion "if text starts with 'a', then report 'x'" "playwright" "#s" "loc"
      = some (some "expect(await loc.textContent()).toMatch(/^a', then report 'x/);".toList) ∧
    parseCustomAssertion "text starts with 'a'" "playwright" "#s" "loc"
      = some (some "expect(await loc.textContent()).toMatch(/^a/);".toList) ∧
    parseCustomAssertion "report 'x'" "playwright" "#s" "loc"
      = some (some "console.log('x');".toList) ∧
    parseCustomAssertion "if text starts with 'a', then report 'x'" "playwright" "#s" "loc"
      ≠ some (some
          "if (expect(await loc.textContent()).toMatch(/^a/);) \x7b\n  console.log('x');\n\x7d".toList) := by
  decide

/-- Claim C21, amended: for each of the three frameworks and an instruction
`if C, then A` or `if C then A` (`C` and `A` on one line, `A` without white space at
its end, `C` without a separator before its end) that is neither a conjunction
nor a disjunction and that none of the four earlier patterns matches, the result
is the conditional construct whose condition is the compilation of `C` (`null`
when `C` does not compile) and whose body is the compilation of `A`, or the
lower-cased text of `A` when `A` compiles to nothing. -/
theorem C21_conditional_when_reached (C A selector locator : Str) (hC : OneLine C)
    (hA : Awaited A) :
    ∀ sep ∈ [", then ".toList, " then ".toList],
      ReadsWhole (toLowerCase C) sep →
      Plain (ifInstruction C sep A) →
      NoneMatches beforeIfThen (ifInstruction C sep A) →
      ∀ framework ∈ ["playwright".toList, "cypress".toList, "selenium".toList],
      ∃ condition compiled,
        parseCustomAssertion C framework selector locator = some condition ∧
        parseCustomAssertion A framework selector locator = some compiled ∧
        parseCustomAssertion (ifInstruction C sep A) framework selector locator
          = some (some (
              if framework = "cypress".toList then
                cat ["cy.then(() => \x7b if (", showNull condition, ") \x7b ",
                  if truthy compiled then showNull compiled else toLowerCase A, " \x7d \x7d);"]
              else
                cat ["if (", showNull condition, ") \x7b\n  ",
                  if truthy compiled then showNull compiled else toLowerCase A, "\n\x7d"])) := by
  intro sep hsep hwhole hplain hearly framework hfw
  have hseplow : toLowerCase sep = sep := by
    have h := hsep
    simp only [List.mem_cons, List.mem_singleton, List.not_mem_nil, or_false] at h
    rcases h with rfl | rfl <;> rfl
  obtain ⟨condition, hcond⟩ := Option.isSome_iff_exists.mp
    (parseAux_isSome framework selector locator (C.length + 1) C (Nat.lt_succ_self _))
  obtain ⟨compiled, hact⟩ := Option.isSome_iff_exists.mp
    (parseAux_isSome framework selector locator (A.length + 1) A (Nat.lt_succ_self _))
  refine ⟨condition, compiled, hcond, hact, ?_⟩
  have hnorm := normalize_if C sep A hseplow hA
  have hCl : OneLine (toLowerCase C) := by
    obtain ⟨hne, hd⟩ := hC
    refine ⟨?_, ?_⟩
    · cases C with
      | nil => exact absurd rfl hne
      | cons _ _ => simp [toLowerCase]
    · intro z hz
      simp only [toLowerCase, List.mem_map] at hz
      obtain ⟨y, hy, rfl⟩ := hz
      exact toLower_isDot y (hd y hy)
  have hAl : OneLine (toLowerCase A) := awaited_toLowerCase hA
  have hhead := headIs_reIfThen (toLowerCase C) sep (toLowerCase A) hCl hAl hsep hwhole
  have hexec := exec_of_headIs reIfThen 2 _ _ hhead
  rw [consumed_nil] at hexec
  have h1 := hearly (reNotContain, 3) (by simp [beforeIfThen])
  have h2 := hearly (reStartsWith, 3) (by simp [beforeIfThen])
  have h3 := hearly (reEndsWith, 3) (by simp [beforeIfThen])
  have h4 := hearly (reNthChild, 2) (by simp [beforeIfThen])
  have hI : ifInstruction C sep A ≠ [] := by simp [ifInstruction]
  have hlenC : (toLowerCase C).length < (ifInstruction C sep A).length := by
    simp [ifInstruction, toLowerCase]
    omega
  have hlenA : (toLowerCase A).length < (ifInstruction C sep A).length := by
    simp [ifInstruction, toLowerCase]
    omega
  have hrC : parseCustomAssertionAux (ifInstruction C sep A).length (toLowerCase C) framework
      selector locator = some condition := by
    rw [parseAux_eq_parse _ _ _ _ _ hlenC, parse_toLowerCase]
    exact hcond
  have hrA : parseCustomAssertionAux (ifInstruction C sep A).length (toLowerCase A) framework
      selector locator = some compiled := by
    rw [parseAux_eq_parse _ _ _ _ _ hlenA, parse_toLowerCase]
    exact hact
  unfold parseCustomAssertion
  rw [parseAux_succ _ _ _ _ _ hI]
  obtain ⟨hand, hor⟩ := hplain
  simp only at h1 h2 h3 h4
  rw [hnorm] at hand hor h1 h2 h3 h4 ⊢
  exact parseBody_ifThen _ _ _ _ _ _ condition compiled _ hand hor h1 h2 h3 h4 hexec hrC hrA
    (ifThenBlock_text framework _ _ _ condition compiled hfw)

/-- An instance of `C21_conditional_when_reached`: for playwright, a condition that
does not compile and an action that does. -/
theorem C21_conditional_when_reached_witness :
    parseCustomAssertion "if Ready, then report 'x'" "playwright" "#s" "loc"
      = some (some "if (null) \x7b\n  console.log('x');\n\x7d".toList) := by
  obtain ⟨condition, compiled, hc, ha, h⟩ :=
    C21_conditional_when_reached "Ready".toList "report 'x'".toList "#s".toList "loc".toList
      (by decide) (by decide) ", then ".toList (by decide) (by decide) (by decide) (by decide)
      "playwright".toList (by decide)
  have hc' : condition = none := Option.some.inj (hc.symm.trans (by decide))
  have ha' : compiled = some "console.log('x');".toList :=
    Option.some.inj (ha.symm.trans (by decide))
  subst hc' ha'
  exact h

/-- Claim C22, as stated, fails: with the condition `text starts with 'baz'` the
pattern of `starts with` matches first, and the result is the assertion of the
condition alone; no logging call is emitted. -/
theorem C22_clause_condition_hides_report :
    parseCustomAssertion "report 'bar' if text starts with 'baz'" "playwright" "#s" "loc"
      = some (some "expect(await loc.textContent()).toMatch(/^baz/);".toList) ∧
    parseCustomAssertion "text starts with 'baz'" "playwright" "#s" "loc"
      = some (some "expect(await loc.textContent()).toMatch(/^baz/);".toList) ∧
    parseCustomAssertion "report 'bar' if text starts with 'baz'" "playwright" "#s" "loc"
      ≠ some (some
          "if (expect(await loc.textContent()).toMatch(/^baz/);) \x7b console.log('bar'); \x7d".toList) ∧
    includes "expect(await loc.textContent()).toMatch(/^baz/);" "console.log" = false := by
  decide

/-- Claim C22, amended: for each of the three frameworks and a message `MSG` (not
empty, on one line, without a quote character), in an instruction that is neither
a conjunction nor a disjunction and that none of the seven earlier patterns
matches: `report 'MSG'` compiles to the logging call of the lower-cased message;
and `report 'MSG' if COND`, with `COND` not empty, on one line, without a quote
character and without white space at its end, compiles to that call guarded by
the compilation of `COND` when `COND` compiles to code, and to the call alone
when it does not. -/
theorem C22_report_when_reached (MSG COND selector locator : Str) (hM : Literal MSG)
    (hK : Literal COND) (hKt : NoTrail COND) :
    ∀ framework ∈ ["playwright".toList, "cypress".toList, "selenium".toList],
      (Plain (reportInstruction MSG []) →
        NoneMatches beforeReport (reportInstruction MSG []) →
        parseCustomAssertion (reportInstruction MSG []) framework selector locator
          = some (some (cat [if framework = "cypress".toList then "cy.log('".toList
              else "console.log('".toList, toLowerCase MSG, "');"]))) ∧
      (Plain (reportInstruction MSG (" if ".toList ++ COND)) →
        NoneMatches beforeReport (reportInstruction MSG (" if ".toList ++ COND)) →
        ∃ cond, parseCustomAssertion COND framework selector locator = some cond ∧
          parseCustomAssertion (reportInstruction MSG (" if ".toList ++ COND)) framework
              selector locator
            = some (some (
                if truthy cond then
                  cat ["if (", showNull cond, ") \x7b ",
                    if framework = "cypress".toList then "cy.log('".toList
                    else "console.log('".toList, toLowerCase MSG, "'); \x7d"]
                else
                  cat [if framework = "cypress".toList then "cy.log('".toList
                    else "console.log('".toList, toLowerCase MSG, "');"]))) := by
  intro framework hfw
  have hfw' := hfw
  simp only [List.mem_cons, List.mem_singleton, List.not_mem_nil, or_false] at hfw'
  constructor
  · intro hplain hearly
    refine parse_report MSG [] framework selector locator none none none _ hM
      (fun z hz => by simp at hz) (Or.inl rfl) hplain hearly (headIs_opt_skip rfl) rfl ?_
    rcases hfw' with rfl | rfl | rfl <;> rfl
  · intro hplain hearly
    obtain ⟨cond, hcond⟩ := Option.isSome_iff_exists.mp
      (parseAux_isSome framework selector locator (COND.length + 1) COND (Nat.lt_succ_self _))
    refine ⟨cond, hcond, ?_⟩
    have hKl := literal_toLowerCase hK
    have hlow : toLowerCase (" if ".toList ++ COND) = " if ".toList ++ toLowerCase COND := by
      rw [toLowerCase_append]
      rfl
    have hlen : (toLowerCase COND).length
        < (reportInstruction MSG (" if ".toList ++ COND)).length := by
      simp [reportInstruction, toLowerCase]
      omega
    have htrue : truthy (some (toLowerCase COND)) = true := by
      obtain ⟨hne, _⟩ := hKl
      cases hc : toLowerCase COND with
      | nil => exact absurd hc hne
      | cons _ _ => rfl
    refine parse_report MSG (" if ".toList ++ COND) framework selector locator
      (some (" if ".toList ++ toLowerCase COND)) (some (toLowerCase COND)) cond _ hM ?_
      (Or.inr (noTrail_append _ hKt hK.1)) hplain hearly ?_ ?_ ?_
    · intro z hz
      rcases List.mem_append.mp hz with h | h
      · have hall : ∀ y ∈ " if ".toList, isQuote y = false := by decide
        exact hall z h
      · exact (hK.2 z h).2
    · rw [hlow]
      exact reportIf_headIs (toLowerCase COND) _ (literal_oneLine hKl)
    · rw [htrue, if_pos rfl]
      show parseCustomAssertionAux _ (toLowerCase COND) framework selector locator = some cond
      rw [parseAux_eq_parse _ _ _ _ _ hlen, parse_toLowerCase]
      exact hcond
    · rcases hfw' with rfl | rfl | rfl <;> cases htc : truthy cond <;>
        simp only [reportBlock, htc, Bool.false_eq_true, if_false, if_true] <;> rfl

/-- An instance of `C22_report_when_reached`: for cypress, a report guarded by a
failure handler, the one kind of condition that is tried after `report`. -/
theorem C22_report_when_reached_witness :
    parseCustomAssertion "report 'Bar' if on failure, x" "cypress" "#s" "loc"
      = some (some
          "if (Cypress.on('fail', (e) => \x7b x; throw e; \x7d);) \x7b cy.log('bar'); \x7d".toList) := by
  obtain ⟨cond, hc, h⟩ :=
    (C22_report_when_reached "Bar".toList "on failure, x".toList "#s".toList "loc".toList
      (by decide) (by decide) (by decide) "cypress".toList (by decide)).2 (by decide) (by decide)
  have hc' : cond = some "Cypress.on('fail', (e) => \x7b x; throw e; \x7d);".toList :=
    Option.some.inj (hc.symm.trans (by decide))
  subst hc'
  exact h

/-- Claim C23, as stated, fails: the literal `a.B(c)` is embedded as `a\.b\(c\)`, and the
removal of the backslashes gives `a.b(c)`, not the literal as it was written. -/
theorem C23_embedded_literal_is_lowercased :
    parseCustomAssertion "value starts with 'a.B(c)'" "cypress" "#a" "loc"
      = some (some "cy.get('#a').invoke('val').should('match', /^a\\.b\\(c\\)/);".toList) ∧
    dropEscapes "a\\.b\\(c\\)" = "a.b(c)".toList ∧
    dropEscapes "a\\.b\\(c\\)" ≠ "a.B(c)".toList := by
  decide

/-- Claim C23, amended: for playwright and cypress, each noun and a quoted literal `V`
of ASCII characters (not empty, on one line, without a quote character) in an
instruction that is neither a conjunction nor a disjunction and that no earlier
pattern matches, the regular expression emitted for `starts with` and for
`ends with` embeds the lower-cased `V` escaped; and an escaped text has a backslash
before every metacharacter and nowhere else, so that removing the backslashes
gives the lower-cased `V` back. -/
theorem C23_literal_is_escaped (V X selector locator : Str) (hV : Literal V)
    (_hascii : Ascii V) (hX : AttrName X) :
    (∀ v : Str, wellEscaped (escapeRegex v) = true ∧ dropEscapes (escapeRegex v) = v) ∧
    (Plain (clauseInstruction "text" " starts with " V) →
      NoneMatches beforeStartsWith (clauseInstruction "text" " starts with " V) →
      parseCustomAssertion (clauseInstruction "text" " starts with " V)
          "playwright" selector locator
        = some (some (cat ["expect(await ", locator, ".textContent()).toMatch(/^",
            escapeRegex (toLowerCase V), "/);"])) ∧
      parseCustomAssertion (clauseInstruction "text" " starts with " V)
          "cypress" selector locator
        = some (some (cat ["cy.get('", selector, "').invoke('text').should('match', /^",
            escapeRegex (toLowerCase V), "/);"]))) ∧
    (Plain (clauseInstruction "value" " starts with " V) →
      NoneMatches beforeStartsWith (clauseInstruction "value" " starts with " V) →
      parseCustomAssertion (clauseInstruction "value" " starts with " V)
          "playwright" selector locator
        = some (some (cat ["expect(await ", locator, ".inputValue()).toMatch(/^",
            escapeRegex (toLowerCase V), "/);"])) ∧
      parseCustomAssertion (clauseInstruction "value" " starts with " V)
          "cypress" selector locator
        = some (some (cat ["cy.get('", selector, "').invoke('val').should('match', /^",
            escapeRegex (toLowerCase V), "/);"]))) ∧
    (Plain (clauseInstruction ("attribute ".toList ++ X) " starts with " V) →
      NoneMatches beforeStartsWith (clauseInstruction ("attribute ".toList ++ X) " starts with " V) →
      parseCustomAssertion (clauseInstruction ("attribute ".toList ++ X) " starts with " V)
          "playwright" selector locator
        = some (some (cat ["expect((await ", locator, ".getAttribute(\"", toLowerCase X,
            "\"))).toMatch(/^", escapeRegex (toLowerCase V), "/);"])) ∧
      parseCustomAssertion (clauseInstruction ("attribute ".toList ++ X) " starts with " V)
          "cypress" selector locator
        = some (some (cat ["cy.get('", selector, "').invoke('attr', '", toLowerCase X,
            "').should('match', /^", escapeRegex (toLowerCase V), "/);"]))) ∧
    (Plain (clauseInstruction "text" " ends with " V) →
      NoneMatches beforeEndsWith (clauseInstruction "text" " ends with " V) →
      parseCustomAssertion (clauseInstruction "text" " ends with " V)
          "playwright" selector locator
        = some (some (cat ["expect(await ", locator, ".textContent()).toMatch(/",
            escapeRegex (toLowerCase V), "$ /);"])) ∧
      parseCustomAssertion (clauseInstruction "text" " ends with " V)
          "cypress" selector locator
        = some (some (cat ["cy.get('", selector, "').invoke('text').should('match', /",
            escapeRegex (toLowerCase V), "$ /);"]))) ∧
    (Plain (clauseInstruction "value" " ends with " V) →
      NoneMatches beforeEndsWith (clauseInstruction "value" " ends with " V) →
      parseCustomAssertion (clauseInstruction "value" " ends with " V)
          "playwright" selector locator
        = some (some (cat ["expect(await ", locator, ".inputValue()).toMatch(/",
            escapeRegex (toLowerCase V), "$ /);"])) ∧
      parseCustomAssertion (clauseInstruction "value" " ends with " V)
          "cypress" selector locator
        = some (some (cat ["cy.get('", selector, "').invoke('val').should('match', /",
            escapeRegex (toLowerCase V), "$ /);"]))) ∧
    (Plain (clauseInstruction ("attribute ".toList ++ X) " ends with " V) →
      NoneMatches beforeEndsWith (clauseInstruction ("attribute ".toList ++ X) " ends with " V) →
      parseCustomAssertion (clauseInstruction ("attribute ".toList ++ X) " ends with " V)
          "playwright" selector locator
        = some (some (cat ["expect((await ", locator, ".getAttribute(\"", toLowerCase X,
            "\"))).toMatch(/", escapeRegex (toLowerCase V), "$ /);"])) ∧
      parseCustomAssertion (clauseInstruction ("attribute ".toList ++ X) " ends with " V)
          "cypress" selector locator
        = some (some (cat ["cy.get('", selector, "').invoke('attr', '", toLowerCase X,
            "').should('match', /", escapeRegex (toLowerCase V), "$ /);"]))) := by
  have stext := fun fw code => parse_startsWith "text".toList V fw selector locator
    ((List.replicate 4 none).set 1 (some "text".toList)) code noun_text_facts.1 noun_text_facts.2 hV
  have svalue := fun fw code => parse_startsWith "value".toList V fw selector locator
    ((List.replicate 4 none).set 1 (some "value".toList)) code noun_value_facts.1
    noun_value_facts.2 hV
  have sattr := fun fw code => parse_startsWith ("attribute ".toList ++ X) V fw selector locator
    (((List.replicate 4 none).set 2 (some (toLowerCase X))).set 1
      (some ("attribute ".toList ++ toLowerCase X))) code
    (noun_attribute_facts X).1 (noun_attribute_facts X).2 hV
  have etext := fun fw code => parse_endsWith "text".toList V fw selector locator
    ((List.replicate 4 none).set 1 (some "text".toList)) code noun_text_facts.1 noun_text_facts.2 hV
  have evalue := fun fw code => parse_endsWith "value".toList V fw selector locator
    ((List.replicate 4 none).set 1 (some "value".toList)) code noun_value_facts.1
    noun_value_facts.2 hV
  have eattr := fun fw code => parse_endsWith ("attribute ".toList ++ X) V fw selector locator
    (((List.replicate 4 none).set 2 (some (toLowerCase X))).set 1
      (some ("attribute ".toList ++ toLowerCase X))) code
    (noun_attribute_facts X).1 (noun_attribute_facts X).2 hV
  obtain ⟨hx1, hx2⟩ := attrName_toLowerCase hX
  have hattrS : HeadIs (nounRe.run (clauseInstruction (toLowerCase ("attribute ".toList ++ X))
      " starts with " (toLowerCase V)) (List.replicate 4 none))
      (" starts with ".toList ++ Char.ofNat 39 :: (toLowerCase V ++ [Char.ofNat 39]),
        ((List.replicate 4 none).set 2 (some (toLowerCase X))).set 1
          (some ("attribute ".toList ++ toLowerCase X))) := by
    rw [toLowerCase_attribute]
    exact headIs_noun_attribute (toLowerCase X) _ _ hx1 hx2 rfl
  have hattrE : HeadIs (nounRe.run (clauseInstruction (toLowerCase ("attribute ".toList ++ X))
      " ends with " (toLowerCase V)) (List.replicate 4 none))
      (" ends with ".toList ++ Char.ofNat 39 :: (toLowerCase V ++ [Char.ofNat 39]),
        ((List.replicate 4 none).set 2 (some (toLowerCase X))).set 1
          (some ("attribute ".toList ++ toLowerCase X))) := by
    rw [toLowerCase_attribute]
    exact headIs_noun_attribute (toLowerCase X) _ _ hx1 hx2 rfl
  refine ⟨fun v => ⟨wellEscaped_escapeRegex v, dropEscapes_escapeRegex v⟩,
    fun hp he => ⟨?_, ?_⟩, fun hp he => ⟨?_, ?_⟩, fun hp he => ⟨?_, ?_⟩,
    fun hp he => ⟨?_, ?_⟩, fun hp he => ⟨?_, ?_⟩, fun hp he => ⟨?_, ?_⟩⟩
  · exact stext _ _ hp he (headIs_noun_text _ _) rfl
  · exact stext _ _ hp he (headIs_noun_text _ _) rfl
  · exact svalue _ _ hp he (headIs_noun_value _ _) rfl
  · exact svalue _ _ hp he (headIs_noun_value _ _) rfl
  · exact sattr _ _ hp he hattrS rfl
  · exact sattr _ _ hp he hattrS rfl
  · exact etext _ _ hp he (headIs_noun_text _ _) rfl
  · exact etext _ _ hp he (headIs_noun_text _ _) rfl
  · exact evalue _ _ hp he (headIs_noun_value _ _) rfl
  · exact evalue _ _ hp he (headIs_noun_value _ _) rfl
  · exact eattr _ _ hp he hattrE rfl
  · exact eattr _ _ hp he hattrE rfl

/-- An instance of `C23_literal_is_escaped`: for playwright, the text that ends with
`[Ok]`. -/
theorem C23_literal_is_escaped_witness :
    parseCustomAssertion "text ends with '[Ok]'" "playwright" "#a" "loc"
      = some (some "expect(await loc.textContent()).toMatch(/\\[ok\\]$ /);".toList) :=
  ((C23_literal_is_escaped "[Ok]".toList "x".toList "#a".toList "loc".toList
    (by decide) (by decide) (by decide)).2.2.2.2.1 (by decide) (by decide)).1

/-- Claim C24, as stated, fails: for the literal `Done` the regular expression of
playwright is `/done$ /` and the call of selenium is `endsWith("done")`; neither
holds the literal as it was written. -/
theorem C24_literal_is_lowercased :
    parseCustomAssertion "text ends with 'Done'" "playwright" "#a" "loc"
      = some (some "expect(await loc.textContent()).toMatch(/done$ /);".toList) ∧
    parseCustomAssertion "text ends with 'Done'" "playwright" "#a" "loc"
      ≠ some (some "expect(await loc.textContent()).toMatch(/Done$ /);".toList) ∧
    parseCustomAssertion "text ends with 'Done'" "selenium" "#a" "loc"
      = some (some
          "assert(driver.findElement(By.cssSelector('#a')).getText().endsWith(\"done\"));".toList) ∧
    parseCustomAssertion "text ends with 'Done'" "selenium" "#a" "loc"
      ≠ some (some
          "assert(driver.findElement(By.cssSelector('#a')).getText().endsWith(\"Done\"));".toList) := by
  decide

/-- Claim C24, amended: for each noun, an `ends with` clause with a quoted literal `V`
of ASCII characters (not empty, on one line, without a quote character), in an
instruction that is neither a conjunction nor a disjunction and that no earlier
pattern matches, compiles, for playwright and for cypress, to a match against a
regular expression that is the lower-cased `V` escaped, the anchor `$`, a space
and the closing slash; for selenium it compiles to a call of `endsWith` on the
lower-cased `V`, without a regular expression. -/
theorem C24_ends_with_trailing_space (V X selector locator : Str) (hV : Literal V)
    (_hascii : Ascii V) (hX : AttrName X) :
    (Plain (clauseInstruction "text" " ends with " V) →
      NoneMatches beforeEndsWith (clauseInstruction "text" " ends with " V) →
      parseCustomAssertion (clauseInstruction "text" " ends with " V)
          "playwright" selector locator
        = some (some (cat ["expect(await ", locator, ".textContent()).toMatch(/",
            escapeRegex (toLowerCase V), "$ /);"])) ∧
      parseCustomAssertion (clauseInstruction "text" " ends with " V)
          "cypress" selector locator
        = some (some (cat ["cy.get('", selector, "').invoke('text').should('match', /",
            escapeRegex (toLowerCase V), "$ /);"])) ∧
      parseCustomAssertion (clauseInstruction "text" " ends with " V)
          "selenium" selector locator
        = some (some (cat ["assert(driver.findElement(By.cssSelector('", selector,
            "')).getText().endsWith(\"", toLowerCase V, "\"));"]))) ∧
    (Plain (clauseInstruction "value" " ends with " V) →
      NoneMatches beforeEndsWith (clauseInstruction "value" " ends with " V) →
      parseCustomAssertion (clauseInstruction "value" " ends with " V)
          "playwright" selector locator
        = some (some (cat ["expect(await ", locator, ".inputValue()).toMatch(/",
            escapeRegex (toLowerCase V), "$ /);"])) ∧
      parseCustomAssertion (clauseInstruction "value" " ends with " V)
          "cypress" selector locator
        = some (some (cat ["cy.get('", selector, "').invoke('val').should('match', /",
            escapeRegex (toLowerCase V), "$ /);"])) ∧
      parseCustomAssertion (clauseInstruction "value" " ends with " V)
          "selenium" selector locator
        = some (some (cat ["assert(driver.findElement(By.cssSelector('", selector,
            "')).getAttribute('value').endsWith(\"", toLowerCase V, "\"));"]))) ∧
    (Plain (clauseInstruction ("attribute ".toList ++ X) " ends with " V) →
      NoneMatches beforeEndsWith (clauseInstruction ("attribute ".toList ++ X) " ends with " V) →
      parseCustomAssertion (clauseInstruction ("attribute ".toList ++ X) " ends with " V)
          "playwright" selector locator
        = some (some (cat ["expect((await ", locator, ".getAttribute(\"", toLowerCase X,
            "\"))).toMatch(/", escapeRegex (toLowerCase V), "$ /);"])) ∧
      parseCustomAssertion (clauseInstruction ("attribute ".toList ++ X) " ends with " V)
          "cypress" selector locator
        = some (some (cat ["cy.get('", selector, "').invoke('attr', '", toLowerCase X,
            "').should('match', /", escapeRegex (toLowerCase V), "$ /);"])) ∧
      parseCustomAssertion (clauseInstruction ("attribute ".toList ++ X) " ends with " V)
          "selenium" selector locator
        = some (some (cat ["assert(driver.findElement(By.cssSelector('", selector,
            "')).getAttribute('", toLowerCase X, "').endsWith(\"", toLowerCase V, "\"));"]))) := by
  have etext := fun fw code => parse_endsWith "text".toList V fw selector locator
    ((List.replicate 4 none).set 1 (some "text".toList)) code noun_text_facts.1 noun_text_facts.2 hV
  have evalue := fun fw code => parse_endsWith "value".toList V fw selector locator
    ((List.replicate 4 none).set 1 (some "value".toList)) code noun_value_facts.1
    noun_value_facts.2 hV
  have eattr := fun fw code => parse_endsWith ("attribute ".toList ++ X) V fw selector locator
    (((List.replicate 4 none).set 2 (some (toLowerCase X))).set 1
      (some ("attribute ".toList ++ toLowerCase X))) code
    (noun_attribute_facts X).1 (noun_attribute_facts X).2 hV
  obtain ⟨hx1, hx2⟩ := attrName_toLowerCase hX
  have hattrE : HeadIs (nounRe.run (clauseInstruction (toLowerCase ("attribute ".toList ++ X))
      " ends with " (toLowerCase V)) (List.replicate 4 none))
      (" ends with ".toList ++ Char.ofNat 39 :: (toLowerCase V ++ [Char.ofNat 39]),
        ((List.replicate 4 none).set 2 (some (toLowerCase X))).set 1
          (some ("attribute ".toList ++ toLowerCase X))) := by
    rw [toLowerCase_attribute]
    exact headIs_noun_attribute (toLowerCase X) _ _ hx1 hx2 rfl
  refine ⟨fun hp he => ⟨?_, ?_, ?_⟩, fun hp he => ⟨?_, ?_, ?_⟩, fun hp he => ⟨?_, ?_, ?_⟩⟩
  · exact etext _ _ hp he (headIs_noun_text _ _) rfl
  · exact etext _ _ hp he (headIs_noun_text _ _) rfl
  · exact etext _ _ hp he (headIs_noun_text _ _) rfl
  · exact evalue _ _ hp he (headIs_noun_value _ _) rfl
  · exact evalue _ _ hp he (headIs_noun_value _ _) rfl
  · exact evalue _ _ hp he (headIs_noun_value _ _) rfl
  · exact eattr _ _ hp he hattrE rfl
  · exact eattr _ _ hp he hattrE rfl
  · exact eattr _ _ hp he hattrE rfl

/-- An instance of `C24_ends_with_trailing_space`: for selenium, the attribute
`title` that ends with `Done.` -/
theorem C24_ends_with_trailing_space_witness :
    parseCustomAssertion "attribute title ends with 'Done.'" "selenium" "#a" "loc"
      = some (some
          "assert(driver.findElement(By.cssSelector('#a')).getAttribute('title').endsWith(\"done.\"));".toList) :=
  ((C24_ends_with_trailing_space "Done.".toList "title".toList "#a".toList "loc".toList
    (by decide) (by decide) (by decide)).2.2 (by decide) (by decide)).2.2

/-- Claim C25, as stated, fails: for `wait up to 5 seconds for the Spinner` the comment
names `the spinner`, not what is waited for as it was written. -/
theorem C25_comment_is_lowercased :
    parseCustomAssertion "wait up to 5 seconds for the Spinner" "cypress" "#a" "loc"
      = some (some "cy.get('#a', \x7b timeout: 5000 \x7d); // waiting for the spinner".toList) ∧
    parseCustomAssertion "wait up to 5 seconds for the Spinner" "cypress" "#a" "loc"
      ≠ some (some "cy.get('#a', \x7b timeout: 5000 \x7d); // waiting for the Spinner".toList) := by
  decide

/-- Claim C25, amended: the decimal text of a number is a run of digits that denotes
it; and for each of the three frameworks, a run of digits that denotes the number
`N`, each way of writing the start (`wait`, `wait up to`, `wait for`), each unit
and an ASCII text of what is waited for (on one line, without white space at its
end), in an instruction that is neither a conjunction nor a disjunction and that
no earlier pattern matches: when the timeout, `N * 1000` for `seconds` and
`second` and `N` for `ms` and `milliseconds`, is below `2 ^ 53`, the emitted wait
call has that timeout, and the line ends with the comment that names, in lower
case, what is waited for. -/
theorem C25_wait_timeout (digits what selector locator : Str) (hd : Digits digits)
    (hw : Awaited what) (_hascii : Ascii what) :
    (∀ n : Nat, Digits (numToStr n) ∧ parseInt (numToStr n) = n) ∧
    ∀ pre ∈ ["".toList, "up to ".toList, "for ".toList],
    ∀ unit ∈ ["seconds".toList, "second".toList, "ms".toList, "milliseconds".toList],
      Plain (waitInstruction pre digits unit what) →
      NoneMatches beforeWait (waitInstruction pre digits unit what) →
      waitMs unit (parseInt digits) < 2 ^ 53 →
      (waitMs unit (parseInt digits)
        = if unit = "seconds".toList ∨ unit = "second".toList then parseInt digits * 1000
          else parseInt digits) ∧
      parseCustomAssertion (waitInstruction pre digits unit what) "playwright" selector locator
        = some (some (cat ["await ", locator, ".waitFor(\x7b timeout: ",
            numToStr (waitMs unit (parseInt digits)), " \x7d); // waiting for ",
            toLowerCase what])) ∧
      parseCustomAssertion (waitInstruction pre digits unit what) "cypress" selector locator
        = some (some (cat ["cy.get('", selector, "', \x7b timeout: ",
            numToStr (waitMs unit (parseInt digits)), " \x7d); // waiting for ",
            toLowerCase what])) ∧
      parseCustomAssertion (waitInstruction pre digits unit what) "selenium" selector locator
        = some (some (cat ["await driver.wait(until.elementLocated(By.cssSelector('", selector,
            "')), ", numToStr (waitMs unit (parseInt digits)), "); // waiting for ",
            toLowerCase what])) := by
  refine ⟨parseInt_numToStr, ?_⟩
  intro pre hpre unit hu hplain hearly _
  have hunit : toLowerCase unit = unit := by
    have hu' := hu
    simp only [List.mem_cons, List.mem_singleton, List.not_mem_nil, or_false] at hu'
    rcases hu' with rfl | rfl | rfl | rfl <;> rfl
  obtain ⟨hdne, hdig⟩ := hd
  have key : ∀ fw code,
      waitBlock fw selector locator
        [some (waitInstruction pre digits unit (toLowerCase what)),
          (if pre = "up to ".toList then some "up to".toList
            else if pre = "for ".toList then some "for".toList else none),
          some digits, some unit, some (toLowerCase what)] = some code →
      parseCustomAssertion (waitInstruction pre digits unit what) fw selector locator
        = some (some code) := by
    intro fw code hcode
    simp only [List.mem_cons, List.mem_singleton, List.not_mem_nil, or_false] at hpre
    rcases hpre with rfl | rfl | rfl
    · cases hdg : digits with
      | nil => exact absurd hdg hdne
      | cons d t =>
        subst hdg
        have hdd := hdig d (List.mem_cons_self _ _)
        obtain ⟨q1, q2⟩ := headIs_wait_prefix_none d
          (t ++ (' ' :: (unit ++ (" for ".toList ++ toLowerCase what)))) (List.replicate 5 none) hdd
        exact parse_wait [] (d :: t) unit what fw selector locator none _ code rfl hunit hu
          ⟨hdne, hdig⟩ hw hplain hearly q1 q2 hcode
    · exact parse_wait "up to ".toList digits unit what fw selector locator (some "up to".toList)
        _ code rfl hunit hu ⟨hdne, hdig⟩ hw hplain hearly (headIs_wait_prefix_upto _ _)
        (headIs_opt (headIs_lit ' ' _ _)) hcode
    · exact parse_wait "for ".toList digits unit what fw selector locator (some "for".toList)
        _ code rfl hunit hu ⟨hdne, hdig⟩ hw hplain hearly (headIs_wait_prefix_for _ _)
        (headIs_opt (headIs_lit ' ' _ _)) hcode
  refine ⟨rfl, ?_, ?_, ?_⟩
  · exact key _ _ (by rw [waitBlock_caps _ _ _ _ _ _ _ _ hu]; rfl)
  · exact key _ _ (by rw [waitBlock_caps _ _ _ _ _ _ _ _ hu]; rfl)
  · exact key _ _ (by rw [waitBlock_caps _ _ _ _ _ _ _ _ hu]; rfl)

/-- An instance of `C25_wait_timeout`: for playwright, `wait for 250 ms for the Menu`. -/
theorem C25_wait_timeout_witness :
    parseCustomAssertion "wait for 250 ms for the Menu" "playwright" "#a" "loc"
      = some (some "await loc.waitFor(\x7b timeout: 250 \x7d); // waiting for the menu".toList) :=
  ((C25_wait_timeout "250".toList "the Menu".toList "#a".toList "loc".toList (by decide)
    (by decide) (by decide)).2 "for ".toList (by decide) "ms".toList (by decide)
    (by decide) (by decide) (by decide)).2.1

/-- Claim C26: for a framework that is none of playwright, cypress and selenium
(plain included) `parseCustomAssertion` returns, for every instruction, selector
and locator, the empty text when the instruction is not empty and its trimmed
lower-case text holds ` and `, and `null` otherwise; so its result is never truthy
and never stands in for the templated assertion. -/
theorem C26_no_code_for_other_frameworks (instruction framework selector locator : Str)
    (h : OtherFramework framework) :
    parseCustomAssertion instruction framework selector locator =
      some (if instruction ≠ [] ∧ includes (normalize instruction) " and " = true then some []
        else none) ∧
    (∀ r, parseCustomAssertion instruction framework selector locator = some r →
      truthy r = false) ∧
    OtherFramework "plain" := by
  have hsome := parseAux_isSome framework selector locator (instruction.length + 1) instruction
    (Nat.lt_succ_self _)
  obtain ⟨r, hr⟩ := Option.isSome_iff_exists.mp hsome
  have hval := parseAux_other h selector locator _ _ r hr
  have heq : parseCustomAssertion instruction framework selector locator = some r := hr
  refine ⟨?_, ?_, by decide⟩
  · rw [heq, hval]
  · intro x hx
    rw [heq] at hx
    rw [← Option.some.inj hx, hval]
    split <;> rfl

/-- An instance of `C26_no_code_for_other_frameworks`: for plain, a conjunction of
two clauses gives the empty text. -/
theorem C26_no_code_for_other_frameworks_witness :
    parseCustomAssertion "text starts with 'a' and value ends with 'b'" "plain" "#a" "loc"
      = some (some []) :=
  (C26_no_code_for_other_frameworks "text starts with 'a' and value ends with 'b'".toList
    "plain".toList "#a".toList "loc".toList (by decide)).1

/-- Claim C27: for a framework name `f` that is not empty and is none of plain,
playwright, cypress and selenium, `parseConfig` keeps `f` and loads no default,
and still, for every action list without an assertion and without an action of
the kind `assert`, every locator map and every user template mapping,
`generateAutomationScript` gives with `f` what it gives with `plain`. -/
theorem C27_unrecognized_framework_like_plain (f : Str) (lm : Option (List (Str × Str)))
    (u : Option Templates) (acts : List Action) (hne : f ≠ []) (hf : f ∉ recognizedFrameworks)
    (h : ∀ a ∈ acts, a.assert = false ∧ a.type ≠ "assert".toList) :
    (parseConfig { framework := some f, locatorMap := lm, actions := u }).framework = f ∧
    (parseConfig { framework := some f, locatorMap := lm, actions := u }).actionTemplates
      = Templates.empty.spread (u.getD Templates.empty) ∧
    generateAutomationScript (some acts) (some { framework := some f, locatorMap := lm, actions := u })
      = generateAutomationScript (some acts)
          (some { framework := some "plain", locatorMap := lm, actions := u }) := by
  have hf' : f ∉ ["plain".toList, "playwright".toList, "cypress".toList, "selenium".toList] := hf
  have hparts := hf'
  simp only [List.mem_cons, List.mem_singleton, List.not_mem_nil, or_false, not_or] at hparts
  obtain ⟨_, hp, hc, hs⟩ := hparts
  have hfw : (parseConfig { framework := some f, locatorMap := lm, actions := u }).framework = f :=
    parseConfig_framework _ f rfl hne
  have hpf : parseConfig { framework := some f, locatorMap := lm, actions := u }
      = ⟨f, lm.getD [], Templates.empty.spread (u.getD Templates.empty)⟩ := by
    have ht := parseConfig_templates { framework := some f, locatorMap := lm, actions := u }
    rw [hfw, defaultTemplates_unrecognized f hf'] at ht
    cases hcfg : parseConfig { framework := some f, locatorMap := lm, actions := u } with
    | mk fw l t =>
      rw [hcfg] at hfw ht
      simp only at hfw ht
      have hl : l = lm.getD [] := by
        have : (parseConfig { framework := some f, locatorMap := lm, actions := u }).locatorMap
            = lm.getD [] := rfl
        rw [hcfg] at this
        exact this
      rw [hfw, ht, hl]
  refine ⟨hfw, by rw [hpf], ?_⟩
  cases acts with
  | nil => rfl
  | cons a rest =>
    have hall := allActionLines_same f (lm.getD []) (u.getD Templates.empty) hc hs (a :: rest) h
    have hh : headerLines f = [] := by
      simp only [headerLines, strEq, decide_eq_false hp, decide_eq_false hc, decide_eq_false hs,
        Bool.false_eq_true, if_false]
    have hft : footerLines f = [] := by
      simp only [footerLines, strEq, decide_eq_false hp, decide_eq_false hs,
        Bool.false_eq_true, if_false]
    show (allActionLines (parseConfig { framework := some f, locatorMap := lm, actions := u })
        (a :: rest)).map _ = (allActionLines
          ⟨"plain", lm.getD [], (defaultTemplates "plain").spread (u.getD Templates.empty)⟩
        (a :: rest)).map _
    rw [hpf, hall]
    simp only [hh, hft]
    rfl

/-- An instance of `C27_unrecognized_framework_like_plain`: `webdriverio`, a click and
an input, a locator map for the click and a user template for the input. -/
theorem C27_unrecognized_framework_like_plain_witness :
    generateAutomationScript
      (some [{ type := "click", selector := "#go", value := none, assert := false,
               assertType := none, assertInstruction := none },
             { type := "input", selector := "#name", value := some "bob", assert := false,
               assertType := none, assertInstruction := none }])
      (some ⟨some "webdriverio", some [("#go", "$('#go')")],
        some ⟨[("input", "type(\x7blocator\x7d, \x7bvalue\x7d);")], none⟩⟩)
      = generateAutomationScript
      (some [{ type := "click", selector := "#go", value := none, assert := false,
               assertType := none, assertInstruction := none },
             { type := "input", selector := "#name", value := some "bob", assert := false,
               assertType := none, assertInstruction := none }])
      (some ⟨some "plain", some [("#go", "$('#go')")],
        some ⟨[("input", "type(\x7blocator\x7d, \x7bvalue\x7d);")], none⟩⟩) ∧
    generateAutomationScript
      (some [{ type := "click", selector := "#go", value := none, assert := false,
               assertType := none, assertInstruction := none },
             { type := "input", selector := "#name", value := some "bob", assert := false,
               assertType := none, assertInstruction := none }])
      (some ⟨some "plain", some [("#go", "$('#go')")],
        some ⟨[("input", "type(\x7blocator\x7d, \x7bvalue\x7d);")], none⟩⟩)
      = .ok "  $('#go').click();\n  type(document.querySelector(\"#name\"), bob);" :=
  ⟨(C27_unrecognized_framework_like_plain "webdriverio".toList (some [("#go", "$('#go')")])
    (some ⟨[("input", "type(\x7blocator\x7d, \x7bvalue\x7d);")], none⟩)
    [{ type := "click", selector := "#go", value := none, assert := false,
       assertType := none, assertInstruction := none },
     { type := "input", selector := "#name", value := some "bob", assert := false,
       assertType := none, assertInstruction := none }]
    (by decide) (by decide) (by decide)).2.2, rfl⟩

end ScriptGen
